import Mathlib

/-!
# A shallow embedding of `tracer.cpp`

The path tracer works on C++ `double`s.  The embedding is written over an arbitrary
linearly ordered field `α`; the theorems instantiate it at `ℝ`, so every statement is
about the exact-arithmetic reading of the program (no rounding, no NaN, no infinities).

The functions of `<math.h>` and `<stdlib.h>` the program calls (`sqrt`, `cos`, `sin`,
`pow`, `rand`, `RAND_MAX`) are not part of the repository: they are parameters of the
definitions that use them, and the theorems put `Real.sqrt`, `Real.rpow`, ... in their place.

C++ `int`s (`depth`, `emissive`) are embedded as `Int`.  In `radiance` the increment
`++depth` is `depth + 1`, which is what C++ defines for every `depth` below `INT_MAX`; at
`INT_MAX` the increment overflows, and `radiance32` reads it as the 32-bit binary does
(`incDepth32`, wrapping to `INT_MIN`).  The two readings agree on every `int` below
`INT_MAX` (`radiance32_eq_of_lt`).
-/

namespace Tracer

/-! ## `struct Vector` (lines 13-45) -/

/-- The `Vector` struct: a position or a colour (r,g,b). -/
structure Vector (α : Type) where
  x : α
  y : α
  z : α
  deriving DecidableEq, Repr

namespace Vector

variable {α : Type}

/-- The value of `Vector()`: all three default arguments are 0. -/
def zero [Zero α] : Vector α := ⟨0, 0, 0⟩

/-- The function `operator+` (line 18). -/
def add [Add α] (a b : Vector α) : Vector α := ⟨a.x + b.x, a.y + b.y, a.z + b.z⟩

/-- The function `operator-` (line 22). -/
def sub [Sub α] (a b : Vector α) : Vector α := ⟨a.x - b.x, a.y - b.y, a.z - b.z⟩

/-- The function `operator*(double)` (line 26), written `a.smul b` for `a * b`. -/
def smul [Mul α] (a : Vector α) (b : α) : Vector α := ⟨a.x * b, a.y * b, a.z * b⟩

/-- The function `operator%`, the cross product (line 30). -/
def cross [Mul α] [Sub α] (a b : Vector α) : Vector α :=
  ⟨a.y * b.z - a.z * b.y, a.z * b.x - a.x * b.z, a.x * b.y - a.y * b.x⟩

/-- The function `mult`, the component-wise product (line 34). -/
def mult [Mul α] (a b : Vector α) : Vector α := ⟨a.x * b.x, a.y * b.y, a.z * b.z⟩

/-- The function `dot` (line 42). -/
def dot [Mul α] [Add α] (a b : Vector α) : α := a.x * b.x + a.y * b.y + a.z * b.z

instance [Add α] : Add (Vector α) := ⟨add⟩

instance [Sub α] : Sub (Vector α) := ⟨sub⟩

/-- Every channel of the vector is at least 0. -/
def nonneg [LE α] [Zero α] (a : Vector α) : Prop := 0 ≤ a.x ∧ 0 ≤ a.y ∧ 0 ≤ a.z

/-- The function `norm` (line 38): the vector times `1 / sqrt(x*x + y*y + z*z)`.
In C++ it also overwrites the operand and returns a reference to it; the embedding returns
the new value, and a call site that reads the operand again (line 235) says which value it
reads. -/
def norm [Field α] (sqrt : α → α) (a : Vector α) : Vector α :=
  a.smul (1 / sqrt (a.x * a.x + a.y * a.y + a.z * a.z))

end Vector

/-! ## `struct Ray`, `enum Material`, `struct Sphere` (lines 47-78) -/

/-- The `Ray` struct: origin vector, direction vector. -/
structure Ray (α : Type) where
  origin : Vector α
  direction : Vector α

/-- The `Material` enum: determines the type of reflection. -/
inductive Material where
  | DIFFUSE
  | SPECULAR
  | REFRACTIVE
  deriving DecidableEq, Repr

/-- The `Sphere` struct. -/
structure Sphere (α : Type) where
  radius : α
  position : Vector α
  emission : Vector α
  colour : Vector α
  material : Material

section Geometry

variable {α : Type} [LinearOrderedField α]

/-- The constant `eps = 1e-4` of `Sphere::intersect`. -/
def eps : α := 1 / 10000

/-- The function `Sphere::intersect` (lines 63-77): the distance along the ray, 0 if the ray
misses the sphere. -/
def Sphere.intersect (sqrt : α → α) (s : Sphere α) (ray : Ray α) : α :=
  let op := s.position - ray.origin
  let b := op.dot ray.direction
  let det := b * b - op.dot op + s.radius * s.radius
  if det < 0 then 0
  else
    let det := sqrt det
    if b - det > eps then b - det
    else if b + det > eps then b + det
    else 0

/-- The sphere equation of the comment at line 64, `(P - C) . (P - C) - r^2 = 0`: the
point `P` lies on the sphere. -/
def onSphere (s : Sphere α) (P : Vector α) : Prop :=
  (P - s.position).dot (P - s.position) - s.radius * s.radius = 0

instance (s : Sphere α) (P : Vector α) : Decidable (onSphere s P) :=
  inferInstanceAs (Decidable ((P - s.position).dot (P - s.position) - s.radius * s.radius = 0))

/-- The array `spheres` (lines 80-91): the fixed scene of ten spheres. -/
def spheres : List (Sphere α) :=
  [ ⟨100000, ⟨100000 + 1, 408 / 10, 816 / 10⟩, Vector.zero, ⟨3 / 4, 1 / 4, 1 / 4⟩,
      Material.DIFFUSE⟩,
    ⟨100000, ⟨-100000 + 99, 408 / 10, 816 / 10⟩, Vector.zero, ⟨1 / 4, 1 / 4, 3 / 4⟩,
      Material.DIFFUSE⟩,
    ⟨100000, ⟨50, 408 / 10, 100000⟩, Vector.zero, ⟨3 / 4, 3 / 4, 3 / 4⟩, Material.DIFFUSE⟩,
    ⟨100000, ⟨50, 408 / 10, -100000 + 170⟩, Vector.zero, Vector.zero, Material.DIFFUSE⟩,
    ⟨100000, ⟨50, 100000, 816 / 10⟩, Vector.zero, ⟨3 / 4, 3 / 4, 3 / 4⟩, Material.DIFFUSE⟩,
    ⟨100000, ⟨50, -100000 + 816 / 10, 816 / 10⟩, Vector.zero, ⟨3 / 4, 3 / 4, 3 / 4⟩,
      Material.DIFFUSE⟩,
    ⟨165 / 10, ⟨27, 165 / 10, 47⟩, Vector.zero, (⟨1, 1, 1⟩ : Vector α).smul (999 / 1000),
      Material.SPECULAR⟩,
    ⟨11, ⟨55, 11, 95⟩, Vector.zero, (⟨1, 1, 1⟩ : Vector α).smul (999 / 1000), Material.SPECULAR⟩,
    ⟨20, ⟨73, 165 / 10, 55⟩, Vector.zero, (⟨1, 1, 1⟩ : Vector α).smul (999 / 1000),
      Material.REFRACTIVE⟩,
    ⟨15 / 10, ⟨50, 816 / 10 - 165 / 10, 816 / 10⟩, (⟨4, 4, 4⟩ : Vector α).smul 100, Vector.zero,
      Material.DIFFUSE⟩ ]

/-- Line 128: the point `ray.origin + ray.direction * t`. -/
def hitPoint (ray : Ray α) (t : α) : Vector α := ray.origin + ray.direction.smul t

/-- The function `clamp` (line 95). -/
def clamp (x : α) : α := if x < 0 then 0 else if x > 1 then 1 else x

/-- The conversion `int(v)` of a double: truncation toward zero. -/
def trunc [FloorRing α] (v : α) : Int := if 0 ≤ v then Int.floor v else Int.ceil v

/-- The function `toInt` (line 100): gamma 1/2.2, scaled to 255 and rounded. -/
def toInt [FloorRing α] (pow : α → α → α) (x : α) : Int :=
  trunc (pow (clamp x) (1 / (22 / 10)) * 255 + 1 / 2)

/-- The constant `inf = 1e20` of the scene query. -/
def inf : α := 10 ^ 20

/-- The loop `for (int i = int(n); i--;)` of the scene query (lines 110-115), from index
`i - 1` down to 0, on the pair `(t, id)`.  In C++ `(d = ...) && d < t` tests `d != 0`. -/
def intersectLoop (sqrt : α → α) (scene : List (Sphere α)) (ray : Ray α) :
    Nat → α × Nat → α × Nat
  | 0, st => st
  | i + 1, st =>
    match scene[i]? with
    | none => intersectLoop sqrt scene ray i st
    | some s =>
      let d := s.intersect sqrt ray
      if d ≠ 0 ∧ d < st.1 then intersectLoop sqrt scene ray i (d, i)
      else intersectLoop sqrt scene ray i st

/-- The scene query `intersect(ray, t, id)` (lines 104-118).  The program scans the global
array `spheres`; the embedding takes the scene as a list, so that statements can range
over scenes.  The returned triple is the result, the final `t` and the final `id`; the
argument `id` is the value the caller's variable holds at the call. -/
def intersect (sqrt : α → α) (scene : List (Sphere α)) (ray : Ray α) (id : Nat) :
    Bool × α × Nat :=
  let st := intersectLoop sqrt scene ray scene.length (inf, id)
  (decide (st.1 < inf), st.1, st.2)

end Geometry

/-! ## The random source and `radiance` (lines 6-11, 120-204) -/

/-- What the program takes from `<math.h>` and `<stdlib.h>`: the three real functions
`radiance` calls, the constant `RAND_MAX`, and the results of the successive calls
of `rand()`: the call number `k` (counted from 0) returns `rand k`. -/
structure Libc (α : Type) where
  sqrt : α → α
  cos : α → α
  sin : α → α
  RAND_MAX : Nat
  rand : Nat → Nat

section Radiance

variable {α : Type} [LinearOrderedField α]

/-- The global `M_PI = 3.1415926535` (line 6). -/
def M_PI : α := 31415926535 / 10000000000

/-- The global `M_1_PI = 1.0 / M_PI` (line 7). -/
def M_1_PI : α := 1 / M_PI

/-- The function `erand48` (lines 9-11): it ignores its argument and returns
`(double)rand() / (double)RAND_MAX`.  Here `k` is the number of calls of `rand()` made
before this one; the caller goes on with `k + 1`. -/
def erand48 (L : Libc α) (k : Nat) : α := (L.rand k : α) / (L.RAND_MAX : α)

/-- The roulette probability `p` (line 134): the nested conditional on the colour. -/
def maxChannel (colour : Vector α) : α :=
  if colour.x > colour.y ∧ colour.x > colour.z then colour.x
  else if colour.y > colour.z then colour.y else colour.z

/-- Line 135, Russian roulette, with `depth` the depth after `++depth`.  The result is
`Sum.inl v` when the call returns `v` there, `Sum.inr c` when it goes on with working
colour `c`; the second component is the number of `rand()` calls made so far. -/
def roulette (L : Libc α) (depth : Int) (p : α) (colour emission : Vector α) (emissive : Int)
    (k : Nat) : (Vector α ⊕ Vector α) × Nat :=
  if depth > 5 ∨ p = 0 then
    if erand48 L k < p then (Sum.inr (colour.smul (1 / p)), k + 1)
    else (Sum.inl (emission.smul (emissive : α)), k + 1)
  else (Sum.inr colour, k)

/-- The vector `(fabs(w.x) > 0.1 ? Vector(0, 1) : Vector(1)) % w` before normalisation
(lines 145 and 158). -/
def perp (w : Vector α) : Vector α :=
  (if |w.x| > 1 / 10 then (⟨0, 1, 0⟩ : Vector α) else ⟨1, 0, 0⟩).cross w

/-- Line 147: the sampled diffuse direction before `.norm()`, from the frame `u, v, w`
and the two draws (`r1` already multiplied by `2 * M_PI`). -/
def diffuseDir (L : Libc α) (u v w : Vector α) (r1 r2 : α) : Vector α :=
  ((u.smul (L.cos r1)).smul (L.sqrt r2) + (v.smul (L.sin r1)).smul (L.sqrt r2)) +
    w.smul (L.sqrt (1 - r2))

/-- Line 162: `cos_a_max` for a light `sphere` seen from `intersection`. -/
def cosAMax (L : Libc α) (sphere : Sphere α) (intersection : Vector α) : α :=
  L.sqrt (1 - sphere.radius * sphere.radius /
    (intersection - sphere.position).dot (intersection - sphere.position))

/-- Lines 157-170: the shadow direction toward `sphere` for the draws `eps1`, `eps2`,
after `shadow.norm()`. -/
def shadowDir (L : Libc α) (sphere : Sphere α) (intersection : Vector α) (eps1 eps2 : α) :
    Vector α :=
  let sw := sphere.position - intersection
  let su := (perp sw).norm L.sqrt
  let sv := sw.cross su
  let cos_a_max := cosAMax L sphere intersection
  let cos_a := 1 - eps1 + eps1 * cos_a_max
  let sin_a := L.sqrt (1 - cos_a * cos_a)
  let phi := 2 * M_PI * eps2
  (((su.smul (L.cos phi)).smul sin_a + (sv.smul (L.sin phi)).smul sin_a) +
    sw.smul cos_a).norm L.sqrt

/-- Line 175: what one unoccluded light adds to `e`. -/
def lightTerm (L : Libc α) (sphere : Sphere α) (intersection oriented colour shadow : Vector α) :
    Vector α :=
  let cos_a_max := cosAMax L sphere intersection
  let omega := 2 * M_PI * (1 - cos_a_max)
  (colour.mult ((sphere.emission.smul (shadow.dot oriented)).smul omega)).smul M_1_PI

/-- One iteration of the light loop (lines 152-176) for the sphere of index `i`, on the
triple `(e, k, id)`: the sum so far, the number of `rand()` calls so far, and the
variable `id` of `radiance`, which the shadow query overwrites. -/
def lightStep (L : Libc α) (scene : List (Sphere α)) (intersection oriented colour : Vector α)
    (i : Nat) (sphere : Sphere α) (st : Vector α × Nat × Nat) : Vector α × Nat × Nat :=
  if sphere.emission.x ≤ 0 ∧ sphere.emission.y ≤ 0 ∧ sphere.emission.z ≤ 0 then st
  else
    let eps1 := erand48 L st.2.1
    let eps2 := erand48 L (st.2.1 + 1)
    let shadow := shadowDir L sphere intersection eps1 eps2
    let q := intersect L.sqrt scene ⟨intersection, shadow⟩ st.2.2
    if q.1 = true ∧ q.2.2 = i then
      (st.1 + lightTerm L sphere intersection oriented colour shadow, st.2.1 + 2, q.2.2)
    else (st.1, st.2.1 + 2, q.2.2)

/-- The light loop `for (int i = 0; i < numSpheres; i++)` (lines 151-177). -/
def lightLoop (L : Libc α) (scene : List (Sphere α)) (intersection oriented colour : Vector α)
    (st : Vector α × Nat × Nat) : Vector α × Nat × Nat :=
  (List.range scene.length).foldl
    (fun acc i =>
      match scene[i]? with
      | none => acc
      | some sphere => lightStep L scene intersection oriented colour i sphere acc)
    st

/-- Line 196: Schlick's `Re = R0 + (1 - R0) * c * c * c * c * c`. -/
def schlick (R0 c : α) : α := R0 + (1 - R0) * c * c * c * c * c

/-- The values `Tr`, `P`, `RP`, `TP` of line 197. -/
structure Weights (α : Type) where
  Tr : α
  P : α
  RP : α
  TP : α

/-- Line 197: `Tr = 1 - Re, P = 0.25 + 0.5 * Re, RP = Re / P, TP = Tr / (1 - P)`. -/
def weights (Re : α) : Weights α :=
  let Tr := 1 - Re
  let P := 1 / 4 + 1 / 2 * Re
  ⟨Tr, P, Re / P, Tr / (1 - P)⟩

/-- The reflected direction `d - n * 2 * n.dot(d)` (lines 184 and 188). -/
def reflect (d n : Vector α) : Vector α := d - (n.smul 2).smul (n.dot d)

/-- Line 130: the oriented normal, `normal` or `normal * -1`. -/
def orient (normal direction : Vector α) : Vector α :=
  if normal.dot direction < 0 then normal else normal.smul (-1)

/-- Line 190: `nnt = into ? nc / nt : nt / nc` with `nc = 1`, `nt = 1.5`. -/
def nnt (into : Bool) : α := if into then 1 / (3 / 2) else (3 / 2) / 1

/-- Line 192: `cos2t = 1 - nnt * nnt * (1 - ddn * ddn)`. -/
def cos2t (n ddn : α) : α := 1 - n * n * (1 - ddn * ddn)

/-- Line 194: the refracted direction before `.norm()`. -/
def refractedRaw (L : Libc α) (direction normal : Vector α) (into : Bool) (ddn : α) :
    Vector α :=
  direction.smul (nnt into) -
    normal.smul ((if into then 1 else -1) * (ddn * nnt into + L.sqrt (cos2t (nnt into) ddn)))

/-- Line 196: `R0 = a * a / (b * b)` with `a = nt - nc`, `b = nt + nc`. -/
def R0 : α := (3 / 2 - 1) * (3 / 2 - 1) / ((3 / 2 + 1) * (3 / 2 + 1))

/-- Line 196: `c = 1 - (into ? -ddn : refracted.dot(normal))`. -/
def schlickC (into : Bool) (ddn : α) (refracted normal : Vector α) : α :=
  1 - (if into then -ddn else refracted.dot normal)

/-- Lines 189-194: the refracted direction after `.norm()`, from the ray direction, the
normal and the oriented normal (`into = normal.dot(oriented) > 0`,
`ddn = direction.dot(oriented)`). -/
def refracted (L : Libc α) (direction normal oriented : Vector α) : Vector α :=
  (refractedRaw L direction normal (decide (normal.dot oriented > 0))
    (direction.dot oriented)).norm L.sqrt

/-- Lines 196-197: the Fresnel reflectance `Re` of the refractive branch. -/
def fresnel (L : Libc α) (direction normal oriented : Vector α) : α :=
  schlick R0 (schlickC (decide (normal.dot oriented > 0)) (direction.dot oriented)
    (refracted L direction normal oriented) normal)

/-- The result type of `radiance`: the returned vector and the number of `rand()` calls
made so far; `none` when the nesting budget of the embedding is used up or the scene
array is read out of bounds. -/
abbrev Result (α : Type) : Type := Option (Vector α × Nat)

/-- Lines 140-147: the direction `d` of the diffuse bounce for the oriented normal
`oriented`, from the two draws number `k` and `k + 1`. -/
def bounceDir (L : Libc α) (oriented : Vector α) (k : Nat) : Vector α :=
  let r1 := 2 * M_PI * erand48 L k
  let r2 := erand48 L (k + 1)
  let w := oriented
  let u := (perp w).norm L.sqrt
  let v := w.cross u
  (diffuseDir L u v w r1 r2).norm L.sqrt

/-- The diffuse branch (lines 139-180).  Here `depth` is the incremented depth, `colour`
the working colour after the roulette, and `self` stands for the recursive call
`radiance(ray, depth, seed, emissive)` at `k` calls of `rand()`. -/
def diffuse (L : Libc α) (scene : List (Sphere α))
    (self : Ray α → Int → Nat → Int → Result α) (obj : Sphere α)
    (intersection oriented colour : Vector α) (depth : Int) (k id : Nat) (emissive : Int) :
    Result α :=
  let d := bounceDir L oriented k
  let st := lightLoop L scene intersection oriented colour (Vector.zero, k + 2, id)
  (self ⟨intersection, d⟩ depth st.2.1 0).map fun r =>
    ((obj.emission.smul (emissive : α) + st.1) + colour.mult r.1, r.2)

/-- The specular branch (lines 183-185); the recursive call has the default `emissive = 1`. -/
def specular (self : Ray α → Int → Nat → Int → Result α) (obj : Sphere α) (ray : Ray α)
    (intersection normal colour : Vector α) (depth : Int) (k : Nat) : Result α :=
  (self ⟨intersection, reflect ray.direction normal⟩ depth k 1).map fun r =>
    (obj.emission + colour.mult r.1, r.2)

/-- The refractive branch (lines 188-203).  For `depth <= 2` the two recursive calls are
operands of one `+`, whose order C++ leaves open; the embedding runs the reflected ray
first. -/
def refractive (L : Libc α) (self : Ray α → Int → Nat → Int → Result α) (obj : Sphere α)
    (ray : Ray α) (intersection normal oriented colour : Vector α) (depth : Int) (k : Nat) :
    Result α :=
  let reflRay : Ray α := ⟨intersection, reflect ray.direction normal⟩
  let into : Bool := decide (normal.dot oriented > 0)
  let ddn := ray.direction.dot oriented
  if cos2t (nnt into) ddn < 0 then
    (self reflRay depth k 1).map fun r => (obj.emission + colour.mult r.1, r.2)
  else
    let refracted := (refractedRaw L ray.direction normal into ddn).norm L.sqrt
    let Re := schlick R0 (schlickC into ddn refracted normal)
    let wt := weights Re
    if depth > 2 then
      if erand48 L k < wt.P then
        (self reflRay depth (k + 1) 1).map fun r =>
          (obj.emission + colour.mult (r.1.smul wt.RP), r.2)
      else
        (self ⟨intersection, refracted⟩ depth (k + 1) 1).map fun r =>
          (obj.emission + colour.mult (r.1.smul wt.TP), r.2)
    else
      (self reflRay depth k 1).bind fun r =>
        (self ⟨intersection, refracted⟩ depth r.2 1).map fun r2 =>
          (obj.emission + colour.mult (r.1.smul Re + r2.1.smul wt.Tr), r2.2)

/-- Lines 136-203: what `radiance` does after the roulette, with `depth` the incremented
depth, `colour` the working colour and `k` the number of `rand()` calls made so far:
the depth cap, then the branch of the material. -/
def shade (L : Libc α) (scene : List (Sphere α))
    (self : Ray α → Int → Nat → Int → Result α) (obj : Sphere α) (ray : Ray α)
    (intersection normal oriented colour : Vector α) (depth : Int) (k id : Nat)
    (emissive : Int) : Result α :=
  if depth > 100 then some (obj.emission, k)
  else
    match obj.material with
    | Material.DIFFUSE =>
      diffuse L scene self obj intersection oriented colour depth k id emissive
    | Material.SPECULAR => specular self obj ray intersection normal colour depth k
    | Material.REFRACTIVE =>
      refractive L self obj ray intersection normal oriented colour depth k

/-- The body of `radiance` (lines 120-204) with its recursive calls made through `self`. -/
def radianceBody (L : Libc α) (scene : List (Sphere α))
    (self : Ray α → Int → Nat → Int → Result α)
    (ray : Ray α) (depth : Int) (k : Nat) (emissive : Int) : Result α :=
  let q := intersect L.sqrt scene ray 0
  if q.1 = false then some (Vector.zero, k)
  else
    match scene[q.2.2]? with
    | none => none
    | some obj =>
      let intersection := hitPoint ray q.2.1
      let normal := (intersection - obj.position).norm L.sqrt
      let oriented := orient normal ray.direction
      let p := maxChannel obj.colour
      match roulette L (depth + 1) p obj.colour obj.emission emissive k with
      | (Sum.inl v, k1) => some (v, k1)
      | (Sum.inr colour, k1) =>
        shade L scene self obj ray intersection normal oriented colour (depth + 1) k1 q.2.2
          emissive

/-- The function `radiance` (lines 120-204) on a scene given as a list (`spheres` in the
program).  The first argument bounds the nesting of calls: with budget 0 there is no
result, with budget `n + 1` the body runs and its recursive calls have budget `n`. -/
def radiance (L : Libc α) (scene : List (Sphere α)) :
    Nat → Ray α → Int → Nat → Int → Result α
  | 0 => fun _ _ _ _ => none
  | n + 1 => radianceBody L scene (radiance L scene n)

/-- The value `++depth` leaves in the 32-bit `int depth` of the binary (line 135):
`depth + 1` for `depth` below `INT_MAX = 2147483647`, and `INT_MIN = -2147483648` at
`INT_MAX`, where the C++ increment overflows and the binary wraps around. -/
def incDepth32 (depth : Int) : Int := (depth + 1 + 2147483648) % 4294967296 - 2147483648

/-- The image width of `main`. -/
def width : Int := 512

/-- The image height of `main`. -/
def height : Int := 384

/-- The ray `camera` (line 213). -/
def camera (L : Libc α) : Ray α :=
  ⟨⟨50, 52, 2956 / 10⟩, (⟨0, -(42612 / 1000000), -1⟩ : Vector α).norm L.sqrt⟩

/-- The vector `cx` (line 214). -/
def cx (w h : Int) : Vector α := ⟨(w : α) * (5135 / 10000) / (h : α), 0, 0⟩

/-- The vector `cy` (line 215). -/
def cy (L : Libc α) (w h : Int) : Vector α :=
  (((cx w h).cross (camera L).direction).norm L.sqrt).smul (5135 / 10000)

/-- The buffer index `i = (height - y - 1) * width + x` (line 227). -/
def pixelIndex (w h x y : Int) : Int := (h - y - 1) * w + x

/-- The tent filter of lines 231-232: `r < 1 ? sqrt(r) - 1 : 1 - sqrt(2 - r)`. -/
def tent (L : Libc α) (r : α) : α := if r < 1 then L.sqrt r - 1 else 1 - L.sqrt (2 - r)

/-- The primary ray of lines 234-235.  The two constructor arguments
`camera.origin + direction * 140` and `direction.norm()` share `direction`, which `norm`
overwrites, and C++ leaves their order open: `normFirst` says whether `norm` runs first. -/
def primaryRay (L : Libc α) (normFirst : Bool) (w h x y sx sy : Int) (dx dy : α) : Ray α :=
  let direction :=
    ((cx w h).smul ((((sx : α) + 1 / 2 + dx) / 2 + (x : α)) / (w : α) - 1 / 2) +
      (cy L w h).smul ((((sy : α) + 1 / 2 + dy) / 2 + (y : α)) / (h : α) - 1 / 2)) +
    (camera L).direction
  ⟨(camera L).origin + (if normFirst then direction.norm L.sqrt else direction).smul 140,
    direction.norm L.sqrt⟩

/-- One iteration of the sample loop (lines 231-235) on `(colours, k)`; `est ray k` stands
for `radiance(ray, 0, Xi)` at `k` calls of `rand()`. -/
def sampleStep (L : Libc α) (est : Ray α → Nat → Result α) (normFirst : Bool)
    (w h x y sx sy samples : Int) (st : Vector α × Nat) : Result α :=
  let dx := tent L (2 * erand48 L st.2)
  let dy := tent L (2 * erand48 L (st.2 + 1))
  (est (primaryRay L normFirst w h x y sx sy dx dy) (st.2 + 2)).map fun r =>
    (st.1 + r.1.smul (1 / (samples : α)), r.2)

/-- The sample loop `for (int s = 0; s < samples; s++)` (line 230), `n` iterations. -/
def sampleLoop (L : Libc α) (est : Ray α → Nat → Result α) (normFirst : Bool)
    (w h x y sx sy samples : Int) : Nat → Vector α × Nat → Result α
  | 0, st => some st
  | n + 1, st =>
    (sampleStep L est normFirst w h x y sx sy samples st).bind
      (sampleLoop L est normFirst w h x y sx sy samples n)

/-- Line 238: `image[i] + Vector(clamp(colours.x), clamp(colours.y), clamp(colours.z)) * 0.25`. -/
def addSubpixel (cell colours : Vector α) : Vector α :=
  cell + (Vector.mk (clamp colours.x) (clamp colours.y) (clamp colours.z)).smul (1 / 4)

/-- One sub-pixel (the body of the `sx` loop, lines 228-239) on `(image[i], k)`:
`colours` starts at `Vector()`, takes `samples` estimates, and is added to the cell. -/
def subpixel (L : Libc α) (est : Ray α → Nat → Result α) (normFirst : Bool)
    (w h x y samples sx sy : Int) (st : Vector α × Nat) : Result α :=
  (sampleLoop L est normFirst w h x y sx sy samples samples.toNat (Vector.zero, st.2)).map
    fun r => (addSubpixel st.1 r.1, r.2)

/-- The four sub-pixels of the pixel `(x, y)` (lines 227-239), `sy` outside and `sx` inside,
on `(image[i], k)`. -/
def renderPixel (L : Libc α) (est : Ray α → Nat → Result α) (normFirst : Bool)
    (w h x y samples : Int) (st : Vector α × Nat) : Result α :=
  (((subpixel L est normFirst w h x y samples 0 0 st).bind
    (subpixel L est normFirst w h x y samples 1 0)).bind
    (subpixel L est normFirst w h x y samples 0 1)).bind
    (subpixel L est normFirst w h x y samples 1 1)

/-- The body of the `x` loop (lines 227-239) for the pixel `(x, y)`, on the buffer `image`
(as a function of the index) and the number of `rand()` calls: the cell
`image[i]`, `i = (height - y - 1) * width + x`, is read, takes the four sub-pixels, and
is written back. -/
def pixelStep (L : Libc α) (est : Ray α → Nat → Result α) (normFirst : Bool)
    (w h samples x y : Int) (st : (Int → Vector α) × Nat) : Option ((Int → Vector α) × Nat) :=
  (renderPixel L est normFirst w h x y samples (st.1 (pixelIndex w h x y), st.2)).map fun r =>
    (Function.update st.1 (pixelIndex w h x y) r.1, r.2)

/-! ## Example data

The inputs of the worked examples: the unit-sphere test of the specification, and small
scenes on the z axis. -/

/-- A library whose `rand()` always returns 0, with `RAND_MAX = 32767`. -/
def zeroRand (sqrt cos sin : α → α) : Libc α := ⟨sqrt, cos, sin, 32767, fun _ => 0⟩

/-- The unit sphere at the origin, black and without emission. -/
def unitSphere : Sphere α := ⟨1, ⟨0, 0, 0⟩, ⟨0, 0, 0⟩, ⟨0, 0, 0⟩, Material.DIFFUSE⟩

/-- A unit sphere at (0,0,-10), black and without emission. -/
def farSphere : Sphere α := ⟨1, ⟨0, 0, -10⟩, ⟨0, 0, 0⟩, ⟨0, 0, 0⟩, Material.DIFFUSE⟩

/-- A unit sphere at the origin with emission (3,3,3) and colour (0,0,0). -/
def glowSphere : Sphere α := ⟨1, ⟨0, 0, 0⟩, ⟨3, 3, 3⟩, ⟨0, 0, 0⟩, Material.DIFFUSE⟩

/-- A unit light at (0,0,5) with emission (3,3,3) and colour (0,0,0). -/
def lightSphere : Sphere α := ⟨1, ⟨0, 0, 5⟩, ⟨3, 3, 3⟩, ⟨0, 0, 0⟩, Material.DIFFUSE⟩

/-- A grey diffuse unit sphere at (0,0,-1), whose top is the origin. -/
def greySphere : Sphere α :=
  ⟨1, ⟨0, 0, -1⟩, ⟨0, 0, 0⟩, ⟨1 / 2, 1 / 2, 1 / 2⟩, Material.DIFFUSE⟩

/-- A light of radius 3/16 at (0,0,5/16), at distance 5/16 from the origin. -/
def nearLight : Sphere α := ⟨3 / 16, ⟨0, 0, 5 / 16⟩, ⟨1, 1, 1⟩, ⟨0, 0, 0⟩, Material.DIFFUSE⟩

/-- A light of radius 1/4 at (0,0,5/16), at distance 5/16 from the origin. -/
def nearLightB : Sphere α := ⟨1 / 4, ⟨0, 0, 5 / 16⟩, ⟨1, 1, 1⟩, ⟨0, 0, 0⟩, Material.DIFFUSE⟩

/-- A library whose first `rand()` returns `RAND_MAX = 32767` and whose later ones return 0. -/
def maxThenZero (sqrt cos sin : α → α) : Libc α :=
  ⟨sqrt, cos, sin, 32767, fun k => if k = 0 then 32767 else 0⟩

/-- A diffuse unit sphere at the origin that emits (1,1,1) and reflects (1,1,1). -/
def selfLit : Sphere α := ⟨1, ⟨0, 0, 0⟩, ⟨1, 1, 1⟩, ⟨1, 1, 1⟩, Material.DIFFUSE⟩

/-- The ray from (0,0,2) along (0,0,-1), which meets the grey sphere at the origin. -/
def downRay : Ray α := ⟨⟨0, 0, 2⟩, ⟨0, 0, -1⟩⟩

/-- The ray from the origin along (0,0,1), toward the light at (0,0,5). -/
def upRay : Ray α := ⟨⟨0, 0, 0⟩, ⟨0, 0, 1⟩⟩

/-- The ray from (0,0,5) toward the origin. -/
def axisRay : Ray α := ⟨⟨0, 0, 5⟩, ⟨0, 0, -1⟩⟩

/-- The ray from (2,0,5) along (0,0,-1), which passes the unit sphere at distance 2. -/
def offsetRay : Ray α := ⟨⟨2, 0, 5⟩, ⟨0, 0, -1⟩⟩

end Radiance

/-! ## Component lemmas -/

section Components

variable {α : Type} [LinearOrderedField α]

@[simp] theorem Vector.add_x (a b : Vector α) : (a + b).x = a.x + b.x := rfl

@[simp] theorem Vector.add_y (a b : Vector α) : (a + b).y = a.y + b.y := rfl

@[simp] theorem Vector.add_z (a b : Vector α) : (a + b).z = a.z + b.z := rfl

@[simp] theorem Vector.sub_x (a b : Vector α) : (a - b).x = a.x - b.x := rfl

@[simp] theorem Vector.sub_y (a b : Vector α) : (a - b).y = a.y - b.y := rfl

@[simp] theorem Vector.sub_z (a b : Vector α) : (a - b).z = a.z - b.z := rfl

@[simp] theorem Vector.smul_x (a : Vector α) (b : α) : (a.smul b).x = a.x * b := rfl

@[simp] theorem Vector.smul_y (a : Vector α) (b : α) : (a.smul b).y = a.y * b := rfl

@[simp] theorem Vector.smul_z (a : Vector α) (b : α) : (a.smul b).z = a.z * b := rfl

@[simp] theorem Vector.zero_x : (Vector.zero : Vector α).x = 0 := rfl

@[simp] theorem Vector.zero_y : (Vector.zero : Vector α).y = 0 := rfl

@[simp] theorem Vector.zero_z : (Vector.zero : Vector α).z = 0 := rfl

theorem Vector.ext_iff3 {β : Type} (a b : Vector β) :
    a = b ↔ a.x = b.x ∧ a.y = b.y ∧ a.z = b.z := by
  cases a; cases b; simp

theorem Vector.sq_sum_pos (v : Vector α) (hv : v ≠ Vector.zero) :
    0 < v.x * v.x + v.y * v.y + v.z * v.z := by
  by_contra h
  apply hv
  have hx := mul_self_nonneg v.x
  have hy := mul_self_nonneg v.y
  have hz := mul_self_nonneg v.z
  rw [Vector.ext_iff3]
  simp only [Vector.zero_x, Vector.zero_y, Vector.zero_z]
  refine ⟨?_, ?_, ?_⟩ <;> apply mul_self_eq_zero.mp <;> linarith

end Components

/-! ## Vector normalisation -/

/-- C4: over the reals, `Vector::norm` of a non-zero vector `v` has Euclidean length exactly 1,
its cross product with `v` is the zero vector, and it is `v` times a positive scalar. -/
theorem norm_unit_parallel (v : Vector ℝ) (hv : v ≠ Vector.zero) :
    Real.sqrt ((v.norm Real.sqrt).dot (v.norm Real.sqrt)) = 1 ∧
      (v.norm Real.sqrt).cross v = Vector.zero ∧
      ∃ c : ℝ, 0 < c ∧ v.norm Real.sqrt = v.smul c := by
  have hs := Vector.sq_sum_pos v hv
  have hr : 0 < Real.sqrt (v.x * v.x + v.y * v.y + v.z * v.z) := Real.sqrt_pos.mpr hs
  have hrr := Real.mul_self_sqrt hs.le
  refine ⟨?_, ?_, ⟨1 / Real.sqrt (v.x * v.x + v.y * v.y + v.z * v.z), by positivity, rfl⟩⟩
  · have h1 : (v.norm Real.sqrt).dot (v.norm Real.sqrt) = 1 := by
      simp only [Vector.norm, Vector.dot, Vector.smul_x, Vector.smul_y, Vector.smul_z]
      field_simp
    rw [h1, Real.sqrt_one]
  · rw [Vector.ext_iff3]
    simp only [Vector.norm, Vector.cross, Vector.smul_x, Vector.smul_y, Vector.smul_z,
      Vector.zero_x, Vector.zero_y, Vector.zero_z]
    refine ⟨by ring, by ring, by ring⟩

/-- Witness of C4 at the vector (3, 0, 4). -/
theorem norm_unit_parallel_witness :
    (⟨3, 0, 4⟩ : Vector ℝ) ≠ Vector.zero ∧
      Real.sqrt (((⟨3, 0, 4⟩ : Vector ℝ).norm Real.sqrt).dot
        ((⟨3, 0, 4⟩ : Vector ℝ).norm Real.sqrt)) = 1 ∧
      ((⟨3, 0, 4⟩ : Vector ℝ).norm Real.sqrt).cross ⟨3, 0, 4⟩ = Vector.zero ∧
      ∃ c : ℝ, 0 < c ∧ (⟨3, 0, 4⟩ : Vector ℝ).norm Real.sqrt = (⟨3, 0, 4⟩ : Vector ℝ).smul c :=
  ⟨by simp [Vector.zero], norm_unit_parallel ⟨3, 0, 4⟩ (by simp [Vector.zero])⟩

/-! ## Roulette probability and refraction weights -/

/-- C8: for every colour triple, ties included, the nested conditional of line 134 yields
the maximum of the three channels (over any ordered field, in particular the reals). -/
theorem maxChannel_eq_max {α : Type} [LinearOrderedField α] (x y z : α) :
    maxChannel (⟨x, y, z⟩ : Vector α) = max x (max y z) := by
  unfold maxChannel
  simp only [gt_iff_lt]
  by_cases h1 : y < x ∧ z < x
  · rw [if_pos h1]
    exact (max_eq_left (max_le h1.1.le h1.2.le)).symm
  · rw [if_neg h1]
    rw [not_and_or, not_lt, not_lt] at h1
    by_cases h2 : z < y
    · rw [if_pos h2, max_eq_left h2.le]
      rcases h1 with h | h
      · exact (max_eq_right h).symm
      · exact (max_eq_right (h.trans h2.le)).symm
    · rw [if_neg h2]
      rw [not_lt] at h2
      rw [max_eq_right h2]
      rcases h1 with h | h
      · exact (max_eq_right (h.trans h2)).symm
      · exact (max_eq_right h).symm

/-- C10: for a Fresnel reflectance `Re` in [0,1] the values of line 197 satisfy
`Tr = 1 - Re`, `P = 0.25 + 0.5 * Re`, `0.25 <= P <= 0.75` (so `P` and `1 - P` are
non-zero), `P * RP = Re`, `(1 - P) * TP = Tr`, and `Re + Tr = 1`: the two stochastic
weights, weighted by their probabilities, are the deterministic weights `Re` and `Tr`,
and for any two branch radiances `A` and `B` the probability-weighted sum of
`A * RP` and `B * TP` is the deterministic sum `A * Re + B * Tr`. -/
theorem weights_unbiased {α : Type} [LinearOrderedField α] (Re : α) (h0 : 0 ≤ Re)
    (h1 : Re ≤ 1) :
    (weights Re).Tr = 1 - Re ∧ (weights Re).P = 1 / 4 + 1 / 2 * Re ∧
      1 / 4 ≤ (weights Re).P ∧ (weights Re).P ≤ 3 / 4 ∧
      (weights Re).P ≠ 0 ∧ 1 - (weights Re).P ≠ 0 ∧
      (weights Re).RP = Re / (weights Re).P ∧
      (weights Re).TP = (weights Re).Tr / (1 - (weights Re).P) ∧
      (weights Re).P * (weights Re).RP = Re ∧
      (1 - (weights Re).P) * (weights Re).TP = (weights Re).Tr ∧
      Re + (weights Re).Tr = 1 ∧
      ∀ A B : Vector α,
        ((A.smul (weights Re).RP).smul (weights Re).P +
          (B.smul (weights Re).TP).smul (1 - (weights Re).P)) =
        A.smul Re + B.smul (weights Re).Tr := by
  have hP : (0 : α) < 1 / 4 + 1 / 2 * Re := by linarith
  have hQ : (0 : α) < 1 - (1 / 4 + 1 / 2 * Re) := by linarith
  have e1 : (1 / 4 + 1 / 2 * Re) * (Re / (1 / 4 + 1 / 2 * Re)) = Re := mul_div_cancel₀ _ hP.ne.symm
  have e2 : (1 - (1 / 4 + 1 / 2 * Re)) * ((1 - Re) / (1 - (1 / 4 + 1 / 2 * Re))) = 1 - Re :=
    mul_div_cancel₀ _ hQ.ne.symm
  refine ⟨rfl, rfl, ?_, ?_, hP.ne.symm, hQ.ne.symm, rfl, rfl, e1, e2, ?_, ?_⟩
  · show (1 : α) / 4 ≤ 1 / 4 + 1 / 2 * Re
    linarith
  · show (1 : α) / 4 + 1 / 2 * Re ≤ 3 / 4
    linarith
  · show Re + (1 - Re) = 1
    ring
  · intro A B
    have e1c : Re / (1 / 4 + 1 / 2 * Re) * (1 / 4 + 1 / 2 * Re) = Re := by
      rw [mul_comm]; exact e1
    have e2c : (1 - Re) / (1 - (1 / 4 + 1 / 2 * Re)) * (1 - (1 / 4 + 1 / 2 * Re)) = 1 - Re := by
      rw [mul_comm]; exact e2
    rw [Vector.ext_iff3]
    refine ⟨?_, ?_, ?_⟩ <;>
      simp only [weights, Vector.add_x, Vector.add_y, Vector.add_z, Vector.smul_x,
        Vector.smul_y, Vector.smul_z, mul_assoc, e1c, e2c]

/-- Witness of C10 at `Re = 1/2` over the reals. -/
theorem weights_unbiased_witness :
    (0 : ℝ) ≤ 1 / 2 ∧ (1 / 2 : ℝ) ≤ 1 ∧ (weights (1 / 2 : ℝ)).P * (weights (1 / 2 : ℝ)).RP = 1 / 2 ∧
      (1 - (weights (1 / 2 : ℝ)).P) * (weights (1 / 2 : ℝ)).TP = (weights (1 / 2 : ℝ)).Tr :=
  ⟨by norm_num, by norm_num,
    (weights_unbiased (1 / 2 : ℝ) (by norm_num) (by norm_num)).2.2.2.2.2.2.2.2.1,
    (weights_unbiased (1 / 2 : ℝ) (by norm_num) (by norm_num)).2.2.2.2.2.2.2.2.2.1⟩

/-! ## Clamping, pixel cells and quantisation -/

theorem clamp_mem {α : Type} [LinearOrderedField α] (x : α) : 0 ≤ clamp x ∧ clamp x ≤ 1 := by
  unfold clamp
  split_ifs with h1 h2
  · exact ⟨le_refl _, zero_le_one⟩
  · exact ⟨zero_le_one, le_refl _⟩
  · exact ⟨not_lt.mp h1, not_lt.mp h2⟩

theorem addSubpixel_mem {α : Type} [LinearOrderedField α] (cell c : Vector α) :
    (cell.x ≤ (addSubpixel cell c).x ∧ (addSubpixel cell c).x ≤ cell.x + 1 / 4) ∧
      (cell.y ≤ (addSubpixel cell c).y ∧ (addSubpixel cell c).y ≤ cell.y + 1 / 4) ∧
      (cell.z ≤ (addSubpixel cell c).z ∧ (addSubpixel cell c).z ≤ cell.z + 1 / 4) := by
  have hx := clamp_mem c.x
  have hy := clamp_mem c.y
  have hz := clamp_mem c.z
  simp only [addSubpixel, Vector.add_x, Vector.add_y, Vector.add_z, Vector.smul_x,
    Vector.smul_y, Vector.smul_z]
  refine ⟨⟨?_, ?_⟩, ⟨?_, ?_⟩, ⟨?_, ?_⟩⟩ <;> linarith

/-- The cell bounds after four additions of a clamped colour, starting from `Vector()`. -/
theorem four_subpixels_mem {α : Type} [LinearOrderedField α] (c1 c2 c3 c4 : Vector α) :
    (0 ≤ (addSubpixel (addSubpixel (addSubpixel (addSubpixel Vector.zero c1) c2) c3) c4).x ∧
      (addSubpixel (addSubpixel (addSubpixel (addSubpixel Vector.zero c1) c2) c3) c4).x ≤ 1) ∧
    (0 ≤ (addSubpixel (addSubpixel (addSubpixel (addSubpixel Vector.zero c1) c2) c3) c4).y ∧
      (addSubpixel (addSubpixel (addSubpixel (addSubpixel Vector.zero c1) c2) c3) c4).y ≤ 1) ∧
    (0 ≤ (addSubpixel (addSubpixel (addSubpixel (addSubpixel Vector.zero c1) c2) c3) c4).z ∧
      (addSubpixel (addSubpixel (addSubpixel (addSubpixel Vector.zero c1) c2) c3) c4).z ≤ 1) := by
  have h1 := addSubpixel_mem (Vector.zero : Vector α) c1
  have h2 := addSubpixel_mem (addSubpixel Vector.zero c1) c2
  have h3 := addSubpixel_mem (addSubpixel (addSubpixel Vector.zero c1) c2) c3
  have h4 := addSubpixel_mem (addSubpixel (addSubpixel (addSubpixel Vector.zero c1) c2) c3) c4
  simp only [Vector.zero_x, Vector.zero_y, Vector.zero_z] at h1
  refine ⟨⟨?_, ?_⟩, ⟨?_, ?_⟩, ⟨?_, ?_⟩⟩ <;> linarith [h1.1.1, h1.1.2, h1.2.1.1, h1.2.1.2,
    h1.2.2.1, h1.2.2.2, h2.1.1, h2.1.2, h2.2.1.1, h2.2.1.2, h2.2.2.1, h2.2.2.2, h3.1.1, h3.1.2,
    h3.2.1.1, h3.2.1.2, h3.2.2.1, h3.2.2.2, h4.1.1, h4.1.2, h4.2.1.1, h4.2.1.2, h4.2.2.1,
    h4.2.2.2]

/-- A sub-pixel that returns has added one clamped colour to the cell. -/
theorem subpixel_some {α : Type} [LinearOrderedField α] (L : Libc α)
    (est : Ray α → Nat → Result α) (normFirst : Bool) (w h x y samples sx sy : Int)
    (st out : Vector α × Nat)
    (hs : subpixel L est normFirst w h x y samples sx sy st = some out) :
    ∃ c : Vector α, out.1 = addSubpixel st.1 c := by
  unfold subpixel at hs
  rw [Option.map_eq_some'] at hs
  obtain ⟨r, _, hr⟩ := hs
  exact ⟨r.1, by rw [← hr]⟩

/-- The pixel loop of `main` adds exactly four clamped colours to the cell. -/
theorem renderPixel_some {α : Type} [LinearOrderedField α] (L : Libc α)
    (est : Ray α → Nat → Result α) (normFirst : Bool) (w h x y samples : Int)
    (st out : Vector α × Nat)
    (hs : renderPixel L est normFirst w h x y samples st = some out) :
    ∃ c1 c2 c3 c4 : Vector α,
      out.1 = addSubpixel (addSubpixel (addSubpixel (addSubpixel st.1 c1) c2) c3) c4 := by
  unfold renderPixel at hs
  simp only [Option.bind_eq_some] at hs
  obtain ⟨r3, ⟨r2, ⟨r1, h1, h2⟩, h3⟩, h4⟩ := hs
  obtain ⟨c1, e1⟩ := subpixel_some L est normFirst w h x y samples 0 0 st r1 h1
  obtain ⟨c2, e2⟩ := subpixel_some L est normFirst w h x y samples 1 0 r1 r2 h2
  obtain ⟨c3, e3⟩ := subpixel_some L est normFirst w h x y samples 0 1 r2 r3 h3
  obtain ⟨c4, e4⟩ := subpixel_some L est normFirst w h x y samples 1 1 r3 out h4
  exact ⟨c1, c2, c3, c4, by rw [e4, e3, e2, e1]⟩

theorem toInt_eq_floor (x : ℝ) :
    toInt Real.rpow x = Int.floor (Real.rpow (clamp x) (1 / (22 / 10)) * 255 + 1 / 2) ∧
      0 ≤ Real.rpow (clamp x) (1 / (22 / 10)) ∧ Real.rpow (clamp x) (1 / (22 / 10)) ≤ 1 := by
  have hc := clamp_mem x
  have h0 : 0 ≤ Real.rpow (clamp x) (1 / (22 / 10)) := Real.rpow_nonneg hc.1 _
  have h1 : Real.rpow (clamp x) (1 / (22 / 10)) ≤ 1 :=
    Real.rpow_le_one hc.1 hc.2 (by norm_num)
  refine ⟨?_, h0, h1⟩
  unfold toInt trunc
  rw [if_pos (by linarith)]

/-- C5: over the reals, `clamp(x)` lies in [0,1]; a cell that starts at `Vector()` and takes
four additions of `0.25 * clamp(c)` has every channel in [0,1], whatever the four colours
are, and so has the cell the pixel loop of `main` returns, whatever the estimator returns;
`toInt(x)` is the floor of `clamp(x)^(1/2.2) * 255 + 0.5` (the truncated value is not
negative), lies in [0,255], is 0 for `x <= 0` and 255 for `x >= 1`. -/
theorem clamp_pixel_toInt_bounds :
    (∀ x : ℝ, 0 ≤ clamp x ∧ clamp x ≤ 1) ∧
    (∀ c1 c2 c3 c4 : Vector ℝ,
      (0 ≤ (addSubpixel (addSubpixel (addSubpixel (addSubpixel Vector.zero c1) c2) c3) c4).x ∧
        (addSubpixel (addSubpixel (addSubpixel (addSubpixel Vector.zero c1) c2) c3) c4).x ≤ 1) ∧
      (0 ≤ (addSubpixel (addSubpixel (addSubpixel (addSubpixel Vector.zero c1) c2) c3) c4).y ∧
        (addSubpixel (addSubpixel (addSubpixel (addSubpixel Vector.zero c1) c2) c3) c4).y ≤ 1) ∧
      (0 ≤ (addSubpixel (addSubpixel (addSubpixel (addSubpixel Vector.zero c1) c2) c3) c4).z ∧
        (addSubpixel (addSubpixel (addSubpixel (addSubpixel Vector.zero c1) c2) c3) c4).z ≤ 1)) ∧
    (∀ (L : Libc ℝ) (est : Ray ℝ → Nat → Result ℝ) (normFirst : Bool) (w h x y samples : Int)
      (k : Nat) (out : Vector ℝ × Nat),
      renderPixel L est normFirst w h x y samples (Vector.zero, k) = some out →
        (0 ≤ out.1.x ∧ out.1.x ≤ 1) ∧ (0 ≤ out.1.y ∧ out.1.y ≤ 1) ∧
          (0 ≤ out.1.z ∧ out.1.z ≤ 1)) ∧
    (∀ x : ℝ,
      toInt Real.rpow x = Int.floor (Real.rpow (clamp x) (1 / (22 / 10)) * 255 + 1 / 2) ∧
        0 ≤ toInt Real.rpow x ∧ toInt Real.rpow x ≤ 255) ∧
    (∀ x : ℝ, x ≤ 0 → toInt Real.rpow x = 0) ∧
    (∀ x : ℝ, 1 ≤ x → toInt Real.rpow x = 255) := by
  refine ⟨clamp_mem, four_subpixels_mem, ?_, ?_, ?_, ?_⟩
  · intro L est normFirst w h x y samples k out hs
    obtain ⟨c1, c2, c3, c4, e⟩ := renderPixel_some L est normFirst w h x y samples _ out hs
    rw [e]
    exact four_subpixels_mem c1 c2 c3 c4
  · intro x
    obtain ⟨e, h0, h1⟩ := toInt_eq_floor x
    refine ⟨e, ?_, ?_⟩
    · rw [e]
      exact Int.floor_nonneg.mpr (by linarith)
    · rw [e]
      have : Int.floor (Real.rpow (clamp x) (1 / (22 / 10)) * 255 + 1 / 2) < 256 := by
        rw [Int.floor_lt]
        push_cast
        linarith
      omega
  · intro x hx
    obtain ⟨e, _, _⟩ := toInt_eq_floor x
    have hc : clamp x = 0 := by
      unfold clamp
      split_ifs with h1 h2
      · rfl
      · linarith
      · linarith
    rw [e, hc]
    have hz : Real.rpow 0 (1 / (22 / 10)) = 0 := Real.zero_rpow (by norm_num)
    rw [hz, Int.floor_eq_iff]
    norm_num
  · intro x hx
    obtain ⟨e, _, _⟩ := toInt_eq_floor x
    have hc : clamp x = 1 := by
      unfold clamp
      split_ifs with h1 h2
      · linarith
      · rfl
      · linarith
    rw [e, hc]
    have hz : Real.rpow 1 (1 / (22 / 10)) = 1 := Real.one_rpow _
    rw [hz, Int.floor_eq_iff]
    norm_num

/-- Witness of C5: `toInt(-3) = 0`, `toInt(7) = 255`, and the pixel (0,0) of the 512 x 384
image with one sample per sub-pixel and an estimator that always returns the colour
(2, -1, 1/2): the cell ends at (1, 0, 1/2) after 8 draws. -/
theorem clamp_pixel_toInt_bounds_witness :
    toInt Real.rpow (-3) = 0 ∧ toInt Real.rpow 7 = 255 ∧
      renderPixel (zeroRand Real.sqrt Real.cos Real.sin) (fun _ k => some (⟨2, -1, 1 / 2⟩, k))
          false width height 0 0 1 (Vector.zero, 0) = some (⟨1, 0, 1 / 2⟩, 8) ∧
      (0 ≤ (1 : ℝ) ∧ (1 : ℝ) ≤ 1) ∧ (0 ≤ (0 : ℝ) ∧ (0 : ℝ) ≤ 1) ∧
        (0 ≤ (1 / 2 : ℝ) ∧ (1 / 2 : ℝ) ≤ 1) := by
  have hr : renderPixel (zeroRand Real.sqrt Real.cos Real.sin)
      (fun _ k => some (⟨2, -1, 1 / 2⟩, k)) false width height 0 0 1 (Vector.zero, 0) =
        some (⟨1, 0, 1 / 2⟩, 8) := by
    simp only [renderPixel, subpixel, Int.toNat_one, sampleLoop, sampleStep, Option.map_some',
      Option.some_bind, Option.bind_some, addSubpixel, clamp, Vector.zero]
    rw [Option.some.injEq, Prod.mk.injEq, Vector.ext_iff3]
    norm_num
  exact ⟨clamp_pixel_toInt_bounds.2.2.2.2.1 (-3) (by norm_num),
    clamp_pixel_toInt_bounds.2.2.2.2.2 7 (by norm_num), hr,
    clamp_pixel_toInt_bounds.2.2.1 _ _ _ _ _ _ _ _ _ _ hr⟩

/-! ## Ray-sphere intersection -/

/-- For a unit direction, the ray point at parameter `t` is on the sphere exactly when
`(t - b)^2` is the discriminant `det` of `Sphere::intersect`. -/
theorem onSphere_iff_sq (s : Sphere ℝ) (ray : Ray ℝ)
    (hd : ray.direction.dot ray.direction = 1) (t : ℝ) :
    onSphere s (hitPoint ray t) ↔
      (t - (s.position - ray.origin).dot ray.direction) *
          (t - (s.position - ray.origin).dot ray.direction) =
        (s.position - ray.origin).dot ray.direction *
            (s.position - ray.origin).dot ray.direction -
          (s.position - ray.origin).dot (s.position - ray.origin) + s.radius * s.radius := by
  simp only [onSphere, hitPoint, Vector.dot, Vector.add_x, Vector.add_y, Vector.add_z,
    Vector.sub_x, Vector.sub_y, Vector.sub_z, Vector.smul_x, Vector.smul_y, Vector.smul_z] at hd ⊢
  constructor
  · intro h
    linear_combination h - t * t * hd
  · intro h
    linear_combination h + t * t * hd

/-- The case analysis of `Sphere::intersect` for a unit direction: either the discriminant
is negative, the result is 0 and no ray point is on the sphere, or the ray points on the
sphere are those at `b - q` and `b + q` with `q >= 0`, and the result is the first of
`b - q`, `b + q` above `eps`, or 0 when neither is. -/
theorem intersect_cases (s : Sphere ℝ) (ray : Ray ℝ)
    (hd : ray.direction.dot ray.direction = 1) :
    (s.intersect Real.sqrt ray = 0 ∧ ∀ t, ¬ onSphere s (hitPoint ray t)) ∨
      ∃ b q : ℝ, 0 ≤ q ∧ (∀ t, onSphere s (hitPoint ray t) ↔ (t = b - q ∨ t = b + q)) ∧
        ((eps < b - q ∧ s.intersect Real.sqrt ray = b - q) ∨
          (b - q ≤ eps ∧ eps < b + q ∧ s.intersect Real.sqrt ray = b + q) ∨
          (b - q ≤ eps ∧ b + q ≤ eps ∧ s.intersect Real.sqrt ray = 0)) := by
  have key := onSphere_iff_sq s ray hd
  unfold Sphere.intersect
  simp only
  generalize (s.position - ray.origin).dot ray.direction = b at key ⊢
  generalize b * b - (s.position - ray.origin).dot (s.position - ray.origin) +
    s.radius * s.radius = det at key ⊢
  by_cases hdet : det < 0
  · left
    rw [if_pos hdet]
    refine ⟨rfl, fun t ht => ?_⟩
    have := mul_self_nonneg (t - b)
    rw [(key t).mp ht] at this
    linarith
  · right
    rw [if_neg hdet]
    have hq : 0 ≤ Real.sqrt det := Real.sqrt_nonneg det
    have hqq : Real.sqrt det * Real.sqrt det = det := Real.mul_self_sqrt (not_lt.mp hdet)
    generalize Real.sqrt det = q at hq hqq ⊢
    refine ⟨b, q, hq, fun t => ?_, ?_⟩
    · rw [key t, ← hqq, mul_self_eq_mul_self_iff]
      constructor
      · rintro (h | h)
        · right; linarith
        · left; linarith
      · rintro (h | h)
        · right; linarith
        · left; linarith
    · by_cases h1 : b - q > eps
      · left
        rw [if_pos h1]
        exact ⟨h1, rfl⟩
      · right
        rw [if_neg h1]
        by_cases h2 : b + q > eps
        · left
          rw [if_pos h2]
          exact ⟨not_lt.mp h1, h2, rfl⟩
        · right
          rw [if_neg h2]
          exact ⟨not_lt.mp h1, not_lt.mp h2, rfl⟩

theorem eps_pos {α : Type} [LinearOrderedField α] : (0 : α) < eps := by
  unfold eps
  positivity

/-- C1: over the reals, for every sphere (of any radius, in particular a positive one) and
every ray whose direction has Euclidean length 1, a non-zero result `t` of
`Sphere::intersect` is above `eps = 1e-4`, the point `origin + direction * t` satisfies the
sphere equation exactly, and no parameter `u` with `eps < u < t` gives a point on the
sphere. -/
theorem sphere_intersect_nearest_hit (s : Sphere ℝ) (ray : Ray ℝ)
    (hd : Real.sqrt (ray.direction.dot ray.direction) = 1)
    (ht : s.intersect Real.sqrt ray ≠ 0) :
    eps < s.intersect Real.sqrt ray ∧
      onSphere s (hitPoint ray (s.intersect Real.sqrt ray)) ∧
      ∀ u : ℝ, eps < u → u < s.intersect Real.sqrt ray → ¬ onSphere s (hitPoint ray u) := by
  have hd1 : ray.direction.dot ray.direction = 1 := by
    have h := Real.sqrt_eq_one.mp hd
    exact h
  rcases intersect_cases s ray hd1 with ⟨h0, _⟩ | ⟨b, q, hq, hon, hc⟩
  · exact absurd h0 ht
  · rcases hc with ⟨h1, e⟩ | ⟨h1, h2, e⟩ | ⟨_, _, e⟩
    · rw [e]
      refine ⟨h1, (hon _).mpr (Or.inl rfl), fun u hu hlt hs => ?_⟩
      rcases (hon u).mp hs with h | h <;> linarith
    · rw [e]
      refine ⟨h2, (hon _).mpr (Or.inr rfl), fun u hu hlt hs => ?_⟩
      rcases (hon u).mp hs with h | h <;> linarith
    · exact absurd e ht

/-- Witness of C1: origin (0,0,5), direction (0,0,-1), unit sphere at the origin; the
result is 4. -/
theorem sphere_intersect_nearest_hit_witness :
    Real.sqrt ((axisRay : Ray ℝ).direction.dot (axisRay : Ray ℝ).direction) = 1 ∧
      Sphere.intersect Real.sqrt unitSphere axisRay = 4 ∧
      eps < Sphere.intersect Real.sqrt unitSphere axisRay ∧
      onSphere (unitSphere : Sphere ℝ)
        (hitPoint axisRay (Sphere.intersect Real.sqrt unitSphere axisRay)) ∧
      ∀ u : ℝ, eps < u → u < Sphere.intersect Real.sqrt unitSphere axisRay →
        ¬ onSphere (unitSphere : Sphere ℝ) (hitPoint axisRay u) := by
  have hd : Real.sqrt ((axisRay : Ray ℝ).direction.dot (axisRay : Ray ℝ).direction) = 1 := by
    simp [axisRay, Vector.dot]
  have h4 : Sphere.intersect Real.sqrt (unitSphere : Sphere ℝ) axisRay = 4 := by
    simp only [Sphere.intersect, unitSphere, axisRay, Vector.dot, Vector.sub_x, Vector.sub_y,
      Vector.sub_z, eps]
    norm_num
  exact ⟨hd, h4, sphere_intersect_nearest_hit unitSphere axisRay hd (by rw [h4]; norm_num)⟩

/-- C2: over the reals, for every sphere and every ray whose direction has Euclidean length
1, `Sphere::intersect` returns 0 exactly when no parameter `t > 1e-4` gives a point
`origin + direction * t` on the sphere; and it returns 0 whenever the discriminant
`b^2 - op.op + radius^2` is negative. -/
theorem sphere_intersect_zero_iff (s : Sphere ℝ) (ray : Ray ℝ)
    (hd : Real.sqrt (ray.direction.dot ray.direction) = 1) :
    (s.intersect Real.sqrt ray = 0 ↔ ¬ ∃ t : ℝ, eps < t ∧ onSphere s (hitPoint ray t)) ∧
      ((s.position - ray.origin).dot ray.direction * (s.position - ray.origin).dot ray.direction -
          (s.position - ray.origin).dot (s.position - ray.origin) + s.radius * s.radius < 0 →
        s.intersect Real.sqrt ray = 0) := by
  have hd1 : ray.direction.dot ray.direction = 1 := Real.sqrt_eq_one.mp hd
  have hpos : (0 : ℝ) < eps := eps_pos
  constructor
  · rcases intersect_cases s ray hd1 with ⟨h0, hno⟩ | ⟨b, q, hq, hon, hc⟩
    · exact ⟨fun _ ⟨t, _, ht⟩ => hno t ht, fun _ => h0⟩
    · rcases hc with ⟨h1, e⟩ | ⟨h1, h2, e⟩ | ⟨h1, h2, e⟩
      · constructor
        · intro h
          rw [e] at h
          linarith
        · intro h
          exact absurd ⟨b - q, h1, (hon _).mpr (Or.inl rfl)⟩ h
      · constructor
        · intro h
          rw [e] at h
          linarith
        · intro h
          exact absurd ⟨b + q, h2, (hon _).mpr (Or.inr rfl)⟩ h
      · refine ⟨fun _ ⟨t, ht, hs⟩ => ?_, fun _ => e⟩
        rcases (hon t).mp hs with h | h <;> linarith
  · intro hneg
    unfold Sphere.intersect
    simp only
    rw [if_pos hneg]

/-- Witness of C2: origin (2,0,5), direction (0,0,-1), unit sphere at the origin; the
discriminant is -3 and the result is 0. -/
theorem sphere_intersect_zero_iff_witness :
    Real.sqrt ((offsetRay : Ray ℝ).direction.dot (offsetRay : Ray ℝ).direction) = 1 ∧
      Sphere.intersect Real.sqrt unitSphere offsetRay = 0 ∧
      ¬ ∃ t : ℝ, eps < t ∧ onSphere (unitSphere : Sphere ℝ) (hitPoint offsetRay t) := by
  have hd : Real.sqrt ((offsetRay : Ray ℝ).direction.dot (offsetRay : Ray ℝ).direction) = 1 := by
    simp [offsetRay, Vector.dot]
  have h := sphere_intersect_zero_iff (unitSphere : Sphere ℝ) offsetRay hd
  have h0 := h.2 (by
    simp only [unitSphere, offsetRay, Vector.dot, Vector.sub_x, Vector.sub_y, Vector.sub_z]
    norm_num)
  exact ⟨hd, h0, h.1.mp h0⟩

/-! ## The scene query -/

/-- The invariant of the scan of lines 110-115, run from index `i - 1` down to 0 on the
state `st`: the final `t` is at most the initial one and at most every non-zero distance
of the spheres scanned; either the state is unchanged, or `t` went down and `id` is
the index of a scanned sphere whose non-zero distance is `t`. -/
theorem intersectLoop_spec {α : Type} [LinearOrderedField α] (sqrt : α → α)
    (scene : List (Sphere α)) (ray : Ray α) (i : Nat) (st : α × Nat) :
    (intersectLoop sqrt scene ray i st).1 ≤ st.1 ∧
      (∀ j : Nat, j < i → ∀ s : Sphere α, scene[j]? = some s → s.intersect sqrt ray ≠ 0 →
        (intersectLoop sqrt scene ray i st).1 ≤ s.intersect sqrt ray) ∧
      (intersectLoop sqrt scene ray i st = st ∨
        ((intersectLoop sqrt scene ray i st).1 < st.1 ∧
          (intersectLoop sqrt scene ray i st).2 < i ∧
          ∃ s : Sphere α, scene[(intersectLoop sqrt scene ray i st).2]? = some s ∧
            s.intersect sqrt ray = (intersectLoop sqrt scene ray i st).1 ∧
            s.intersect sqrt ray ≠ 0)) := by
  induction i generalizing st with
  | zero =>
    refine ⟨le_refl _, fun j hj => absurd hj (Nat.not_lt_zero j), Or.inl rfl⟩
  | succ i ih =>
    unfold intersectLoop
    cases hs : scene[i]? with
    | none =>
      simp only
      obtain ⟨h1, h2, h3⟩ := ih st
      refine ⟨h1, fun j hj s hjs hne => ?_, ?_⟩
      · rcases Nat.lt_succ_iff_lt_or_eq.mp hj with hlt | heq
        · exact h2 j hlt s hjs hne
        · rw [heq, hs] at hjs
          exact absurd hjs (by simp)
      · rcases h3 with h | ⟨ha, hb, hc⟩
        · exact Or.inl h
        · exact Or.inr ⟨ha, Nat.lt_succ_of_lt hb, hc⟩
    | some s0 =>
      simp only
      by_cases hc : s0.intersect sqrt ray ≠ 0 ∧ s0.intersect sqrt ray < st.1
      · rw [if_pos hc]
        obtain ⟨h1, h2, h3⟩ := ih (s0.intersect sqrt ray, i)
        simp only at h1 h3
        refine ⟨le_trans h1 hc.2.le, fun j hj s hjs hne => ?_, Or.inr ?_⟩
        · rcases Nat.lt_succ_iff_lt_or_eq.mp hj with hlt | heq
          · exact h2 j hlt s hjs hne
          · rw [heq, hs] at hjs
            cases hjs
            exact h1
        · rcases h3 with h | ⟨ha, hb, hc2⟩
          · rw [h]
            exact ⟨hc.2, Nat.lt_succ_self i, s0, hs, rfl, hc.1⟩
          · exact ⟨lt_trans ha hc.2, Nat.lt_succ_of_lt hb, hc2⟩
      · rw [if_neg hc]
        obtain ⟨h1, h2, h3⟩ := ih st
        refine ⟨h1, fun j hj s hjs hne => ?_, ?_⟩
        · rcases Nat.lt_succ_iff_lt_or_eq.mp hj with hlt | heq
          · exact h2 j hlt s hjs hne
          · rw [heq, hs] at hjs
            cases hjs
            rw [not_and_or, not_not, not_lt] at hc
            rcases hc with hc | hc
            · exact absurd hc hne
            · exact le_trans h1 hc
        · rcases h3 with h | ⟨ha, hb, hc2⟩
          · exact Or.inl h
          · exact Or.inr ⟨ha, Nat.lt_succ_of_lt hb, hc2⟩

/-- C3: for every scene, every ray and every initial `id`, the scene query returns true
exactly when some sphere of the scene has a non-zero `Sphere::intersect` distance below
`1e20`; when it returns true, `id` is the index of a sphere of the scene whose distance is
`t`, that distance is non-zero, and `t` is at most every non-zero distance of the scene
(so `t` is their minimum); when it returns false, `t` is `1e20` and `id` is the initial
`id`.  This holds over any ordered field and any `sqrt`, in particular over the reals. -/
theorem scene_intersect_spec {α : Type} [LinearOrderedField α] (sqrt : α → α)
    (scene : List (Sphere α)) (ray : Ray α) (id : Nat) :
    ((intersect sqrt scene ray id).1 = true ↔
        ∃ s ∈ scene, s.intersect sqrt ray ≠ 0 ∧ s.intersect sqrt ray < inf) ∧
      ((intersect sqrt scene ray id).1 = true →
        (∃ s : Sphere α, scene[(intersect sqrt scene ray id).2.2]? = some s ∧
          s.intersect sqrt ray = (intersect sqrt scene ray id).2.1 ∧
          s.intersect sqrt ray ≠ 0) ∧
        ∀ s ∈ scene, s.intersect sqrt ray ≠ 0 →
          (intersect sqrt scene ray id).2.1 ≤ s.intersect sqrt ray) ∧
      ((intersect sqrt scene ray id).1 = false →
        (intersect sqrt scene ray id).2.1 = inf ∧ (intersect sqrt scene ray id).2.2 = id) := by
  obtain ⟨h1, h2, h3⟩ := intersectLoop_spec sqrt scene ray scene.length (inf, id)
  have hmin : ∀ s ∈ scene, s.intersect sqrt ray ≠ 0 →
      (intersectLoop sqrt scene ray scene.length (inf, id)).1 ≤ s.intersect sqrt ray := by
    intro s hs hne
    obtain ⟨j, hj, hjs⟩ := List.getElem_of_mem hs
    exact h2 j hj s (by rw [List.getElem?_eq_getElem hj, hjs]) hne
  have hhit : (intersectLoop sqrt scene ray scene.length (inf, id)).1 < inf →
      ∃ s : Sphere α, scene[(intersectLoop sqrt scene ray scene.length (inf, id)).2]? = some s ∧
        s.intersect sqrt ray = (intersectLoop sqrt scene ray scene.length (inf, id)).1 ∧
        s.intersect sqrt ray ≠ 0 := by
    intro hlt
    rcases h3 with h | ⟨_, _, hc⟩
    · rw [h] at hlt
      exact absurd hlt (lt_irrefl _)
    · exact hc
  simp only [intersect, decide_eq_true_eq, decide_eq_false_iff_not, not_lt]
  refine ⟨⟨fun hlt => ?_, fun ⟨s, hs, hne, hlt⟩ => lt_of_le_of_lt (hmin s hs hne) hlt⟩,
    fun hlt => ⟨hhit hlt, hmin⟩, fun hge => ?_⟩
  · obtain ⟨s, hs, he, hne⟩ := hhit hlt
    exact ⟨s, List.mem_iff_getElem?.mpr ⟨_, hs⟩, hne, by rw [he]; exact hlt⟩
  · rcases h3 with h | ⟨hlt, _, _⟩
    · rw [h]
      exact ⟨rfl, rfl⟩
    · exact absurd hlt (not_lt.mpr hge)

/-- Witness of C3 over the reals: two unit spheres at (0,0,0) and (0,0,-10) and the ray
from (0,0,5) along (0,0,-1); the distances are 4 and 14, and the query, entered with
`id = 7`, returns true with `t = 4` and `id = 0`. -/
theorem scene_intersect_spec_witness :
    intersect Real.sqrt [unitSphere, farSphere] axisRay 7 = (true, 4, 0) ∧
      (∃ s : Sphere ℝ,
        [unitSphere, farSphere][(intersect Real.sqrt [unitSphere, farSphere] axisRay 7).2.2]? =
            some s ∧
          s.intersect Real.sqrt axisRay =
            (intersect Real.sqrt [unitSphere, farSphere] axisRay 7).2.1 ∧
          s.intersect Real.sqrt axisRay ≠ 0) ∧
      ∀ s ∈ ([unitSphere, farSphere] : List (Sphere ℝ)), s.intersect Real.sqrt axisRay ≠ 0 →
        (intersect Real.sqrt [unitSphere, farSphere] axisRay 7).2.1 ≤
          s.intersect Real.sqrt axisRay := by
  have h : intersect Real.sqrt ([unitSphere, farSphere] : List (Sphere ℝ)) axisRay 7 =
      (true, 4, 0) := by
    simp only [intersect, intersectLoop, List.length_cons, List.length_nil,
      List.getElem?_cons_succ, List.getElem?_cons_zero, Sphere.intersect, unitSphere, farSphere,
      axisRay, Vector.dot, Vector.sub_x, Vector.sub_y, Vector.sub_z, eps, inf]
    norm_num
  exact ⟨h, (scene_intersect_spec Real.sqrt [unitSphere, farSphere] axisRay 7).2.1 (by rw [h])⟩

/-! ## The structure of `radiance` -/

section RadianceLemmas

variable {α : Type} [LinearOrderedField α]

theorem erand48_nonneg (L : Libc α) (k : Nat) : 0 ≤ erand48 L k :=
  div_nonneg (Nat.cast_nonneg _) (Nat.cast_nonneg _)

/-- A scene query that returns true leaves in `id` an index inside the scene. -/
theorem intersect_hit_some (sqrt : α → α) (scene : List (Sphere α)) (ray : Ray α) (id : Nat)
    (h : (intersect sqrt scene ray id).1 = true) :
    ∃ s : Sphere α, scene[(intersect sqrt scene ray id).2.2]? = some s := by
  obtain ⟨_, _, h3⟩ := intersectLoop_spec sqrt scene ray scene.length (inf, id)
  simp only [intersect, decide_eq_true_eq] at h ⊢
  rcases h3 with h0 | ⟨_, _, s, hs, _⟩
  · rw [h0] at h
    exact absurd h (lt_irrefl _)
  · exact ⟨s, hs⟩

/-- Without a hit `radiance` returns `Vector()` and draws nothing. -/
theorem radianceBody_miss (L : Libc α) (scene : List (Sphere α))
    (self : Ray α → Int → Nat → Int → Result α) (ray : Ray α) (depth : Int) (k : Nat)
    (emissive : Int) (h : (intersect L.sqrt scene ray 0).1 = false) :
    radianceBody L scene self ray depth k emissive = some (Vector.zero, k) := by
  unfold radianceBody
  simp only [h, if_true]

/-- With a hit on `obj`, `radiance` is the roulette followed by `shade`. -/
theorem radianceBody_hit (L : Libc α) (scene : List (Sphere α))
    (self : Ray α → Int → Nat → Int → Result α) (ray : Ray α) (depth : Int) (k : Nat)
    (emissive : Int) (obj : Sphere α) (h : (intersect L.sqrt scene ray 0).1 = true)
    (hobj : scene[(intersect L.sqrt scene ray 0).2.2]? = some obj) :
    radianceBody L scene self ray depth k emissive =
      Sum.elim
        (fun v => some
          (v, (roulette L (depth + 1) (maxChannel obj.colour) obj.colour obj.emission emissive
            k).2))
        (fun colour => shade L scene self obj ray (hitPoint ray (intersect L.sqrt scene ray 0).2.1)
          ((hitPoint ray (intersect L.sqrt scene ray 0).2.1 - obj.position).norm L.sqrt)
          (orient ((hitPoint ray (intersect L.sqrt scene ray 0).2.1 - obj.position).norm L.sqrt)
            ray.direction)
          colour (depth + 1)
          (roulette L (depth + 1) (maxChannel obj.colour) obj.colour obj.emission emissive k).2
          (intersect L.sqrt scene ray 0).2.2 emissive)
        (roulette L (depth + 1) (maxChannel obj.colour) obj.colour obj.emission emissive k).1 := by
  unfold radianceBody
  simp only [h, hobj, Bool.true_eq_false, if_false]
  rcases roulette L (depth + 1) (maxChannel obj.colour) obj.colour obj.emission emissive k
    with ⟨v | c, k1⟩ <;> rfl

/-- The branches after the roulette return when the recursive calls at `depth` do. -/
theorem shade_isSome (L : Libc α) (scene : List (Sphere α))
    (self : Ray α → Int → Nat → Int → Result α) (obj : Sphere α) (ray : Ray α)
    (intersection normal oriented colour : Vector α) (depth : Int) (k id : Nat)
    (emissive : Int)
    (h : depth ≤ 100 → ∀ (r : Ray α) (j : Nat) (e : Int), ∃ out, self r depth j e = some out) :
    ∃ out, shade L scene self obj ray intersection normal oriented colour depth k id emissive =
      some out := by
  unfold shade
  by_cases hd : depth > 100
  · rw [if_pos hd]
    exact ⟨_, rfl⟩
  · rw [if_neg hd]
    have h := h (not_lt.mp hd)
    cases obj.material with
    | DIFFUSE =>
      simp only [diffuse]
      obtain ⟨out, ho⟩ := h ⟨intersection, bounceDir L oriented k⟩
        (lightLoop L scene intersection oriented colour (Vector.zero, k + 2, id)).2.1 0
      rw [ho]
      exact ⟨_, rfl⟩
    | SPECULAR =>
      simp only [specular]
      obtain ⟨out, ho⟩ := h ⟨intersection, reflect ray.direction normal⟩ k 1
      rw [ho]
      exact ⟨_, rfl⟩
    | REFRACTIVE =>
      simp only [refractive]
      split_ifs
      · obtain ⟨out, ho⟩ := h ⟨intersection, reflect ray.direction normal⟩ k 1
        rw [ho]
        exact ⟨_, rfl⟩
      · obtain ⟨out, ho⟩ := h ⟨intersection, reflect ray.direction normal⟩ (k + 1) 1
        rw [ho]
        exact ⟨_, rfl⟩
      · obtain ⟨out, ho⟩ := h ⟨intersection, (refractedRaw L ray.direction normal
          (decide (normal.dot oriented > 0)) (ray.direction.dot oriented)).norm L.sqrt⟩ (k + 1) 1
        rw [ho]
        exact ⟨_, rfl⟩
      · obtain ⟨out, ho⟩ := h ⟨intersection, reflect ray.direction normal⟩ k 1
        obtain ⟨out2, ho2⟩ := h ⟨intersection, (refractedRaw L ray.direction normal
          (decide (normal.dot oriented > 0)) (ray.direction.dot oriented)).norm L.sqrt⟩ out.2 1
        rw [ho, Option.some_bind, ho2]
        exact ⟨_, rfl⟩

/-- The body of `radiance` returns when the recursive calls at `depth + 1` do. -/
theorem radianceBody_isSome (L : Libc α) (scene : List (Sphere α))
    (self : Ray α → Int → Nat → Int → Result α) (ray : Ray α) (depth : Int) (k : Nat)
    (emissive : Int)
    (h : depth + 1 ≤ 100 →
      ∀ (r : Ray α) (j : Nat) (e : Int), ∃ out, self r (depth + 1) j e = some out) :
    ∃ out, radianceBody L scene self ray depth k emissive = some out := by
  cases hq : (intersect L.sqrt scene ray 0).1 with
  | false => exact ⟨_, radianceBody_miss _ _ _ _ _ _ _ hq⟩
  | true =>
    obtain ⟨obj, hobj⟩ := intersect_hit_some L.sqrt scene ray 0 hq
    rw [radianceBody_hit _ _ _ _ _ _ _ obj hq hobj]
    rcases roulette L (depth + 1) (maxChannel obj.colour) obj.colour obj.emission emissive k
      with ⟨v | c, k1⟩
    · exact ⟨_, rfl⟩
    · exact shade_isSome L scene self obj ray _ _ _ c (depth + 1) k1 _ emissive h

/-- A nesting budget of `(100 - depth) + 1` levels (1 when `depth >= 100`) is enough for
`radiance` to return, whatever the ray, the flag and the draws. -/
theorem radiance_isSome (L : Libc α) (scene : List (Sphere α)) (n : Nat) :
    ∀ (ray : Ray α) (depth : Int) (k : Nat) (emissive : Int), (100 - depth).toNat + 1 ≤ n →
      ∃ out, radiance L scene n ray depth k emissive = some out := by
  induction n with
  | zero =>
    intro ray depth k emissive h
    omega
  | succ n ih =>
    intro ray depth k emissive h
    show ∃ out, radianceBody L scene (radiance L scene n) ray depth k emissive = some out
    apply radianceBody_isSome
    intro hd r j e
    apply ih
    omega

end RadianceLemmas

theorem incDepth32_range (depth : Int) :
    -2147483648 ≤ incDepth32 depth ∧ incDepth32 depth ≤ 2147483647 := by
  unfold incDepth32
  omega

/-- C7: Russian roulette (line 135), with `depth` the incremented depth, `p` the roulette
probability and `u = erand48 L k` the next draw.  A uniform is drawn exactly when
`depth > 5` or `p = 0`; then the path goes on exactly when `u < p`, with working colour
`colour * (1 / p)`, and `p` times that colour is the original colour in every channel;
otherwise the result is `emission * emissive`.  When `depth <= 5` and `p` is non-zero no
uniform is drawn and the colour is unchanged.  For `radiance` on a hit sphere `obj` this
means: it returns `obj.emission * emissive` when the roulette ends the path, and goes on
with lines 136-203 on the rescaled colour, or on the unchanged colour when the roulette
is not run. -/
theorem roulette_spec {α : Type} [LinearOrderedField α] (L : Libc α) :
    (∀ (depth : Int) (p : α) (colour emission : Vector α) (emissive : Int) (k : Nat),
      ((roulette L depth p colour emission emissive k).2 = k + 1 ↔ (depth > 5 ∨ p = 0)) ∧
      ((roulette L depth p colour emission emissive k).2 = k ↔ ¬ (depth > 5 ∨ p = 0)) ∧
      ((depth > 5 ∨ p = 0) →
        (erand48 L k < p ↔
          ∃ c, (roulette L depth p colour emission emissive k).1 = Sum.inr c)) ∧
      ((depth > 5 ∨ p = 0) → erand48 L k < p →
        (roulette L depth p colour emission emissive k).1 = Sum.inr (colour.smul (1 / p)) ∧
          (colour.smul (1 / p)).smul p = colour) ∧
      ((depth > 5 ∨ p = 0) → ¬ erand48 L k < p →
        (roulette L depth p colour emission emissive k).1 =
          Sum.inl (emission.smul (emissive : α))) ∧
      (¬ (depth > 5 ∨ p = 0) →
        roulette L depth p colour emission emissive k = (Sum.inr colour, k))) ∧
    (∀ (scene : List (Sphere α)) (self : Ray α → Int → Nat → Int → Result α) (ray : Ray α)
      (depth : Int) (k : Nat) (emissive : Int) (obj : Sphere α),
      (intersect L.sqrt scene ray 0).1 = true →
      scene[(intersect L.sqrt scene ray 0).2.2]? = some obj →
      ((depth + 1 > 5 ∨ maxChannel obj.colour = 0) → ¬ erand48 L k < maxChannel obj.colour →
        radianceBody L scene self ray depth k emissive =
          some (obj.emission.smul (emissive : α), k + 1)) ∧
      ((depth + 1 > 5 ∨ maxChannel obj.colour = 0) → erand48 L k < maxChannel obj.colour →
        radianceBody L scene self ray depth k emissive =
          shade L scene self obj ray (hitPoint ray (intersect L.sqrt scene ray 0).2.1)
            ((hitPoint ray (intersect L.sqrt scene ray 0).2.1 - obj.position).norm L.sqrt)
            (orient ((hitPoint ray (intersect L.sqrt scene ray 0).2.1 - obj.position).norm L.sqrt)
              ray.direction)
            (obj.colour.smul (1 / maxChannel obj.colour)) (depth + 1) (k + 1)
            (intersect L.sqrt scene ray 0).2.2 emissive) ∧
      (¬ (depth + 1 > 5 ∨ maxChannel obj.colour = 0) →
        radianceBody L scene self ray depth k emissive =
          shade L scene self obj ray (hitPoint ray (intersect L.sqrt scene ray 0).2.1)
            ((hitPoint ray (intersect L.sqrt scene ray 0).2.1 - obj.position).norm L.sqrt)
            (orient ((hitPoint ray (intersect L.sqrt scene ray 0).2.1 - obj.position).norm L.sqrt)
              ray.direction)
            obj.colour (depth + 1) k (intersect L.sqrt scene ray 0).2.2 emissive)) := by
  constructor
  · intro depth p colour emission emissive k
    unfold roulette
    by_cases hc : depth > 5 ∨ p = 0
    · rw [if_pos hc]
      by_cases hu : erand48 L k < p
      · rw [if_pos hu]
        have hp : p ≠ 0 := (lt_of_le_of_lt (erand48_nonneg L k) hu).ne.symm
        refine ⟨⟨fun _ => hc, fun _ => rfl⟩, ⟨fun h => ?_, fun h => absurd hc h⟩,
          fun _ => ⟨fun _ => ⟨_, rfl⟩, fun _ => hu⟩, fun _ _ => ⟨rfl, ?_⟩,
          fun _ h => absurd hu h, fun h => absurd hc h⟩
        · simp only at h
          omega
        · rw [Vector.ext_iff3]
          simp only [Vector.smul_x, Vector.smul_y, Vector.smul_z]
          refine ⟨?_, ?_, ?_⟩ <;> field_simp
      · rw [if_neg hu]
        refine ⟨⟨fun _ => hc, fun _ => rfl⟩, ⟨fun h => ?_, fun h => absurd hc h⟩,
          fun _ => ⟨fun h => absurd h hu, fun ⟨c, h⟩ => ?_⟩, fun _ h => absurd h hu,
          fun _ _ => rfl, fun h => absurd hc h⟩
        · simp only at h
          omega
        · simp only at h
          cases h
    · rw [if_neg hc]
      refine ⟨⟨fun h => ?_, fun h => absurd h hc⟩, ⟨fun _ => hc, fun _ => rfl⟩,
        fun h => absurd h hc, fun h => absurd h hc, fun h => absurd h hc, fun _ => rfl⟩
      simp only at h
      omega
  · intro scene self ray depth k emissive obj hq hobj
    rw [radianceBody_hit L scene self ray depth k emissive obj hq hobj]
    unfold roulette
    refine ⟨fun hc hu => ?_, fun hc hu => ?_, fun hc => ?_⟩
    · rw [if_pos hc, if_neg hu]
      rfl
    · rw [if_pos hc, if_pos hu]
      rfl
    · rw [if_neg hc]
      rfl

/-- Witness of C7 over the reals: incremented depth 6, `p = 1/2`, colour (1/2, 1/4, 0),
`rand()` always 0 so the draw is 0: the path goes on with colour (1, 1/2, 0),
and one uniform has been drawn. -/
theorem roulette_spec_witness :
    ((6 : Int) > 5 ∨ (1 / 2 : ℝ) = 0) ∧
      erand48 (zeroRand Real.sqrt Real.cos Real.sin) 0 < 1 / 2 ∧
      (roulette (zeroRand Real.sqrt Real.cos Real.sin) 6 (1 / 2) ⟨1 / 2, 1 / 4, 0⟩ ⟨3, 3, 3⟩ 1
          0).1 = Sum.inr ((⟨1 / 2, 1 / 4, 0⟩ : Vector ℝ).smul (1 / (1 / 2))) ∧
      ((⟨1 / 2, 1 / 4, 0⟩ : Vector ℝ).smul (1 / (1 / 2))).smul (1 / 2) = ⟨1 / 2, 1 / 4, 0⟩ ∧
      (roulette (zeroRand Real.sqrt Real.cos Real.sin) 6 (1 / 2) ⟨1 / 2, 1 / 4, 0⟩ ⟨3, 3, 3⟩ 1
          0).2 = 0 + 1 := by
  have hc : (6 : Int) > 5 ∨ (1 / 2 : ℝ) = 0 := Or.inl (by decide)
  have hu : erand48 (zeroRand Real.sqrt Real.cos Real.sin) 0 < 1 / 2 := by
    simp only [erand48, zeroRand]
    norm_num
  have h := (roulette_spec (zeroRand Real.sqrt Real.cos Real.sin)).1
    6 (1 / 2) ⟨1 / 2, 1 / 4, 0⟩ ⟨3, 3, 3⟩ 1 0
  exact ⟨hc, hu, (h.2.2.2.1 hc hu).1, (h.2.2.2.1 hc hu).2, h.1.mpr hc⟩

/-! ## The diffuse branch and emission -/

/-- A call of `radiance` whose nearest hit is a sphere of colour (0,0,0) returns the
emission times the flag after one draw, at every depth: the roulette runs because
`p = 0`, and no draw is below 0. -/
theorem radiance_zero_colour {α : Type} [LinearOrderedField α] (L : Libc α)
    (scene : List (Sphere α)) (n : Nat) (ray : Ray α) (depth : Int) (k : Nat) (emissive : Int)
    (obj : Sphere α) (hq : (intersect L.sqrt scene ray 0).1 = true)
    (hobj : scene[(intersect L.sqrt scene ray 0).2.2]? = some obj)
    (hc : obj.colour = Vector.zero) :
    radiance L scene (n + 1) ray depth k emissive =
      some (obj.emission.smul (emissive : α), k + 1) := by
  show radianceBody L scene (radiance L scene n) ray depth k emissive = _
  rw [radianceBody_hit L scene _ ray depth k emissive obj hq hobj]
  have hp : maxChannel obj.colour = 0 := by
    rw [hc]
    simp [maxChannel]
  have hu : ¬ erand48 L k < 0 := not_lt.mpr (erand48_nonneg L k)
  unfold roulette
  rw [hp, if_pos (Or.inr rfl), if_neg hu]
  rfl

/-- C9: the diffuse branch makes its recursive call with the emission flag 0 (whatever
stands for the recursive call, the branch result is built from that call on the bounce
ray with flag 0).  When the nearest hit of the bounce ray is a sphere of colour (0,0,0),
that call, for every depth, draw stream and nesting budget, returns the zero vector
after one draw, the indirect term `colour.mult(...)` is the zero vector, and the diffuse
result is `emission * emissive + e` with `e` the sum of the light loop. -/
theorem diffuse_no_double_counting {α : Type} [LinearOrderedField α] (L : Libc α)
    (scene : List (Sphere α)) (n : Nat) (obj light : Sphere α)
    (intersection oriented colour : Vector α) (depth : Int) (k id : Nat) (emissive : Int)
    (hq : (intersect L.sqrt scene ⟨intersection, bounceDir L oriented k⟩ 0).1 = true)
    (hl : scene[(intersect L.sqrt scene ⟨intersection, bounceDir L oriented k⟩ 0).2.2]? =
      some light)
    (hc : light.colour = Vector.zero) :
    (∀ self : Ray α → Int → Nat → Int → Result α,
      diffuse L scene self obj intersection oriented colour depth k id emissive =
        (self ⟨intersection, bounceDir L oriented k⟩ depth
          (lightLoop L scene intersection oriented colour (Vector.zero, k + 2, id)).2.1 0).map
          fun r => ((obj.emission.smul (emissive : α) +
            (lightLoop L scene intersection oriented colour (Vector.zero, k + 2, id)).1) +
            colour.mult r.1, r.2)) ∧
      radiance L scene (n + 1) ⟨intersection, bounceDir L oriented k⟩ depth
          (lightLoop L scene intersection oriented colour (Vector.zero, k + 2, id)).2.1 0 =
        some (Vector.zero,
          (lightLoop L scene intersection oriented colour (Vector.zero, k + 2, id)).2.1 + 1) ∧
      colour.mult (Vector.zero : Vector α) = Vector.zero ∧
      diffuse L scene (radiance L scene (n + 1)) obj intersection oriented colour depth k id
          emissive =
        some (obj.emission.smul (emissive : α) +
            (lightLoop L scene intersection oriented colour (Vector.zero, k + 2, id)).1,
          (lightLoop L scene intersection oriented colour (Vector.zero, k + 2, id)).2.1 + 1) := by
  have hz : light.emission.smul (((0 : Int) : α)) = Vector.zero := by
    rw [Vector.ext_iff3]
    simp
  have hr := radiance_zero_colour L scene n ⟨intersection, bounceDir L oriented k⟩ depth
    (lightLoop L scene intersection oriented colour (Vector.zero, k + 2, id)).2.1 0 light hq hl hc
  rw [hz] at hr
  have hm : colour.mult (Vector.zero : Vector α) = Vector.zero := by
    rw [Vector.ext_iff3]
    simp [Vector.mult]
  refine ⟨fun self => rfl, hr, hm, ?_⟩
  unfold diffuse
  simp only [hr, Option.map_some', hm]
  rw [Option.some.injEq, Prod.mk.injEq, Vector.ext_iff3]
  simp

/-- Witness of C9 over the reals: the surface point (0,0,0) on the grey sphere, with
oriented normal (0,0,1), a scene holding one light of colour (0,0,0) at (0,0,5), and
`rand()` always 0: the bounce direction is (0,0,1), the bounce ray hits the light at
distance 4, the recursive call returns the zero vector, and the diffuse result is
`emission * emissive + e`. -/
theorem diffuse_no_double_counting_witness :
    bounceDir (zeroRand Real.sqrt Real.cos Real.sin) ⟨0, 0, 1⟩ 0 = ⟨0, 0, 1⟩ ∧
      intersect Real.sqrt [lightSphere]
          ⟨⟨0, 0, 0⟩, bounceDir (zeroRand Real.sqrt Real.cos Real.sin) ⟨0, 0, 1⟩ 0⟩ 0 =
        (true, 4, 0) ∧
      diffuse (zeroRand Real.sqrt Real.cos Real.sin) [lightSphere]
          (radiance (zeroRand Real.sqrt Real.cos Real.sin) [lightSphere] 1) greySphere
          ⟨0, 0, 0⟩ ⟨0, 0, 1⟩ ⟨1 / 2, 1 / 2, 1 / 2⟩ 1 0 0 1 =
        some ((greySphere : Sphere ℝ).emission.smul ((1 : Int) : ℝ) +
            (lightLoop (zeroRand Real.sqrt Real.cos Real.sin) [lightSphere] ⟨0, 0, 0⟩ ⟨0, 0, 1⟩
              ⟨1 / 2, 1 / 2, 1 / 2⟩ (Vector.zero, 0 + 2, 0)).1,
          (lightLoop (zeroRand Real.sqrt Real.cos Real.sin) [lightSphere] ⟨0, 0, 0⟩ ⟨0, 0, 1⟩
            ⟨1 / 2, 1 / 2, 1 / 2⟩ (Vector.zero, 0 + 2, 0)).2.1 + 1) := by
  have hb : bounceDir (zeroRand Real.sqrt Real.cos Real.sin) ⟨0, 0, 1⟩ 0 = ⟨0, 0, 1⟩ := by
    simp only [bounceDir, diffuseDir, perp, Vector.norm, Vector.cross, erand48, zeroRand, M_PI,
      Vector.smul, Vector.add_x, Vector.add_y, Vector.add_z]
    rw [Vector.ext_iff3]
    norm_num [abs_of_nonneg]
  have hi : intersect Real.sqrt ([lightSphere] : List (Sphere ℝ))
      ⟨⟨0, 0, 0⟩, bounceDir (zeroRand Real.sqrt Real.cos Real.sin) ⟨0, 0, 1⟩ 0⟩ 0 =
        (true, 4, 0) := by
    rw [hb]
    simp only [intersect, intersectLoop, List.length_cons, List.length_nil,
      List.getElem?_cons_zero, Sphere.intersect, lightSphere, Vector.dot, Vector.sub_x,
      Vector.sub_y, Vector.sub_z, eps, inf]
    norm_num
  have h := diffuse_no_double_counting (zeroRand Real.sqrt Real.cos Real.sin) [lightSphere] 0
    greySphere lightSphere ⟨0, 0, 0⟩ ⟨0, 0, 1⟩ ⟨1 / 2, 1 / 2, 1 / 2⟩ 1 0 0 1
    (by show (intersect Real.sqrt _ _ 0).1 = true; rw [hi])
    (by show _[(intersect Real.sqrt _ _ 0).2.2]? = _; rw [hi]; rfl) rfl
  exact ⟨hb, hi, h.2.2.2⟩

/-! ## The random source -/

/-- C11 (the code at its boundary): for `RAND_MAX > 0` and a value of `rand()` between 0
and `RAND_MAX`, `erand48` lies in the closed interval [0,1]; it is below 1 exactly when
`rand()` is below `RAND_MAX`, and it is 1 when `rand()` returns `RAND_MAX`. -/
theorem erand48_range {α : Type} [LinearOrderedField α] (L : Libc α) (k : Nat)
    (hM : 0 < L.RAND_MAX) (hk : L.rand k ≤ L.RAND_MAX) :
    0 ≤ erand48 L k ∧ erand48 L k ≤ 1 ∧ (erand48 L k < 1 ↔ L.rand k < L.RAND_MAX) ∧
      (L.rand k = L.RAND_MAX → erand48 L k = 1) := by
  have hpos : (0 : α) < (L.RAND_MAX : α) := Nat.cast_pos.mpr hM
  unfold erand48
  refine ⟨div_nonneg (Nat.cast_nonneg _) hpos.le, ?_, ?_, ?_⟩
  · rw [div_le_one hpos]
    exact Nat.cast_le.mpr hk
  · rw [div_lt_one hpos]
    exact Nat.cast_lt
  · intro h
    rw [h]
    exact div_self hpos.ne.symm

/-- The failing input of C11: with `RAND_MAX = 32767` and `rand()` returning 32767,
`erand48` returns 1, which is not below 1. -/
theorem erand48_range_witness :
    erand48 (⟨fun x => x, fun x => x, fun x => x, 32767, fun _ => 32767⟩ : Libc ℝ) 0 = 1 ∧
      ¬ erand48 (⟨fun x => x, fun x => x, fun x => x, 32767, fun _ => 32767⟩ : Libc ℝ) 0 < 1 := by
  have h := erand48_range (⟨fun x => x, fun x => x, fun x => x, 32767, fun _ => 32767⟩ : Libc ℝ)
    0 (by decide) (le_refl _)
  exact ⟨h.2.2.2 rfl, fun hlt => absurd (h.2.2.1.mp hlt) (lt_irrefl _)⟩

/-! ## The pixel index -/

/-- The sample loop returns when the estimator does. -/
theorem sampleLoop_isSome {α : Type} [LinearOrderedField α] (L : Libc α)
    (est : Ray α → Nat → Result α) (normFirst : Bool) (w h x y sx sy samples : Int)
    (hest : ∀ (ray : Ray α) (k : Nat), ∃ o, est ray k = some o) (n : Nat) :
    ∀ st : Vector α × Nat,
      ∃ out, sampleLoop L est normFirst w h x y sx sy samples n st = some out := by
  induction n with
  | zero =>
    intro st
    exact ⟨st, rfl⟩
  | succ n ih =>
    intro st
    obtain ⟨o, ho⟩ := hest
      (primaryRay L normFirst w h x y sx sy (tent L (2 * erand48 L st.2))
        (tent L (2 * erand48 L (st.2 + 1)))) (st.2 + 2)
    obtain ⟨out, hout⟩ := ih (st.1 + o.1.smul (1 / (samples : α)), o.2)
    refine ⟨out, ?_⟩
    simp only [sampleLoop, sampleStep, ho, Option.map_some', Option.some_bind]
    exact hout

/-- A sub-pixel returns when the estimator does. -/
theorem subpixel_isSome {α : Type} [LinearOrderedField α] (L : Libc α)
    (est : Ray α → Nat → Result α) (normFirst : Bool) (w h x y samples sx sy : Int)
    (hest : ∀ (ray : Ray α) (k : Nat), ∃ o, est ray k = some o) (st : Vector α × Nat) :
    ∃ out, subpixel L est normFirst w h x y samples sx sy st = some out := by
  obtain ⟨r, hr⟩ := sampleLoop_isSome L est normFirst w h x y sx sy samples hest samples.toNat
    (Vector.zero, st.2)
  refine ⟨(addSubpixel st.1 r.1, r.2), ?_⟩
  unfold subpixel
  rw [hr]
  rfl

/-- The four sub-pixels of a pixel return when the estimator does. -/
theorem renderPixel_isSome {α : Type} [LinearOrderedField α] (L : Libc α)
    (est : Ray α → Nat → Result α) (normFirst : Bool) (w h x y samples : Int)
    (hest : ∀ (ray : Ray α) (k : Nat), ∃ o, est ray k = some o) (st : Vector α × Nat) :
    ∃ out, renderPixel L est normFirst w h x y samples st = some out := by
  obtain ⟨r1, h1⟩ := subpixel_isSome L est normFirst w h x y samples 0 0 hest st
  obtain ⟨r2, h2⟩ := subpixel_isSome L est normFirst w h x y samples 1 0 hest r1
  obtain ⟨r3, h3⟩ := subpixel_isSome L est normFirst w h x y samples 0 1 hest r2
  obtain ⟨r4, h4⟩ := subpixel_isSome L est normFirst w h x y samples 1 1 hest r3
  refine ⟨r4, ?_⟩
  unfold renderPixel
  rw [h1, Option.some_bind, h2, Option.some_bind, h3, Option.some_bind, h4]

/-- The pixel (0,0) of the 512 x 384 image with one sample per sub-pixel and an estimator
that always returns the colour (2, -1, 1/2): the cell goes from (0,0,0) to (1, 0, 1/2)
after 8 draws. -/
theorem renderPixel_example :
    renderPixel (zeroRand Real.sqrt Real.cos Real.sin) (fun _ k => some (⟨2, -1, 1 / 2⟩, k))
      false width height 0 0 1 (Vector.zero, 0) = some (⟨1, 0, 1 / 2⟩, 8) := by
  simp only [renderPixel, subpixel, Int.toNat_one, sampleLoop, sampleStep, Option.map_some',
    Option.some_bind, Option.bind_some, addSubpixel, clamp, Vector.zero]
  rw [Option.some.injEq, Prod.mk.injEq, Vector.ext_iff3]
  norm_num

/-- C16: for `0 <= x < width` and `0 <= y < height` the index
`i = (height - y - 1) * width + x` is in bounds (`0 <= i < width * height`), lies in the
buffer row `height - y - 1` (so loop row 0 is the last buffer row and the cells of a loop
row are contiguous), distinct pixels have distinct indices, every index in bounds is the
index of a pixel (for `width >= 0`), every cell of buffer row `height - y - 1` is written
by loop row `y`, and the loop body of a pixel changes no other cell than its own.  The
loop body does write its own cell: whenever the estimator returns, the body returns, the
cell `image[i]` then holds the value the four sub-pixels compute from its old value (the
old value plus four times `0.25 * clamp(colours)`, line 238), and every other cell holds
what it held before. -/
theorem pixelIndex_bijective {α : Type} [LinearOrderedField α] (w h : Int) :
    (∀ x y : Int, 0 ≤ x → x < w → 0 ≤ y → y < h →
      0 ≤ pixelIndex w h x y ∧ pixelIndex w h x y < w * h ∧
        (h - y - 1) * w ≤ pixelIndex w h x y ∧ pixelIndex w h x y < (h - y - 1) * w + w ∧
        pixelIndex w h x y - (h - y - 1) * w = x) ∧
    (∀ x y x2 y2 : Int, 0 ≤ x → x < w → 0 ≤ y → y < h → 0 ≤ x2 → x2 < w → 0 ≤ y2 → y2 < h →
      pixelIndex w h x y = pixelIndex w h x2 y2 → x = x2 ∧ y = y2) ∧
    (0 ≤ w → ∀ i : Int, 0 ≤ i → i < w * h →
      ∃ x y : Int, 0 ≤ x ∧ x < w ∧ 0 ≤ y ∧ y < h ∧ pixelIndex w h x y = i) ∧
    (∀ y i : Int, 0 ≤ y → y < h → (h - y - 1) * w ≤ i → i < (h - y - 1) * w + w →
      ∃ x : Int, 0 ≤ x ∧ x < w ∧ pixelIndex w h x y = i) ∧
    (∀ x : Int, pixelIndex w h x 0 = (h - 1) * w + x) ∧
    (∀ (L : Libc α) (est : Ray α → Nat → Result α) (normFirst : Bool) (samples x y : Int)
      (st out : (Int → Vector α) × Nat),
      pixelStep L est normFirst w h samples x y st = some out →
        ∀ j : Int, j ≠ pixelIndex w h x y → out.1 j = st.1 j) ∧
    (∀ (L : Libc α) (est : Ray α → Nat → Result α) (normFirst : Bool) (samples x y : Int)
      (st : (Int → Vector α) × Nat),
      (∀ (ray : Ray α) (k : Nat), ∃ o, est ray k = some o) →
        ∃ (r : Vector α × Nat) (out : (Int → Vector α) × Nat),
          renderPixel L est normFirst w h x y samples (st.1 (pixelIndex w h x y), st.2) =
            some r ∧
          pixelStep L est normFirst w h samples x y st = some out ∧
          out.1 (pixelIndex w h x y) = r.1 ∧ out.2 = r.2 ∧
          (∀ j : Int, j ≠ pixelIndex w h x y → out.1 j = st.1 j) ∧
          ∃ c1 c2 c3 c4 : Vector α,
            out.1 (pixelIndex w h x y) =
              addSubpixel (addSubpixel (addSubpixel (addSubpixel (st.1 (pixelIndex w h x y))
                c1) c2) c3) c4) := by
  refine ⟨?_, ?_, ?_, ?_, ?_, ?_, ?_⟩
  · intro x y hx0 hxw hy0 hyh
    unfold pixelIndex
    have h1 : 0 ≤ (h - y - 1) * w := mul_nonneg (by omega) (by omega)
    have h2 : (h - y - 1) * w ≤ (h - 1) * w := mul_le_mul_of_nonneg_right (by omega) (by omega)
    refine ⟨by omega, ?_, by omega, by omega, by ring⟩
    have h3 : (h - 1) * w = w * h - w := by ring
    omega
  · intro x y x2 y2 hx0 hxw hy0 hyh hx20 hx2w hy20 hy2h he
    unfold pixelIndex at he
    have hy : y = y2 := by
      by_contra hne
      rcases lt_or_gt_of_ne hne with hlt | hgt
      · have : (h - y2 - 1) * w + w ≤ (h - y - 1) * w := by
          have h5 : (h - y2 - 1 + 1) * w ≤ (h - y - 1) * w :=
            mul_le_mul_of_nonneg_right (by omega) (by omega)
          have h6 : (h - y2 - 1 + 1) * w = (h - y2 - 1) * w + w := by ring
          omega
        omega
      · have : (h - y - 1) * w + w ≤ (h - y2 - 1) * w := by
          have h5 : (h - y - 1 + 1) * w ≤ (h - y2 - 1) * w :=
            mul_le_mul_of_nonneg_right (by omega) (by omega)
          have h6 : (h - y - 1 + 1) * w = (h - y - 1) * w + w := by ring
          omega
        omega
    subst hy
    exact ⟨by omega, rfl⟩
  · intro hw0 i hi0 hiwh
    have hw : 0 < w := by
      rcases eq_or_lt_of_le hw0 with h0 | hlt
      · rw [← h0, zero_mul] at hiwh
        omega
      · exact hlt
    refine ⟨i % w, h - 1 - i / w, Int.emod_nonneg i hw.ne.symm, Int.emod_lt_of_pos i hw, ?_, ?_,
      ?_⟩
    · have : i / w < h := by
        rw [Int.ediv_lt_iff_lt_mul hw]
        rw [mul_comm] at hiwh
        exact hiwh
      omega
    · have : 0 ≤ i / w := Int.ediv_nonneg hi0 hw.le
      omega
    · unfold pixelIndex
      have h1 : h - (h - 1 - i / w) - 1 = i / w := by ring
      rw [h1]
      have := Int.ediv_add_emod i w
      rw [mul_comm] at this
      exact this
  · intro y i hy0 hyh hlo hhi
    refine ⟨i - (h - y - 1) * w, by omega, by omega, ?_⟩
    unfold pixelIndex
    ring
  · intro x
    unfold pixelIndex
    ring
  · intro L est normFirst samples x y st out hs j hj
    unfold pixelStep at hs
    rw [Option.map_eq_some'] at hs
    obtain ⟨r, _, hr⟩ := hs
    rw [← hr]
    exact Function.update_noteq hj _ _
  · intro L est normFirst samples x y st hest
    obtain ⟨r, hr⟩ := renderPixel_isSome L est normFirst w h x y samples hest
      (st.1 (pixelIndex w h x y), st.2)
    obtain ⟨c1, c2, c3, c4, hc⟩ := renderPixel_some L est normFirst w h x y samples _ r hr
    refine ⟨r, (Function.update st.1 (pixelIndex w h x y) r.1, r.2), hr, ?_, ?_, rfl, ?_, ?_⟩
    · unfold pixelStep
      rw [hr]
      rfl
    · exact Function.update_same _ _ _
    · intro j hj
      exact Function.update_noteq hj _ _
    · exact ⟨c1, c2, c3, c4, (Function.update_same _ _ _).trans hc⟩

/-- Witness of C16 on the 512 x 384 image of `main`: the pixel (0,0) has index 196096, the
first cell of the last buffer row, the pixel (511,383) has index 511, and every index
is below 196608.  With one sample per sub-pixel and an estimator that always returns
(2, -1, 1/2), the loop body of the pixel (0,0) on a buffer of zeros leaves (1, 0, 1/2)
in cell 196096 and zeros in the cells 196095 and 196097, after 8 draws. -/
theorem pixelIndex_bijective_witness :
    pixelIndex width height 0 0 = 196096 ∧ pixelIndex width height 511 383 = 511 ∧
      0 ≤ pixelIndex width height 511 383 ∧
      pixelIndex width height 511 383 < width * height ∧ width * height = 196608 ∧
      (pixelStep (zeroRand Real.sqrt Real.cos Real.sin) (fun _ k => some (⟨2, -1, 1 / 2⟩, k))
          false width height 1 0 0 (fun _ => Vector.zero, 0)).map
        (fun out => (out.1 196096, out.1 196095, out.1 196097, out.2)) =
        some (⟨1, 0, 1 / 2⟩, Vector.zero, Vector.zero, 8) ∧
      ∃ (r : Vector ℝ × Nat) (out : (Int → Vector ℝ) × Nat),
        renderPixel (zeroRand Real.sqrt Real.cos Real.sin)
          (fun _ k => some (⟨2, -1, 1 / 2⟩, k)) false width height 0 0 1
          (Vector.zero, 0) = some r ∧
        pixelStep (zeroRand Real.sqrt Real.cos Real.sin) (fun _ k => some (⟨2, -1, 1 / 2⟩, k))
          false width height 1 0 0 (fun _ => Vector.zero, 0) = some out ∧
        out.1 (pixelIndex width height 0 0) = r.1 ∧ out.2 = r.2 := by
  have hp : pixelIndex width height 0 0 = 196096 := by decide
  refine ⟨hp, by decide,
    ((@pixelIndex_bijective ℝ _ width height).1 511 383 (by decide) (by decide) (by decide)
      (by decide)).1,
    ((@pixelIndex_bijective ℝ _ width height).1 511 383 (by decide) (by decide) (by decide)
      (by decide)).2.1, by decide, ?_, ?_⟩
  · show ((renderPixel (zeroRand Real.sqrt Real.cos Real.sin)
      (fun _ k => some (⟨2, -1, 1 / 2⟩, k)) false width height 0 0 1 (Vector.zero, 0)).map
        _).map _ = _
    rw [renderPixel_example]
    simp [hp, Function.update_apply]
  · obtain ⟨r, out, h1, h2, h3, h4, _⟩ :=
      (@pixelIndex_bijective ℝ _ width height).2.2.2.2.2.2
        (zeroRand Real.sqrt Real.cos Real.sin) (fun _ k => some (⟨2, -1, 1 / 2⟩, k)) false 1 0 0
        (fun _ => Vector.zero, 0) (fun _ k => ⟨_, rfl⟩)
    exact ⟨r, out, h1, h2, h3, h4⟩

/-! ## Zero reflectance -/

/-- With `p = 0` the roulette runs at every depth and ends the path: the draw is not below
0, so the rescale by `1 / p` is not taken. -/
theorem roulette_zero {α : Type} [LinearOrderedField α] (L : Libc α) (depth : Int)
    (colour emission : Vector α) (emissive : Int) (k : Nat) :
    roulette L depth 0 colour emission emissive k =
      (Sum.inl (emission.smul (emissive : α)), k + 1) := by
  unfold roulette
  rw [if_pos (Or.inr rfl), if_neg (not_lt.mpr (erand48_nonneg L k))]

theorem maxChannel_zero {α : Type} [LinearOrderedField α] :
    maxChannel (Vector.zero : Vector α) = 0 := by
  simp [maxChannel, Vector.zero]

/-- C17: when the nearest hit of the ray is a sphere `obj` of colour (0,0,0), then `p = 0`,
the roulette of line 135 returns `emission * emissive` after one draw and never yields
a rescaled colour, and `radiance` returns exactly `obj.emission * emissive`, for every
depth, every flag and every draw stream, whatever stands for its recursive calls (so
neither the depth cap nor a material branch is reached) and for every nesting budget of
at least one level. -/
theorem zero_reflectance_ends_path {α : Type} [LinearOrderedField α] (L : Libc α)
    (scene : List (Sphere α)) (ray : Ray α) (depth : Int) (k : Nat) (emissive : Int)
    (obj : Sphere α) (hq : (intersect L.sqrt scene ray 0).1 = true)
    (hobj : scene[(intersect L.sqrt scene ray 0).2.2]? = some obj)
    (hc : obj.colour = Vector.zero) :
    maxChannel obj.colour = 0 ∧
      roulette L (depth + 1) (maxChannel obj.colour) obj.colour obj.emission emissive k =
        (Sum.inl (obj.emission.smul (emissive : α)), k + 1) ∧
      (∀ c : Vector α,
        (roulette L (depth + 1) (maxChannel obj.colour) obj.colour obj.emission emissive k).1 ≠
          Sum.inr c) ∧
      (∀ self : Ray α → Int → Nat → Int → Result α,
        radianceBody L scene self ray depth k emissive =
          some (obj.emission.smul (emissive : α), k + 1)) ∧
      (∀ n : Nat, radiance L scene (n + 1) ray depth k emissive =
        some (obj.emission.smul (emissive : α), k + 1)) := by
  have hp : maxChannel obj.colour = 0 := by rw [hc]; exact maxChannel_zero
  have hr : roulette L (depth + 1) (maxChannel obj.colour) obj.colour obj.emission emissive k =
      (Sum.inl (obj.emission.smul (emissive : α)), k + 1) := by
    rw [hp]
    exact roulette_zero L (depth + 1) obj.colour obj.emission emissive k
  have hb : ∀ self : Ray α → Int → Nat → Int → Result α,
      radianceBody L scene self ray depth k emissive =
        some (obj.emission.smul (emissive : α), k + 1) := by
    intro self
    rw [radianceBody_hit L scene self ray depth k emissive obj hq hobj, hr]
    rfl
  refine ⟨hp, hr, fun c h => ?_, hb, fun n => hb _⟩
  rw [hr] at h
  cases h

/-- Witness of C17 over the reals: the ray from (0,0,5) along (0,0,-1) on the unit sphere
with emission (3,3,3) and colour (0,0,0), at depth 100 with flag 0: the result is
(3,3,3) * 0, not the emission the depth cap would return. -/
theorem zero_reflectance_ends_path_witness :
    intersect Real.sqrt [glowSphere] axisRay 0 = (true, 4, 0) ∧
      (glowSphere : Sphere ℝ).colour = Vector.zero ∧
      ∀ self : Ray ℝ → Int → Nat → Int → Result ℝ,
        radianceBody (zeroRand Real.sqrt Real.cos Real.sin) [glowSphere] self axisRay 100 0 0 =
          some ((glowSphere : Sphere ℝ).emission.smul ((0 : Int) : ℝ), 0 + 1) := by
  have hi : intersect Real.sqrt ([glowSphere] : List (Sphere ℝ)) axisRay 0 = (true, 4, 0) := by
    simp only [intersect, intersectLoop, List.length_cons, List.length_nil,
      List.getElem?_cons_zero, Sphere.intersect, glowSphere, axisRay, Vector.dot, Vector.sub_x,
      Vector.sub_y, Vector.sub_z, eps, inf]
    norm_num
  have h := zero_reflectance_ends_path (zeroRand Real.sqrt Real.cos Real.sin) [glowSphere]
    axisRay 100 0 0 glowSphere
    (by show (intersect Real.sqrt _ _ 0).1 = true; rw [hi])
    (by show _[(intersect Real.sqrt _ _ 0).2.2]? = _; rw [hi]; rfl) rfl
  exact ⟨hi, rfl, h.2.2.2.1⟩

/-! ## Total internal reflection -/

theorem cos2t_into_ge {α : Type} [LinearOrderedField α] (ddn : α) :
    1 - (1 / (3 / 2)) * (1 / (3 / 2)) ≤ cos2t (nnt true) ddn ∧
      (0 : α) < 1 - (1 / (3 / 2)) * (1 / (3 / 2)) := by
  have h := mul_self_nonneg ddn
  simp only [cos2t, nnt, if_true]
  constructor
  · have e : (1 : α) - 1 / (3 / 2) * (1 / (3 / 2)) * (1 - ddn * ddn) =
        1 - 1 / (3 / 2) * (1 / (3 / 2)) + 4 / 9 * (ddn * ddn) := by ring
    rw [e]
    linarith
  · norm_num

theorem cos2t_neg_leaving {α : Type} [LinearOrderedField α] (into : Bool) (ddn : α)
    (h : cos2t (nnt into) ddn < 0) : into = false := by
  cases into with
  | false => rfl
  | true =>
    have h1 := cos2t_into_ge ddn
    linarith [h1.1, h1.2]

/-- Normalisation reads `sqrt` at a sum of squares only. -/
theorem norm_congr {α : Type} [LinearOrderedField α] (f g : α → α)
    (h : ∀ x : α, 0 ≤ x → f x = g x) (v : Vector α) : v.norm f = v.norm g := by
  unfold Vector.norm
  rw [h _ (add_nonneg (add_nonneg (mul_self_nonneg v.x) (mul_self_nonneg v.y))
    (mul_self_nonneg v.z))]

/-- C18: with `into` true (`nnt = 1 / 1.5`), `cos2t >= 1 - (1 / 1.5)^2 > 0` for every
`ddn`, so `cos2t < 0` forces `into` to be false.  In the refractive branch the
reflection-only return (line 192) is taken only when `normal.dot(oriented) > 0` fails;
and the branch reads `sqrt` at non-negative arguments only: two libraries whose `sqrt`
agree on the non-negative numbers (and with the same `rand`) give the same result. -/
theorem total_internal_reflection_only_leaving {α : Type} [LinearOrderedField α] :
    (nnt true : α) = 1 / (3 / 2) ∧
    (∀ ddn : α, 1 - (1 / (3 / 2)) * (1 / (3 / 2)) ≤ cos2t (nnt true) ddn) ∧
    ((0 : α) < 1 - (1 / (3 / 2)) * (1 / (3 / 2))) ∧
    (∀ (into : Bool) (ddn : α), cos2t (nnt into) ddn < 0 → into = false) ∧
    (∀ (L : Libc α) (self : Ray α → Int → Nat → Int → Result α) (obj : Sphere α) (ray : Ray α)
      (intersection normal oriented colour : Vector α) (depth : Int) (k : Nat),
      cos2t (nnt (decide (normal.dot oriented > 0))) (ray.direction.dot oriented) < 0 →
        ¬ normal.dot oriented > 0 ∧
        refractive L self obj ray intersection normal oriented colour depth k =
          (self ⟨intersection, reflect ray.direction normal⟩ depth k 1).map fun r =>
            (obj.emission + colour.mult r.1, r.2)) ∧
    (∀ (L1 L2 : Libc α) (self : Ray α → Int → Nat → Int → Result α) (obj : Sphere α)
      (ray : Ray α) (intersection normal oriented colour : Vector α) (depth : Int) (k : Nat),
      (∀ x : α, 0 ≤ x → L1.sqrt x = L2.sqrt x) → L1.RAND_MAX = L2.RAND_MAX →
        L1.rand = L2.rand →
        refractive L1 self obj ray intersection normal oriented colour depth k =
          refractive L2 self obj ray intersection normal oriented colour depth k) := by
  refine ⟨by simp [nnt], fun ddn => (cos2t_into_ge ddn).1, (cos2t_into_ge (0 : α)).2,
    cos2t_neg_leaving, ?_, ?_⟩
  · intro L self obj ray intersection normal oriented colour depth k hneg
    have hinto := cos2t_neg_leaving _ _ hneg
    refine ⟨by simpa using hinto, ?_⟩
    unfold refractive
    simp only [hneg, if_true]
  · intro L1 L2 self obj ray intersection normal oriented colour depth k hs hM hr
    have he : ∀ j : Nat, erand48 L1 j = erand48 L2 j := by
      intro j
      unfold erand48
      rw [hM, hr]
    unfold refractive
    by_cases hneg :
        cos2t (nnt (decide (normal.dot oriented > 0))) (ray.direction.dot oriented) < 0
    · simp only [hneg, if_true]
    · simp only [hneg, if_false]
      have hraw : refractedRaw L1 ray.direction normal (decide (normal.dot oriented > 0))
          (ray.direction.dot oriented) =
          refractedRaw L2 ray.direction normal (decide (normal.dot oriented > 0))
            (ray.direction.dot oriented) := by
        unfold refractedRaw
        rw [hs _ (not_lt.mp hneg)]
      rw [hraw, norm_congr L1.sqrt L2.sqrt hs, he]

/-- Witness of C18 over the reals: leaving the glass head-on (`ddn = -1`) gives
`cos2t = 1`, leaving it at `ddn = 0` gives `cos2t = -5/4 < 0` with `into` false, and
entering at `ddn = 0` gives `cos2t = 5/9`. -/
theorem total_internal_reflection_only_leaving_witness :
    cos2t (nnt false) (0 : ℝ) = -(5 / 4) ∧ cos2t (nnt false) (0 : ℝ) < 0 ∧
      cos2t (nnt true) (0 : ℝ) = 5 / 9 ∧ cos2t (nnt false) (-1 : ℝ) = 1 ∧
      (false = false) := by
  have h0 : cos2t (nnt false) (0 : ℝ) = -(5 / 4) := by
    simp only [cos2t, nnt]
    norm_num
  have h1 : cos2t (nnt false) (0 : ℝ) < 0 := by rw [h0]; norm_num
  refine ⟨h0, h1, ?_, ?_,
    (@total_internal_reflection_only_leaving ℝ _).2.2.2.1 false 0 h1⟩
  · simp only [cos2t, nnt]
    norm_num
  · simp only [cos2t, nnt]
    norm_num

/-! ## Frames, normals and sampled directions -/

section FrameLemmas

variable {α : Type} [LinearOrderedField α]

theorem Vector.cross_dot_left (a b : Vector α) : (a.cross b).dot a = 0 := by
  simp only [Vector.cross, Vector.dot]
  ring

theorem Vector.cross_dot_right (a b : Vector α) : (a.cross b).dot b = 0 := by
  simp only [Vector.cross, Vector.dot]
  ring

theorem Vector.dot_comm (a b : Vector α) : a.dot b = b.dot a := by
  simp only [Vector.dot]
  ring

/-- Lagrange's identity for the cross product of `operator%`. -/
theorem Vector.cross_dot_self (a b : Vector α) :
    (a.cross b).dot (a.cross b) = a.dot a * b.dot b - a.dot b * a.dot b := by
  simp only [Vector.cross, Vector.dot]
  ring

theorem Vector.smul_dot (a b : Vector α) (c : α) : (a.smul c).dot b = c * a.dot b := by
  simp only [Vector.smul, Vector.dot]
  ring

theorem Vector.dot_smul (a b : Vector α) (c : α) : a.dot (b.smul c) = c * a.dot b := by
  simp only [Vector.smul, Vector.dot]
  ring

theorem Vector.dot_self_nonneg (a : Vector α) : 0 ≤ a.dot a := by
  simp only [Vector.dot]
  exact add_nonneg (add_nonneg (mul_self_nonneg a.x) (mul_self_nonneg a.y)) (mul_self_nonneg a.z)

theorem Vector.ne_zero_of_dot_pos (a : Vector α) (h : 0 < a.dot a) : a ≠ Vector.zero := by
  intro h0
  rw [h0] at h
  simp [Vector.dot, Vector.zero] at h

/-- The squared length of a combination of three vectors. -/
theorem Vector.comb_dot_self (u v w : Vector α) (a b c : α) :
    ((u.smul a + v.smul b) + w.smul c).dot ((u.smul a + v.smul b) + w.smul c) =
      a * a * u.dot u + b * b * v.dot v + c * c * w.dot w + 2 * a * b * u.dot v +
        2 * a * c * u.dot w + 2 * b * c * v.dot w := by
  simp only [Vector.dot, Vector.add_x, Vector.add_y, Vector.add_z, Vector.smul_x, Vector.smul_y,
    Vector.smul_z]
  ring

theorem Vector.comb_dot (u v w : Vector α) (a b c : α) :
    ((u.smul a + v.smul b) + w.smul c).dot w =
      a * u.dot w + b * v.dot w + c * w.dot w := by
  simp only [Vector.dot, Vector.add_x, Vector.add_y, Vector.add_z, Vector.smul_x, Vector.smul_y,
    Vector.smul_z]
  ring

theorem Vector.smul_smul (a : Vector α) (b c : α) : (a.smul b).smul c = a.smul (b * c) := by
  rw [Vector.ext_iff3]
  simp only [Vector.smul_x, Vector.smul_y, Vector.smul_z]
  exact ⟨mul_assoc _ _ _, mul_assoc _ _ _, mul_assoc _ _ _⟩

end FrameLemmas

/-- Over the reals the normalised vector has squared length 1 when the operand is not of
squared length 0. -/
theorem norm_dot_self (v : Vector ℝ) (hv : 0 < v.dot v) :
    (v.norm Real.sqrt).dot (v.norm Real.sqrt) = 1 := by
  have hr : 0 < Real.sqrt (v.dot v) := Real.sqrt_pos.mpr hv
  have hrr := Real.mul_self_sqrt hv.le
  show ((v.smul (1 / Real.sqrt (v.dot v))).dot (v.smul (1 / Real.sqrt (v.dot v)))) = 1
  rw [Vector.smul_dot, Vector.dot_smul]
  field_simp

/-- Normalising a vector of squared length 1 returns it. -/
theorem norm_of_unit (v : Vector ℝ) (hv : v.dot v = 1) : v.norm Real.sqrt = v := by
  show v.smul (1 / Real.sqrt (v.dot v)) = v
  rw [hv, Real.sqrt_one, Vector.ext_iff3]
  simp

theorem sqrt_dot_eq_one (v : Vector ℝ) : Real.sqrt (v.dot v) = 1 ↔ v.dot v = 1 :=
  Real.sqrt_eq_one

/-- For a unit `w` the vector `a x w` of lines 145 and 158 is not of length 0. -/
theorem perp_dot_pos (w : Vector ℝ) (hw : w.dot w = 1) : 0 < (perp w).dot (perp w) := by
  unfold perp
  have hx := mul_self_nonneg w.x
  have hy := mul_self_nonneg w.y
  have hz := mul_self_nonneg w.z
  have hw2 : w.x * w.x + w.y * w.y + w.z * w.z = 1 := hw
  by_cases hc : |w.x| > 1 / 10
  · rw [if_pos hc, Vector.cross_dot_self, hw]
    have hne : w.x ≠ 0 := by
      intro h0
      rw [h0, abs_zero] at hc
      norm_num at hc
    have hpos : 0 < w.x * w.x := mul_self_pos.mpr hne
    simp only [Vector.dot]
    nlinarith
  · rw [if_neg hc, Vector.cross_dot_self, hw]
    have hle : |w.x| ≤ 1 / 10 := not_lt.mp hc
    have hsq : w.x * w.x ≤ 1 / 10 * (1 / 10) := by
      have := mul_self_le_mul_self (abs_nonneg w.x) hle
      rwa [abs_mul_abs_self] at this
    simp only [Vector.dot]
    nlinarith

/-- The frame of lines 144-146 for a unit `w`, in dot products. -/
theorem frame_dots (w : Vector ℝ) (hw : w.dot w = 1) :
    ((perp w).norm Real.sqrt).dot ((perp w).norm Real.sqrt) = 1 ∧
      (w.cross ((perp w).norm Real.sqrt)).dot (w.cross ((perp w).norm Real.sqrt)) = 1 ∧
      ((perp w).norm Real.sqrt).dot (w.cross ((perp w).norm Real.sqrt)) = 0 ∧
      ((perp w).norm Real.sqrt).dot w = 0 ∧
      (w.cross ((perp w).norm Real.sqrt)).dot w = 0 := by
  have hp := perp_dot_pos w hw
  have hu := norm_dot_self (perp w) hp
  have huw : ((perp w).norm Real.sqrt).dot w = 0 := by
    show ((perp w).smul (1 / Real.sqrt ((perp w).dot (perp w)))).dot w = 0
    rw [Vector.smul_dot]
    have : (perp w).dot w = 0 := by
      unfold perp
      exact Vector.cross_dot_right _ _
    rw [this, mul_zero]
  refine ⟨hu, ?_, ?_, huw, Vector.cross_dot_left _ _⟩
  · rw [Vector.cross_dot_self, hw, hu, Vector.dot_comm w, huw]
    ring
  · rw [Vector.dot_comm]
    exact Vector.cross_dot_right _ _

/-- A non-zero result of `Sphere::intersect` on a unit-direction ray gives a point on the
sphere. -/
theorem hit_onSphere (s : Sphere ℝ) (ray : Ray ℝ) (hd : ray.direction.dot ray.direction = 1)
    (ht : s.intersect Real.sqrt ray ≠ 0) :
    onSphere s (hitPoint ray (s.intersect Real.sqrt ray)) := by
  rcases intersect_cases s ray hd with ⟨h0, _⟩ | ⟨b, q, _, hon, hc⟩
  · exact absurd h0 ht
  · rcases hc with ⟨_, e⟩ | ⟨_, _, e⟩ | ⟨_, _, e⟩
    · rw [e]
      exact (hon _).mpr (Or.inl rfl)
    · rw [e]
      exact (hon _).mpr (Or.inr rfl)
    · exact absurd e ht

/-- At a hit on a sphere of positive radius the surface normal of line 129 has length 1. -/
theorem hit_normal_unit (s : Sphere ℝ) (ray : Ray ℝ) (hr : 0 < s.radius)
    (hd : ray.direction.dot ray.direction = 1) (ht : s.intersect Real.sqrt ray ≠ 0) :
    0 < (hitPoint ray (s.intersect Real.sqrt ray) - s.position).dot
        (hitPoint ray (s.intersect Real.sqrt ray) - s.position) ∧
      ((hitPoint ray (s.intersect Real.sqrt ray) - s.position).norm Real.sqrt).dot
        ((hitPoint ray (s.intersect Real.sqrt ray) - s.position).norm Real.sqrt) = 1 := by
  have hon := hit_onSphere s ray hd ht
  unfold onSphere at hon
  have hpos : 0 < (hitPoint ray (s.intersect Real.sqrt ray) - s.position).dot
      (hitPoint ray (s.intersect Real.sqrt ray) - s.position) := by
    have := mul_pos hr hr
    linarith
  exact ⟨hpos, norm_dot_self _ hpos⟩

/-- The oriented normal of line 130 is the normal or its negation and never has a positive
dot product with the ray direction. -/
theorem orient_spec {α : Type} [LinearOrderedField α] (n d : Vector α) :
    (orient n d = n ∨ orient n d = n.smul (-1)) ∧ (orient n d).dot d ≤ 0 ∧
      (n.dot d < 0 → orient n d = n) ∧ (¬ n.dot d < 0 → orient n d = n.smul (-1)) ∧
      (orient n d).dot (orient n d) = n.dot n := by
  unfold orient
  by_cases h : n.dot d < 0
  · rw [if_pos h]
    exact ⟨Or.inl rfl, h.le, fun _ => rfl, fun h2 => absurd h h2, rfl⟩
  · rw [if_neg h]
    refine ⟨Or.inr rfl, ?_, fun h2 => absurd h2 h, fun _ => rfl, ?_⟩
    · rw [Vector.smul_dot]
      linarith [not_lt.mp h]
    · rw [Vector.smul_dot, Vector.dot_smul]
      ring

/-- C13: over the reals, for a ray of unit direction that hits a sphere of positive radius
(`Sphere::intersect` is not 0), the vector `hitPoint - centre` is not the zero vector, the
normal of line 129 has length 1, the oriented normal of line 130 is the normal or its
negation, and its dot product with the ray direction is `<= 0` in every case; in the
grazing case `normal . direction = 0` the negation is taken and the dot product is 0. -/
theorem hit_normal_oriented (s : Sphere ℝ) (ray : Ray ℝ) (hr : 0 < s.radius)
    (hd : Real.sqrt (ray.direction.dot ray.direction) = 1)
    (ht : s.intersect Real.sqrt ray ≠ 0) :
    hitPoint ray (s.intersect Real.sqrt ray) - s.position ≠ Vector.zero ∧
      Real.sqrt (((hitPoint ray (s.intersect Real.sqrt ray) - s.position).norm Real.sqrt).dot
        ((hitPoint ray (s.intersect Real.sqrt ray) - s.position).norm Real.sqrt)) = 1 ∧
      (orient ((hitPoint ray (s.intersect Real.sqrt ray) - s.position).norm Real.sqrt)
            ray.direction =
          (hitPoint ray (s.intersect Real.sqrt ray) - s.position).norm Real.sqrt ∨
        orient ((hitPoint ray (s.intersect Real.sqrt ray) - s.position).norm Real.sqrt)
            ray.direction =
          ((hitPoint ray (s.intersect Real.sqrt ray) - s.position).norm Real.sqrt).smul (-1)) ∧
      (orient ((hitPoint ray (s.intersect Real.sqrt ray) - s.position).norm Real.sqrt)
        ray.direction).dot ray.direction ≤ 0 ∧
      (((hitPoint ray (s.intersect Real.sqrt ray) - s.position).norm Real.sqrt).dot
          ray.direction = 0 →
        orient ((hitPoint ray (s.intersect Real.sqrt ray) - s.position).norm Real.sqrt)
            ray.direction =
          ((hitPoint ray (s.intersect Real.sqrt ray) - s.position).norm Real.sqrt).smul (-1) ∧
        (orient ((hitPoint ray (s.intersect Real.sqrt ray) - s.position).norm Real.sqrt)
          ray.direction).dot ray.direction = 0) := by
  have hd1 : ray.direction.dot ray.direction = 1 := Real.sqrt_eq_one.mp hd
  obtain ⟨hpos, hunit⟩ := hit_normal_unit s ray hr hd1 ht
  obtain ⟨h1, h2, _, h4, _⟩ := orient_spec
    ((hitPoint ray (s.intersect Real.sqrt ray) - s.position).norm Real.sqrt) ray.direction
  refine ⟨Vector.ne_zero_of_dot_pos _ hpos, by rw [hunit, Real.sqrt_one], h1, h2, fun h0 => ?_⟩
  have hn := h4 (by rw [h0]; exact lt_irrefl 0)
  refine ⟨hn, ?_⟩
  rw [hn, Vector.smul_dot, h0, mul_zero]

/-- Witness of C13: the ray from (0,0,5) along (0,0,-1) hits the unit sphere at distance 4,
the normal at (0,0,1) is (0,0,1), and the oriented normal is the normal. -/
theorem hit_normal_oriented_witness :
    (0 : ℝ) < (unitSphere : Sphere ℝ).radius ∧
      Real.sqrt ((axisRay : Ray ℝ).direction.dot (axisRay : Ray ℝ).direction) = 1 ∧
      Sphere.intersect Real.sqrt unitSphere axisRay = 4 ∧
      hitPoint axisRay (Sphere.intersect Real.sqrt unitSphere axisRay) -
        (unitSphere : Sphere ℝ).position ≠ Vector.zero ∧
      (orient ((hitPoint axisRay (Sphere.intersect Real.sqrt unitSphere axisRay) -
          (unitSphere : Sphere ℝ).position).norm Real.sqrt)
        (axisRay : Ray ℝ).direction).dot (axisRay : Ray ℝ).direction ≤ 0 := by
  have hr : (0 : ℝ) < (unitSphere : Sphere ℝ).radius := by
    simp [unitSphere]
  have hd : Real.sqrt ((axisRay : Ray ℝ).direction.dot (axisRay : Ray ℝ).direction) = 1 := by
    simp [axisRay, Vector.dot]
  have h4 : Sphere.intersect Real.sqrt (unitSphere : Sphere ℝ) axisRay = 4 := by
    simp only [Sphere.intersect, unitSphere, axisRay, Vector.dot, Vector.sub_x, Vector.sub_y,
      Vector.sub_z, eps]
    norm_num
  have h := hit_normal_oriented unitSphere axisRay hr hd (by rw [h4]; norm_num)
  exact ⟨hr, hd, h4, h.1, h.2.2.2.1⟩

/-- The algebra of line 194: for unit `d` and `n`, a sign `σ` (1 when entering, -1 when
leaving) and `s` with `s^2 = cos2t`, the refracted vector has squared length 1 and its
dot product with `n` is `-σ s`. -/
theorem refracted_core (d n : Vector ℝ) (hd : d.dot d = 1) (hn : n.dot n = 1) (η σ s : ℝ)
    (hσ : σ * σ = 1)
    (hs : s * s = 1 - η * η * (1 - d.dot n * σ * (d.dot n * σ))) :
    (d.smul η - n.smul (σ * (d.dot n * σ * η + s))).dot
        (d.smul η - n.smul (σ * (d.dot n * σ * η + s))) = 1 ∧
      (d.smul η - n.smul (σ * (d.dot n * σ * η + s))).dot n = -(σ * s) := by
  have e1 : ∀ a b : ℝ, (d.smul a - n.smul b).dot (d.smul a - n.smul b) =
      a * a * d.dot d - 2 * a * b * d.dot n + b * b * n.dot n := by
    intro a b
    simp only [Vector.dot, Vector.sub_x, Vector.sub_y, Vector.sub_z, Vector.smul_x,
      Vector.smul_y, Vector.smul_z]
    ring
  have e2 : ∀ a b : ℝ, (d.smul a - n.smul b).dot n = a * d.dot n - b * n.dot n := by
    intro a b
    simp only [Vector.dot, Vector.sub_x, Vector.sub_y, Vector.sub_z, Vector.smul_x,
      Vector.smul_y, Vector.smul_z]
    ring
  rw [e1, e2, hd, hn]
  generalize d.dot n = t at hs ⊢
  rcases mul_self_eq_one_iff.mp hσ with h | h
  · subst h
    exact ⟨by linear_combination hs, by ring⟩
  · subst h
    exact ⟨by linear_combination hs, by ring⟩

/-- Cauchy-Schwarz for two unit vectors. -/
theorem dot_sq_le_one (d n : Vector ℝ) (hd : d.dot d = 1) (hn : n.dot n = 1) :
    d.dot n * d.dot n ≤ 1 := by
  have h := Vector.dot_self_nonneg (d.cross n)
  rw [Vector.cross_dot_self, hd, hn] at h
  linarith

/-- Schlick's reflectance for a term `c` in [0,1]. -/
theorem schlick_mem (c : ℝ) (h0 : 0 ≤ c) (h1 : c ≤ 1) :
    (R0 : ℝ) = 1 / 25 ∧ 1 / 25 ≤ schlick (R0 : ℝ) c ∧ schlick (R0 : ℝ) c ≤ 1 ∧
      0 ≤ (weights (schlick (R0 : ℝ) c)).Tr ∧ (weights (schlick (R0 : ℝ) c)).Tr ≤ 24 / 25 := by
  have hR : (R0 : ℝ) = 1 / 25 := by
    unfold R0
    norm_num
  have h5 : 0 ≤ c * c * c * c * c := by positivity
  have h5' : c * c * c * c * c ≤ 1 := by
    have h2 : c * c ≤ 1 := by nlinarith
    have h3 : c * c * c ≤ 1 := by nlinarith [mul_nonneg h0 h0]
    have h4 : c * c * c * c ≤ 1 := by nlinarith [mul_nonneg (mul_nonneg h0 h0) h0]
    nlinarith [mul_nonneg (mul_nonneg (mul_nonneg h0 h0) h0) h0]
  have hS : schlick (R0 : ℝ) c = 1 / 25 + 24 / 25 * (c * c * c * c * c) := by
    unfold schlick
    rw [hR]
    ring
  have hT : (weights (schlick (R0 : ℝ) c)).Tr = 1 - schlick (R0 : ℝ) c := rfl
  rw [hT, hS]
  refine ⟨hR, by linarith, by linarith, by linarith, by linarith⟩

/-- The refractive branch in terms of `refracted` and `fresnel`. -/
theorem refractive_eq {α : Type} [LinearOrderedField α] (L : Libc α)
    (self : Ray α → Int → Nat → Int → Result α) (obj : Sphere α) (ray : Ray α)
    (intersection normal oriented colour : Vector α) (depth : Int) (k : Nat) :
    refractive L self obj ray intersection normal oriented colour depth k =
      if cos2t (nnt (decide (normal.dot oriented > 0))) (ray.direction.dot oriented) < 0 then
        (self ⟨intersection, reflect ray.direction normal⟩ depth k 1).map fun r =>
          (obj.emission + colour.mult r.1, r.2)
      else if depth > 2 then
        if erand48 L k < (weights (fresnel L ray.direction normal oriented)).P then
          (self ⟨intersection, reflect ray.direction normal⟩ depth (k + 1) 1).map fun r =>
            (obj.emission +
              colour.mult (r.1.smul (weights (fresnel L ray.direction normal oriented)).RP), r.2)
        else
          (self ⟨intersection, refracted L ray.direction normal oriented⟩ depth (k + 1) 1).map
            fun r => (obj.emission +
              colour.mult (r.1.smul (weights (fresnel L ray.direction normal oriented)).TP), r.2)
      else
        (self ⟨intersection, reflect ray.direction normal⟩ depth k 1).bind fun r =>
          (self ⟨intersection, refracted L ray.direction normal oriented⟩ depth r.2 1).map
            fun r2 => (obj.emission +
              colour.mult (r.1.smul (fresnel L ray.direction normal oriented) +
                r2.1.smul (weights (fresnel L ray.direction normal oriented)).Tr), r2.2) :=
  rfl

/-- The refracted direction and the Schlick term for unit `d` and `n`, with the oriented
normal of line 130. -/
theorem refracted_dots (d n : Vector ℝ) (hd : d.dot d = 1) (hn : n.dot n = 1) (M : Nat)
    (rnd : Nat → Nat)
    (hc : 0 ≤ cos2t (nnt (decide (n.dot (orient n d) > 0))) (d.dot (orient n d))) :
    (refractedRaw ⟨Real.sqrt, Real.cos, Real.sin, M, rnd⟩ d n
        (decide (n.dot (orient n d) > 0)) (d.dot (orient n d))).dot
      (refractedRaw ⟨Real.sqrt, Real.cos, Real.sin, M, rnd⟩ d n
        (decide (n.dot (orient n d) > 0)) (d.dot (orient n d))) = 1 ∧
    0 ≤ schlickC (decide (n.dot (orient n d) > 0)) (d.dot (orient n d))
      (refracted ⟨Real.sqrt, Real.cos, Real.sin, M, rnd⟩ d n (orient n d)) n ∧
    schlickC (decide (n.dot (orient n d) > 0)) (d.dot (orient n d))
      (refracted ⟨Real.sqrt, Real.cos, Real.sin, M, rnd⟩ d n (orient n d)) n ≤ 1 := by
  have hcs := dot_sq_le_one d n hd hn
  have hnd : n.dot d = d.dot n := Vector.dot_comm n d
  by_cases h : n.dot d < 0
  · have ho : orient n d = n := (orient_spec n d).2.2.1 h
    have hi : decide (n.dot (orient n d) > 0) = true := by
      rw [ho, hn]
      simp
    rw [ho] at hc ⊢
    rw [hn] at hc ⊢
    simp only [gt_iff_lt, zero_lt_one, decide_True] at hc ⊢
    have hss : Real.sqrt (cos2t (nnt true) (d.dot n)) * Real.sqrt (cos2t (nnt true) (d.dot n)) =
        cos2t (nnt true) (d.dot n) := Real.mul_self_sqrt hc
    have core := refracted_core d n hd hn (nnt true) 1
      (Real.sqrt (cos2t (nnt true) (d.dot n))) (by ring)
      (by rw [hss]; unfold cos2t; ring)
    have hraw : refractedRaw ⟨Real.sqrt, Real.cos, Real.sin, M, rnd⟩ d n true (d.dot n) =
        d.smul (nnt true) - n.smul (1 * (d.dot n * 1 * nnt true +
          Real.sqrt (cos2t (nnt true) (d.dot n)))) := by
      unfold refractedRaw
      simp only [if_true, mul_one]
    refine ⟨by rw [hraw]; exact core.1, ?_, ?_⟩
    · unfold schlickC
      simp only [if_true]
      rw [hnd] at h
      nlinarith
    · unfold schlickC
      simp only [if_true]
      rw [hnd] at h
      linarith
  · have ho : orient n d = n.smul (-1) := (orient_spec n d).2.2.2.1 h
    have hno : n.dot (n.smul (-1)) = -1 := by
      rw [Vector.dot_smul, hn]
      ring
    have hdo : d.dot (n.smul (-1)) = d.dot n * -1 := by
      rw [Vector.dot_smul]
      ring
    rw [ho] at hc ⊢
    rw [hno] at hc ⊢
    have hf : decide ((-1 : ℝ) > 0) = false := by
      simp
    rw [hf] at hc ⊢
    rw [hdo] at hc ⊢
    have hss : Real.sqrt (cos2t (nnt false) (d.dot n * -1)) *
        Real.sqrt (cos2t (nnt false) (d.dot n * -1)) = cos2t (nnt false) (d.dot n * -1) :=
      Real.mul_self_sqrt hc
    have core := refracted_core d n hd hn (nnt false) (-1)
      (Real.sqrt (cos2t (nnt false) (d.dot n * -1))) (by ring)
      (by rw [hss]; unfold cos2t; ring)
    have hraw : refractedRaw ⟨Real.sqrt, Real.cos, Real.sin, M, rnd⟩ d n false
        (d.dot n * -1) =
        d.smul (nnt false) - n.smul (-1 * (d.dot n * -1 * nnt false +
          Real.sqrt (cos2t (nnt false) (d.dot n * -1)))) := by
      unfold refractedRaw
      simp only [Bool.false_eq_true, if_false]
    have hunit := core.1
    rw [← hraw] at hunit
    have hdotn := core.2
    rw [← hraw] at hdotn
    have hle : cos2t (nnt false) (d.dot n * -1) ≤ 1 := by
      unfold cos2t nnt
      simp only [Bool.false_eq_true, if_false]
      nlinarith
    have hs0 := Real.sqrt_nonneg (cos2t (nnt false) (d.dot n * -1))
    have hs1 : Real.sqrt (cos2t (nnt false) (d.dot n * -1)) ≤ 1 := by
      nlinarith
    refine ⟨hunit, ?_, ?_⟩
    · unfold schlickC refracted
      simp only [Bool.false_eq_true, if_false]
      rw [hno, hf, hdo, norm_of_unit _ hunit, hdotn]
      linarith
    · unfold schlickC refracted
      simp only [Bool.false_eq_true, if_false]
      rw [hno, hf, hdo, norm_of_unit _ hunit, hdotn]
      linarith

/-- C19: over the reals, in the refractive branch with ray direction `d` and normal `n` of
length 1, the oriented normal of line 130 and `cos2t >= 0`: the refracted vector of
line 194 has length 1 before `.norm()` (so `.norm()` leaves it unchanged), the Schlick
term `c` lies in [0,1], `R0 = 0.04`, the Fresnel reflectance `Re` lies in [0.04, 1] and
`Tr = 1 - Re` lies in [0, 0.96]. -/
theorem refraction_fresnel_bounds (d n : Vector ℝ) (hd : Real.sqrt (d.dot d) = 1)
    (hn : Real.sqrt (n.dot n) = 1) (M : Nat) (rnd : Nat → Nat)
    (hc : 0 ≤ cos2t (nnt (decide (n.dot (orient n d) > 0))) (d.dot (orient n d))) :
    Real.sqrt
      ((refractedRaw ⟨Real.sqrt, Real.cos, Real.sin, M, rnd⟩ d n
          (decide (n.dot (orient n d) > 0)) (d.dot (orient n d))).dot
        (refractedRaw ⟨Real.sqrt, Real.cos, Real.sin, M, rnd⟩ d n
          (decide (n.dot (orient n d) > 0)) (d.dot (orient n d)))) = 1 ∧
    refracted ⟨Real.sqrt, Real.cos, Real.sin, M, rnd⟩ d n (orient n d) =
      refractedRaw ⟨Real.sqrt, Real.cos, Real.sin, M, rnd⟩ d n
        (decide (n.dot (orient n d) > 0)) (d.dot (orient n d)) ∧
    0 ≤ schlickC (decide (n.dot (orient n d) > 0)) (d.dot (orient n d))
      (refracted ⟨Real.sqrt, Real.cos, Real.sin, M, rnd⟩ d n (orient n d)) n ∧
    schlickC (decide (n.dot (orient n d) > 0)) (d.dot (orient n d))
      (refracted ⟨Real.sqrt, Real.cos, Real.sin, M, rnd⟩ d n (orient n d)) n ≤ 1 ∧
    (R0 : ℝ) = 1 / 25 ∧
    1 / 25 ≤ fresnel ⟨Real.sqrt, Real.cos, Real.sin, M, rnd⟩ d n (orient n d) ∧
    fresnel ⟨Real.sqrt, Real.cos, Real.sin, M, rnd⟩ d n (orient n d) ≤ 1 ∧
    0 ≤ (weights (fresnel ⟨Real.sqrt, Real.cos, Real.sin, M, rnd⟩ d n (orient n d))).Tr ∧
    (weights (fresnel ⟨Real.sqrt, Real.cos, Real.sin, M, rnd⟩ d n (orient n d))).Tr ≤ 24 / 25 := by
  obtain ⟨h1, h2, h3⟩ := refracted_dots d n (Real.sqrt_eq_one.mp hd) (Real.sqrt_eq_one.mp hn)
    M rnd hc
  obtain ⟨hR, h4, h5, h6, h7⟩ := schlick_mem _ h2 h3
  exact ⟨by rw [h1, Real.sqrt_one], norm_of_unit _ h1, h2, h3, hR, h4, h5, h6, h7⟩

/-- Witness of C19: entering head-on, `d = (0,0,-1)` and `n = (0,0,1)`: `cos2t = 1`, the
refracted vector is `(0,0,-1)`, the Schlick term is 0 and `Re = R0 = 0.04`. -/
theorem refraction_fresnel_bounds_witness :
    Real.sqrt ((⟨0, 0, -1⟩ : Vector ℝ).dot ⟨0, 0, -1⟩) = 1 ∧
      Real.sqrt ((⟨0, 0, 1⟩ : Vector ℝ).dot ⟨0, 0, 1⟩) = 1 ∧
      cos2t (nnt (decide ((⟨0, 0, 1⟩ : Vector ℝ).dot (orient ⟨0, 0, 1⟩ ⟨0, 0, -1⟩) > 0)))
        ((⟨0, 0, -1⟩ : Vector ℝ).dot (orient ⟨0, 0, 1⟩ ⟨0, 0, -1⟩)) = 1 ∧
      1 / 25 ≤ fresnel ⟨Real.sqrt, Real.cos, Real.sin, 32767, fun _ => 0⟩
        (⟨0, 0, -1⟩ : Vector ℝ) ⟨0, 0, 1⟩ (orient ⟨0, 0, 1⟩ ⟨0, 0, -1⟩) ∧
      fresnel ⟨Real.sqrt, Real.cos, Real.sin, 32767, fun _ => 0⟩
        (⟨0, 0, -1⟩ : Vector ℝ) ⟨0, 0, 1⟩ (orient ⟨0, 0, 1⟩ ⟨0, 0, -1⟩) ≤ 1 := by
  have hd : Real.sqrt ((⟨0, 0, -1⟩ : Vector ℝ).dot ⟨0, 0, -1⟩) = 1 := by simp [Vector.dot]
  have hn : Real.sqrt ((⟨0, 0, 1⟩ : Vector ℝ).dot ⟨0, 0, 1⟩) = 1 := by simp [Vector.dot]
  have hc : cos2t (nnt (decide ((⟨0, 0, 1⟩ : Vector ℝ).dot (orient ⟨0, 0, 1⟩ ⟨0, 0, -1⟩) > 0)))
      ((⟨0, 0, -1⟩ : Vector ℝ).dot (orient ⟨0, 0, 1⟩ ⟨0, 0, -1⟩)) = 1 := by
    simp only [orient, Vector.dot, cos2t, nnt]
    norm_num
  have h := refraction_fresnel_bounds ⟨0, 0, -1⟩ ⟨0, 0, 1⟩ hd hn 32767 (fun _ => 0)
    (by rw [hc]; norm_num)
  exact ⟨hd, hn, hc, h.2.2.2.2.2.1, h.2.2.2.2.2.2.1⟩

/-! ## The shadow direction of next-event estimation -/

theorem sqrt_of_sq (q x : ℝ) (hq : 0 ≤ q) (h : x = q * q) : Real.sqrt x = q := by
  rw [h]
  exact Real.sqrt_mul_self hq

theorem sqrt_le_one_of_le (x : ℝ) (h : x ≤ 1) : Real.sqrt x ≤ 1 := by
  rcases le_or_lt 0 x with h0 | h0
  · have hs := Real.mul_self_sqrt h0
    have hn := Real.sqrt_nonneg x
    nlinarith
  · rw [Real.sqrt_eq_zero_of_nonpos h0.le]
    exact zero_le_one

/-- Normalisation of a vector whose squared length is the square of `q > 0`. -/
theorem norm_eval (v : Vector ℝ) (q : ℝ) (hq : 0 < q) (h : v.dot v = q * q) :
    v.norm Real.sqrt = v.smul (1 / q) := by
  show v.smul (1 / Real.sqrt (v.dot v)) = v.smul (1 / q)
  rw [sqrt_of_sq q _ hq.le h]

/-- The shadow direction of lines 157-170 from the origin toward a light at (0,0,5/16),
when `cos_a = 4/5` and `sin_a = 3/5` and `eps2 = 0`: it is `(0, -12/13, 5/13)`. -/
theorem shadowDir_eval (M : Nat) (rnd : Nat → Nat) (sphere : Sphere ℝ) (eps1 : ℝ)
    (hp : sphere.position = ⟨0, 0, 5 / 16⟩)
    (hcos : 1 - eps1 + eps1 * cosAMax ⟨Real.sqrt, Real.cos, Real.sin, M, rnd⟩ sphere ⟨0, 0, 0⟩ =
      4 / 5) :
    shadowDir ⟨Real.sqrt, Real.cos, Real.sin, M, rnd⟩ sphere ⟨0, 0, 0⟩ eps1 0 =
      ⟨0, -(12 / 13), 5 / 13⟩ := by
  have hsw : sphere.position - ⟨0, 0, 0⟩ = ⟨0, 0, 5 / 16⟩ := by
    rw [hp, Vector.ext_iff3]
    simp
  have hperp : perp (⟨0, 0, 5 / 16⟩ : Vector ℝ) = ⟨0, -(5 / 16), 0⟩ := by
    simp only [perp, Vector.cross]
    rw [Vector.ext_iff3]
    norm_num
  have hsu : (⟨0, -(5 / 16), 0⟩ : Vector ℝ).norm Real.sqrt = ⟨0, -1, 0⟩ := by
    rw [norm_eval _ (5 / 16) (by norm_num) (by simp only [Vector.dot]; norm_num),
      Vector.ext_iff3]
    simp only [Vector.smul]
    norm_num
  have hsv : (⟨0, 0, 5 / 16⟩ : Vector ℝ).cross ⟨0, -1, 0⟩ = ⟨5 / 16, 0, 0⟩ := by
    simp only [Vector.cross]
    rw [Vector.ext_iff3]
    norm_num
  have hsin : Real.sqrt (1 - (4 / 5 : ℝ) * (4 / 5)) = 3 / 5 :=
    sqrt_of_sq (3 / 5) _ (by norm_num) (by norm_num)
  have hraw : (((⟨0, -1, 0⟩ : Vector ℝ).smul (Real.cos (2 * M_PI * 0))).smul (3 / 5) +
      ((⟨5 / 16, 0, 0⟩ : Vector ℝ).smul (Real.sin (2 * M_PI * 0))).smul (3 / 5)) +
      (⟨0, 0, 5 / 16⟩ : Vector ℝ).smul (4 / 5) = ⟨0, -(3 / 5), 1 / 4⟩ := by
    rw [Vector.ext_iff3]
    simp only [Vector.add_x, Vector.add_y, Vector.add_z, Vector.smul_x, Vector.smul_y,
      Vector.smul_z, mul_zero, Real.cos_zero, Real.sin_zero]
    norm_num
  have hn : (⟨0, -(3 / 5), 1 / 4⟩ : Vector ℝ).norm Real.sqrt = ⟨0, -(12 / 13), 5 / 13⟩ := by
    rw [norm_eval _ (13 / 20) (by norm_num) (by simp only [Vector.dot]; norm_num),
      Vector.ext_iff3]
    simp only [Vector.smul]
    norm_num
  unfold shadowDir
  simp only [hcos, hsw, hperp, hsu, hsv, hsin, hraw, hn]

/-- When the light's centre is at distance 1 from the surface point, the frame
`(su, sv, sw)` is orthonormal and the shadow direction has the cosine `cos_a` with the
direction `sw` toward the centre, which is at least `cos_a_max`. -/
theorem shadowDir_unit_distance (M : Nat) (rnd : Nat → Nat) (sphere : Sphere ℝ)
    (P : Vector ℝ) (eps1 eps2 : ℝ) (h0 : 0 ≤ eps1) (h1 : eps1 ≤ 1)
    (hD : (sphere.position - P).dot (sphere.position - P) = 1) :
    (shadowDir ⟨Real.sqrt, Real.cos, Real.sin, M, rnd⟩ sphere P eps1 eps2).dot
        (sphere.position - P) =
      1 - eps1 + eps1 * cosAMax ⟨Real.sqrt, Real.cos, Real.sin, M, rnd⟩ sphere P ∧
    cosAMax ⟨Real.sqrt, Real.cos, Real.sin, M, rnd⟩ sphere P ≤
      (shadowDir ⟨Real.sqrt, Real.cos, Real.sin, M, rnd⟩ sphere P eps1 eps2).dot
        (sphere.position - P) := by
  obtain ⟨huu, hvv, huv, huw, hvw⟩ := frame_dots (sphere.position - P) hD
  have hcm0 : 0 ≤ cosAMax ⟨Real.sqrt, Real.cos, Real.sin, M, rnd⟩ sphere P :=
    Real.sqrt_nonneg _
  have hcm1 : cosAMax ⟨Real.sqrt, Real.cos, Real.sin, M, rnd⟩ sphere P ≤ 1 := by
    have : 0 ≤ sphere.radius * sphere.radius / (P - sphere.position).dot (P - sphere.position) :=
      div_nonneg (mul_self_nonneg _) (Vector.dot_self_nonneg _)
    exact sqrt_le_one_of_le _ (by linarith)
  obtain ⟨cm, hcm⟩ : ∃ cm : ℝ, cosAMax ⟨Real.sqrt, Real.cos, Real.sin, M, rnd⟩ sphere P = cm :=
    ⟨_, rfl⟩
  rw [hcm] at hcm0 hcm1
  have hca0 : 0 ≤ 1 - eps1 + eps1 * cm := by nlinarith
  have hca1 : 1 - eps1 + eps1 * cm ≤ 1 := by nlinarith
  have hsa : Real.sqrt (1 - (1 - eps1 + eps1 * cm) * (1 - eps1 + eps1 * cm)) *
      Real.sqrt (1 - (1 - eps1 + eps1 * cm) * (1 - eps1 + eps1 * cm)) =
      1 - (1 - eps1 + eps1 * cm) * (1 - eps1 + eps1 * cm) :=
    Real.mul_self_sqrt (by nlinarith)
  have hcs : Real.cos (2 * M_PI * eps2) * Real.cos (2 * M_PI * eps2) +
      Real.sin (2 * M_PI * eps2) * Real.sin (2 * M_PI * eps2) = 1 := by
    have := Real.cos_sq_add_sin_sq (2 * M_PI * eps2)
    nlinarith [this]
  unfold shadowDir
  simp only [hcm, Vector.smul_smul]
  have hunit :
      ((((perp (sphere.position - P)).norm Real.sqrt).smul (Real.cos (2 * M_PI * eps2) *
          Real.sqrt (1 - (1 - eps1 + eps1 * cm) * (1 - eps1 + eps1 * cm))) +
        ((sphere.position - P).cross ((perp (sphere.position - P)).norm Real.sqrt)).smul
          (Real.sin (2 * M_PI * eps2) *
            Real.sqrt (1 - (1 - eps1 + eps1 * cm) * (1 - eps1 + eps1 * cm)))) +
        (sphere.position - P).smul (1 - eps1 + eps1 * cm)).dot
      ((((perp (sphere.position - P)).norm Real.sqrt).smul (Real.cos (2 * M_PI * eps2) *
          Real.sqrt (1 - (1 - eps1 + eps1 * cm) * (1 - eps1 + eps1 * cm))) +
        ((sphere.position - P).cross ((perp (sphere.position - P)).norm Real.sqrt)).smul
          (Real.sin (2 * M_PI * eps2) *
            Real.sqrt (1 - (1 - eps1 + eps1 * cm) * (1 - eps1 + eps1 * cm)))) +
        (sphere.position - P).smul (1 - eps1 + eps1 * cm)) = 1 := by
    rw [Vector.comb_dot_self, huu, hvv, hD, huv, huw, hvw]
    linear_combination
      (Real.sqrt (1 - (1 - eps1 + eps1 * cm) * (1 - eps1 + eps1 * cm)) *
        Real.sqrt (1 - (1 - eps1 + eps1 * cm) * (1 - eps1 + eps1 * cm))) * hcs + hsa
  rw [norm_of_unit _ hunit, Vector.comb_dot, huw, hvw, hD]
  constructor
  · ring
  · nlinarith

/-- C15 (what the code does): the frame vector `sw` of line 157 is not normalised.  When
the light's centre is at distance 1 from the surface point, the shadow direction has the
cosine `cos_a = 1 - eps1 + eps1 * cos_a_max` with the direction toward the centre, and
that cosine is at least `cos_a_max`.  At another distance it does not: for the light of
radius 3/16 at (0,0,5/16) seen from the origin, with `rand()` returning `RAND_MAX` and
then 0 (`eps1 = 1`, `eps2 = 0`), `cos_a_max = cos_a = 4/5` but the shadow direction is
`(0, -12/13, 5/13)`, whose cosine with the unit direction `(0,0,1)` toward the centre is
`5/13 < 4/5`; for the light of radius 1/4 at the same place and `eps1 = 1/2`,
`cos_a_max = 3/5`, `cos_a = 4/5`, and the cosine is again `5/13 < 3/5`: the direction lies
outside the light's cone. -/
theorem shadow_direction_leaves_cone :
    (∀ (M : Nat) (rnd : Nat → Nat) (sphere : Sphere ℝ) (P : Vector ℝ) (eps1 eps2 : ℝ),
      0 ≤ eps1 → eps1 ≤ 1 → (sphere.position - P).dot (sphere.position - P) = 1 →
      (shadowDir ⟨Real.sqrt, Real.cos, Real.sin, M, rnd⟩ sphere P eps1 eps2).dot
          (sphere.position - P) =
        1 - eps1 + eps1 * cosAMax ⟨Real.sqrt, Real.cos, Real.sin, M, rnd⟩ sphere P ∧
      cosAMax ⟨Real.sqrt, Real.cos, Real.sin, M, rnd⟩ sphere P ≤
        (shadowDir ⟨Real.sqrt, Real.cos, Real.sin, M, rnd⟩ sphere P eps1 eps2).dot
          (sphere.position - P)) ∧
    ((0 : ℝ) < (nearLight : Sphere ℝ).emission.x ∧
      (nearLight : Sphere ℝ).radius * (nearLight : Sphere ℝ).radius <
        ((⟨0, 0, 0⟩ : Vector ℝ) - (nearLight : Sphere ℝ).position).dot
          (⟨0, 0, 0⟩ - (nearLight : Sphere ℝ).position) ∧
      erand48 (maxThenZero Real.sqrt Real.cos Real.sin) 0 = 1 ∧
      erand48 (maxThenZero Real.sqrt Real.cos Real.sin) 1 = 0 ∧
      cosAMax (maxThenZero Real.sqrt Real.cos Real.sin) (nearLight : Sphere ℝ) ⟨0, 0, 0⟩ = 4 / 5 ∧
      1 - erand48 (maxThenZero Real.sqrt Real.cos Real.sin) 0 +
          erand48 (maxThenZero Real.sqrt Real.cos Real.sin) 0 *
            cosAMax (maxThenZero Real.sqrt Real.cos Real.sin) (nearLight : Sphere ℝ) ⟨0, 0, 0⟩ =
        4 / 5 ∧
      ((nearLight : Sphere ℝ).position - ⟨0, 0, 0⟩).norm Real.sqrt = ⟨0, 0, 1⟩ ∧
      shadowDir (maxThenZero Real.sqrt Real.cos Real.sin) (nearLight : Sphere ℝ) ⟨0, 0, 0⟩
          (erand48 (maxThenZero Real.sqrt Real.cos Real.sin) 0)
          (erand48 (maxThenZero Real.sqrt Real.cos Real.sin) 1) =
        ⟨0, -(12 / 13), 5 / 13⟩ ∧
      (shadowDir (maxThenZero Real.sqrt Real.cos Real.sin) (nearLight : Sphere ℝ) ⟨0, 0, 0⟩
          (erand48 (maxThenZero Real.sqrt Real.cos Real.sin) 0)
          (erand48 (maxThenZero Real.sqrt Real.cos Real.sin) 1)).dot
        (((nearLight : Sphere ℝ).position - ⟨0, 0, 0⟩).norm Real.sqrt) = 5 / 13 ∧
      (5 / 13 : ℝ) < 4 / 5) ∧
    ((nearLightB : Sphere ℝ).radius * (nearLightB : Sphere ℝ).radius <
        ((⟨0, 0, 0⟩ : Vector ℝ) - (nearLightB : Sphere ℝ).position).dot
          (⟨0, 0, 0⟩ - (nearLightB : Sphere ℝ).position) ∧
      cosAMax (maxThenZero Real.sqrt Real.cos Real.sin) (nearLightB : Sphere ℝ) ⟨0, 0, 0⟩ = 3 / 5 ∧
      1 - (1 / 2 : ℝ) +
          1 / 2 * cosAMax (maxThenZero Real.sqrt Real.cos Real.sin) (nearLightB : Sphere ℝ)
            ⟨0, 0, 0⟩ =
        4 / 5 ∧
      shadowDir (maxThenZero Real.sqrt Real.cos Real.sin) (nearLightB : Sphere ℝ) ⟨0, 0, 0⟩
          (1 / 2) 0 = ⟨0, -(12 / 13), 5 / 13⟩ ∧
      (shadowDir (maxThenZero Real.sqrt Real.cos Real.sin) (nearLightB : Sphere ℝ) ⟨0, 0, 0⟩
          (1 / 2) 0).dot
        (((nearLightB : Sphere ℝ).position - ⟨0, 0, 0⟩).norm Real.sqrt) = 5 / 13 ∧
      (5 / 13 : ℝ) < 3 / 5) := by
  have he0 : erand48 (maxThenZero Real.sqrt Real.cos Real.sin) 0 = (1 : ℝ) := by
    simp only [erand48, maxThenZero]
    norm_num
  have he1 : erand48 (maxThenZero Real.sqrt Real.cos Real.sin) 1 = (0 : ℝ) := by
    simp only [erand48, maxThenZero]
    norm_num
  have hcm : cosAMax (maxThenZero Real.sqrt Real.cos Real.sin) (nearLight : Sphere ℝ) ⟨0, 0, 0⟩ =
      4 / 5 := by
    simp only [cosAMax, maxThenZero, nearLight, Vector.dot, Vector.sub_x, Vector.sub_y,
      Vector.sub_z]
    exact sqrt_of_sq (4 / 5) _ (by norm_num) (by norm_num)
  have hcmB : cosAMax (maxThenZero Real.sqrt Real.cos Real.sin) (nearLightB : Sphere ℝ) ⟨0, 0, 0⟩
      = 3 / 5 := by
    simp only [cosAMax, maxThenZero, nearLightB, Vector.dot, Vector.sub_x, Vector.sub_y,
      Vector.sub_z]
    exact sqrt_of_sq (3 / 5) _ (by norm_num) (by norm_num)
  have hdir : ∀ v : Vector ℝ, v = ⟨0, 0, 5 / 16⟩ → (v - ⟨0, 0, 0⟩).norm Real.sqrt = ⟨0, 0, 1⟩ := by
    intro v hv
    rw [hv, norm_eval _ (5 / 16) (by norm_num)
      (by simp only [Vector.dot, Vector.sub_x, Vector.sub_y, Vector.sub_z]; norm_num),
      Vector.ext_iff3]
    simp only [Vector.smul, Vector.sub_x, Vector.sub_y, Vector.sub_z]
    norm_num
  have hca : 1 - erand48 (maxThenZero Real.sqrt Real.cos Real.sin) 0 +
      erand48 (maxThenZero Real.sqrt Real.cos Real.sin) 0 *
        cosAMax (maxThenZero Real.sqrt Real.cos Real.sin) (nearLight : Sphere ℝ) ⟨0, 0, 0⟩ =
      4 / 5 := by
    rw [he0, hcm]
    norm_num
  have hcaB : 1 - (1 / 2 : ℝ) + 1 / 2 * cosAMax (maxThenZero Real.sqrt Real.cos Real.sin)
      (nearLightB : Sphere ℝ) ⟨0, 0, 0⟩ = 4 / 5 := by
    rw [hcmB]
    norm_num
  have hsh : shadowDir (maxThenZero Real.sqrt Real.cos Real.sin) (nearLight : Sphere ℝ) ⟨0, 0, 0⟩
      (erand48 (maxThenZero Real.sqrt Real.cos Real.sin) 0)
      (erand48 (maxThenZero Real.sqrt Real.cos Real.sin) 1) =
      ⟨0, -(12 / 13), 5 / 13⟩ := by
    rw [he1]
    exact shadowDir_eval _ _ nearLight (erand48 (maxThenZero Real.sqrt Real.cos Real.sin) 0) rfl hca
  have hshB : shadowDir (maxThenZero Real.sqrt Real.cos Real.sin) (nearLightB : Sphere ℝ) ⟨0, 0,
      0⟩ (1 / 2) 0 =
      ⟨0, -(12 / 13), 5 / 13⟩ :=
    shadowDir_eval _ _ nearLightB (1 / 2) rfl hcaB
  refine ⟨fun M rnd sphere P eps1 eps2 h0 h1 hD =>
      shadowDir_unit_distance M rnd sphere P eps1 eps2 h0 h1 hD,
    ⟨by simp [nearLight], ?_, he0, he1, hcm, hca, hdir _ rfl, hsh, ?_, by norm_num⟩,
    ⟨?_, hcmB, hcaB, hshB, ?_, by norm_num⟩⟩
  · simp only [nearLight, Vector.dot, Vector.sub_x, Vector.sub_y, Vector.sub_z]
    norm_num
  · rw [hsh, hdir (nearLight : Sphere ℝ).position rfl]
    simp only [Vector.dot]
    norm_num
  · simp only [nearLightB, Vector.dot, Vector.sub_x, Vector.sub_y, Vector.sub_z]
    norm_num
  · rw [hshB, hdir (nearLightB : Sphere ℝ).position rfl]
    simp only [Vector.dot]
    norm_num

/-! ## The sign of the estimate -/

section SignLemmas

theorem Vector.nonneg_add (a b : Vector ℝ) (ha : a.nonneg) (hb : b.nonneg) : (a + b).nonneg :=
  ⟨add_nonneg ha.1 hb.1, add_nonneg ha.2.1 hb.2.1, add_nonneg ha.2.2 hb.2.2⟩

theorem Vector.nonneg_smul (a : Vector ℝ) (c : ℝ) (ha : a.nonneg) (hc : 0 ≤ c) :
    (a.smul c).nonneg :=
  ⟨mul_nonneg ha.1 hc, mul_nonneg ha.2.1 hc, mul_nonneg ha.2.2 hc⟩

theorem Vector.nonneg_mult (a b : Vector ℝ) (ha : a.nonneg) (hb : b.nonneg) :
    (a.mult b).nonneg :=
  ⟨mul_nonneg ha.1 hb.1, mul_nonneg ha.2.1 hb.2.1, mul_nonneg ha.2.2 hb.2.2⟩

theorem Vector.nonneg_zero : (Vector.zero : Vector ℝ).nonneg :=
  ⟨le_refl _, le_refl _, le_refl _⟩

theorem M_PI_pos : (0 : ℝ) < M_PI := by
  unfold M_PI
  norm_num

/-- The direct-light term of line 175 has no negative channel when the shadow direction
faces the oriented normal. -/
theorem lightTerm_nonneg (L : Libc ℝ) (hL : L.sqrt = Real.sqrt) (sphere : Sphere ℝ)
    (P oriented colour shadow : Vector ℝ) (hc : colour.nonneg) (he : sphere.emission.nonneg)
    (hcos : 0 ≤ shadow.dot oriented) :
    (lightTerm L sphere P oriented colour shadow).nonneg := by
  have hcm : cosAMax L sphere P ≤ 1 := by
    unfold cosAMax
    rw [hL]
    have : 0 ≤ sphere.radius * sphere.radius / (P - sphere.position).dot (P - sphere.position) :=
      div_nonneg (mul_self_nonneg _) (Vector.dot_self_nonneg _)
    exact sqrt_le_one_of_le _ (by linarith)
  have hpi := M_PI_pos
  unfold lightTerm
  apply Vector.nonneg_smul
  · apply Vector.nonneg_mult _ _ hc
    apply Vector.nonneg_smul
    · exact Vector.nonneg_smul _ _ he hcos
    · exact mul_nonneg (by linarith) (by linarith)
  · unfold M_1_PI
    positivity

/-- The light loop keeps the sum free of negative channels when every counted shadow
direction faces the oriented normal. -/
theorem lightLoop_nonneg (L : Libc ℝ) (hL : L.sqrt = Real.sqrt) (scene : List (Sphere ℝ))
    (P oriented colour : Vector ℝ) (hc : colour.nonneg)
    (hem : ∀ s ∈ scene, s.emission.nonneg)
    (hface : ∀ (i : Nat) (sphere : Sphere ℝ) (k id : Nat), scene[i]? = some sphere →
      ¬ (sphere.emission.x ≤ 0 ∧ sphere.emission.y ≤ 0 ∧ sphere.emission.z ≤ 0) →
      (intersect L.sqrt scene
        ⟨P, shadowDir L sphere P (erand48 L k) (erand48 L (k + 1))⟩ id).1 = true →
      (intersect L.sqrt scene
        ⟨P, shadowDir L sphere P (erand48 L k) (erand48 L (k + 1))⟩ id).2.2 = i →
      0 ≤ (shadowDir L sphere P (erand48 L k) (erand48 L (k + 1))).dot oriented)
    (st : Vector ℝ × Nat × Nat) (hst : st.1.nonneg) :
    (lightLoop L scene P oriented colour st).1.nonneg := by
  unfold lightLoop
  generalize List.range scene.length = l
  induction l generalizing st with
  | nil => exact hst
  | cons i l ih =>
    rw [List.foldl_cons]
    apply ih
    cases hs : scene[i]? with
    | none => exact hst
    | some sphere =>
      simp only
      unfold lightStep
      by_cases hnl : sphere.emission.x ≤ 0 ∧ sphere.emission.y ≤ 0 ∧ sphere.emission.z ≤ 0
      · rw [if_pos hnl]
        exact hst
      · rw [if_neg hnl]
        simp only
        by_cases hcount : (intersect L.sqrt scene
            ⟨P, shadowDir L sphere P (erand48 L st.2.1) (erand48 L (st.2.1 + 1))⟩ st.2.2).1 =
              true ∧
            (intersect L.sqrt scene
              ⟨P, shadowDir L sphere P (erand48 L st.2.1) (erand48 L (st.2.1 + 1))⟩
                st.2.2).2.2 = i
        · rw [if_pos hcount]
          exact Vector.nonneg_add _ _ hst (lightTerm_nonneg L hL sphere P oriented colour _ hc
            (hem sphere (List.mem_iff_getElem?.mpr ⟨i, hs⟩))
            (hface i sphere st.2.1 st.2.2 hs hnl hcount.1 hcount.2))
        · rw [if_neg hcount]
          exact hst

theorem fresnel_congr (L1 L2 : Libc ℝ) (h : L1.sqrt = L2.sqrt) (d n o : Vector ℝ) :
    fresnel L1 d n o = fresnel L2 d n o := by
  unfold fresnel refracted refractedRaw
  rw [h]

/-- The Fresnel reflectance of the refractive branch lies in [0.04, 1] for a unit ray
direction and a unit normal, outside total internal reflection. -/
theorem fresnel_mem (L : Libc ℝ) (hL : L.sqrt = Real.sqrt) (d n : Vector ℝ)
    (hd : d.dot d = 1) (hn : n.dot n = 1)
    (hc : ¬ cos2t (nnt (decide (n.dot (orient n d) > 0))) (d.dot (orient n d)) < 0) :
    1 / 25 ≤ fresnel L d n (orient n d) ∧ fresnel L d n (orient n d) ≤ 1 := by
  rw [fresnel_congr L ⟨Real.sqrt, Real.cos, Real.sin, 0, fun _ => 0⟩ hL]
  obtain ⟨_, h2, h3⟩ := refracted_dots d n hd hn 0 (fun _ => 0) (not_lt.mp hc)
  obtain ⟨_, h4, h5, _, _⟩ := schlick_mem _ h2 h3
  exact ⟨h4, h5⟩

/-- The weights of line 197 are not negative for `Re` in [0.04, 1]. -/
theorem weights_nonneg (Re : ℝ) (h0 : 1 / 25 ≤ Re) (h1 : Re ≤ 1) :
    0 ≤ Re ∧ 0 ≤ (weights Re).Tr ∧ 0 ≤ (weights Re).RP ∧ 0 ≤ (weights Re).TP := by
  have hP : (0 : ℝ) < 1 / 4 + 1 / 2 * Re := by linarith
  have hQ : (0 : ℝ) < 1 - (1 / 4 + 1 / 2 * Re) := by linarith
  refine ⟨by linarith, ?_, ?_, ?_⟩
  · show 0 ≤ 1 - Re
    linarith
  · show 0 ≤ Re / (1 / 4 + 1 / 2 * Re)
    exact div_nonneg (by linarith) hP.le
  · show 0 ≤ (1 - Re) / (1 - (1 / 4 + 1 / 2 * Re))
    exact div_nonneg (by linarith) hQ.le

/-- Lines 136-203 return no negative channel when the recursive calls and the light-loop
sum do not. -/
theorem shade_nonneg (L : Libc ℝ) (hL : L.sqrt = Real.sqrt) (scene : List (Sphere ℝ))
    (self : Ray ℝ → Int → Nat → Int → Result ℝ) (obj : Sphere ℝ) (ray : Ray ℝ)
    (P normal colour : Vector ℝ) (depth : Int) (k id : Nat) (emissive : Int)
    (hd : ray.direction.dot ray.direction = 1) (hn : normal.dot normal = 1)
    (hem : obj.emission.nonneg) (hc : colour.nonneg) (hfl : 0 ≤ emissive)
    (hself : ∀ (r : Ray ℝ) (d : Int) (j : Nat) (e : Int) (out : Vector ℝ × Nat), 0 ≤ e →
      self r d j e = some out → out.1.nonneg)
    (hlight : obj.material = Material.DIFFUSE → ∀ k2 : Nat,
      (lightLoop L scene P (orient normal ray.direction) colour (Vector.zero, k2, id)).1.nonneg)
    (out : Vector ℝ × Nat)
    (h : shade L scene self obj ray P normal (orient normal ray.direction) colour depth k id
      emissive = some out) : out.1.nonneg := by
  have hflr : (0 : ℝ) ≤ (emissive : ℝ) := Int.cast_nonneg.mpr hfl
  unfold shade at h
  by_cases hcap : depth > 100
  · rw [if_pos hcap, Option.some.injEq] at h
    rw [← h]
    exact hem
  · rw [if_neg hcap] at h
    cases hm : obj.material with
    | DIFFUSE =>
      rw [hm] at h
      simp only [diffuse] at h
      rw [Option.map_eq_some'] at h
      obtain ⟨r, hr, e⟩ := h
      rw [← e]
      exact Vector.nonneg_add _ _
        (Vector.nonneg_add _ _ (Vector.nonneg_smul _ _ hem hflr) (hlight hm _))
        (Vector.nonneg_mult _ _ hc (hself _ _ _ 0 r (le_refl _) hr))
    | SPECULAR =>
      rw [hm] at h
      simp only [specular] at h
      rw [Option.map_eq_some'] at h
      obtain ⟨r, hr, e⟩ := h
      rw [← e]
      exact Vector.nonneg_add _ _ hem
        (Vector.nonneg_mult _ _ hc (hself _ _ _ 1 r (by decide) hr))
    | REFRACTIVE =>
      rw [hm] at h
      simp only [refractive_eq] at h
      by_cases htir : cos2t (nnt (decide (normal.dot (orient normal ray.direction) > 0)))
          (ray.direction.dot (orient normal ray.direction)) < 0
      · rw [if_pos htir, Option.map_eq_some'] at h
        obtain ⟨r, hr, e⟩ := h
        rw [← e]
        exact Vector.nonneg_add _ _ hem
          (Vector.nonneg_mult _ _ hc (hself _ _ _ 1 r (by decide) hr))
      · rw [if_neg htir] at h
        obtain ⟨hf0, hf1⟩ := fresnel_mem L hL ray.direction normal hd hn htir
        obtain ⟨hRe, hTr, hRP, hTP⟩ := weights_nonneg _ hf0 hf1
        by_cases hd2 : depth > 2
        · rw [if_pos hd2] at h
          by_cases hu : erand48 L k <
              (weights (fresnel L ray.direction normal (orient normal ray.direction))).P
          · rw [if_pos hu, Option.map_eq_some'] at h
            obtain ⟨r, hr, e⟩ := h
            rw [← e]
            exact Vector.nonneg_add _ _ hem (Vector.nonneg_mult _ _ hc
              (Vector.nonneg_smul _ _ (hself _ _ _ 1 r (by decide) hr) hRP))
          · rw [if_neg hu, Option.map_eq_some'] at h
            obtain ⟨r, hr, e⟩ := h
            rw [← e]
            exact Vector.nonneg_add _ _ hem (Vector.nonneg_mult _ _ hc
              (Vector.nonneg_smul _ _ (hself _ _ _ 1 r (by decide) hr) hTP))
        · rw [if_neg hd2, Option.bind_eq_some] at h
          obtain ⟨r, hr, h2⟩ := h
          rw [Option.map_eq_some'] at h2
          obtain ⟨r2, hr2, e⟩ := h2
          rw [← e]
          exact Vector.nonneg_add _ _ hem (Vector.nonneg_mult _ _ hc
            (Vector.nonneg_add _ _
              (Vector.nonneg_smul _ _ (hself _ _ _ 1 r (by decide) hr) hRe)
              (Vector.nonneg_smul _ _ (hself _ _ _ 1 r2 (by decide) hr2) hTr)))

/-- A scene query that returns true leaves in `id` the index of a sphere whose distance is
`t`, and `t` is not 0. -/
theorem intersect_hit_dist {α : Type} [LinearOrderedField α] (sqrt : α → α)
    (scene : List (Sphere α)) (ray : Ray α) (id : Nat)
    (h : (intersect sqrt scene ray id).1 = true) :
    ∃ s : Sphere α, scene[(intersect sqrt scene ray id).2.2]? = some s ∧
      s.intersect sqrt ray = (intersect sqrt scene ray id).2.1 ∧ s.intersect sqrt ray ≠ 0 := by
  obtain ⟨_, _, h3⟩ := intersectLoop_spec sqrt scene ray scene.length (inf, id)
  simp only [intersect, decide_eq_true_eq] at h ⊢
  rcases h3 with h0 | ⟨_, _, hs⟩
  · rw [h0] at h
    exact absurd h (lt_irrefl _)
  · exact hs

/-- One call of `radiance` returns no negative channel when its recursive calls do not and
every shadow direction counted at its hit faces the oriented normal. -/
theorem radianceBody_nonneg (L : Libc ℝ) (hL : L.sqrt = Real.sqrt) (scene : List (Sphere ℝ))
    (hscene : ∀ s ∈ scene, 0 < s.radius ∧ s.emission.nonneg ∧ s.colour.nonneg)
    (self : Ray ℝ → Int → Nat → Int → Result ℝ) (ray : Ray ℝ) (depth : Int) (k : Nat)
    (emissive : Int) (hd : ray.direction.dot ray.direction = 1) (hfl : 0 ≤ emissive)
    (hself : ∀ (r : Ray ℝ) (d : Int) (j : Nat) (e : Int) (out : Vector ℝ × Nat), 0 ≤ e →
      self r d j e = some out → out.1.nonneg)
    (hface : ∀ obj : Sphere ℝ, (intersect L.sqrt scene ray 0).1 = true →
      scene[(intersect L.sqrt scene ray 0).2.2]? = some obj →
      obj.material = Material.DIFFUSE → maxChannel obj.colour ≠ 0 →
      ∀ (i : Nat) (sphere : Sphere ℝ) (k2 id2 : Nat), scene[i]? = some sphere →
      ¬ (sphere.emission.x ≤ 0 ∧ sphere.emission.y ≤ 0 ∧ sphere.emission.z ≤ 0) →
      (intersect L.sqrt scene ⟨hitPoint ray (intersect L.sqrt scene ray 0).2.1,
        shadowDir L sphere (hitPoint ray (intersect L.sqrt scene ray 0).2.1) (erand48 L k2)
          (erand48 L (k2 + 1))⟩ id2).1 = true →
      (intersect L.sqrt scene ⟨hitPoint ray (intersect L.sqrt scene ray 0).2.1,
        shadowDir L sphere (hitPoint ray (intersect L.sqrt scene ray 0).2.1) (erand48 L k2)
          (erand48 L (k2 + 1))⟩ id2).2.2 = i →
      0 ≤ (shadowDir L sphere (hitPoint ray (intersect L.sqrt scene ray 0).2.1) (erand48 L k2)
          (erand48 L (k2 + 1))).dot
        (orient ((hitPoint ray (intersect L.sqrt scene ray 0).2.1 - obj.position).norm L.sqrt)
          ray.direction))
    (out : Vector ℝ × Nat) (h : radianceBody L scene self ray depth k emissive = some out) :
    out.1.nonneg := by
  cases hq : (intersect L.sqrt scene ray 0).1 with
  | false =>
    rw [radianceBody_miss _ _ _ _ _ _ _ hq, Option.some.injEq] at h
    rw [← h]
    exact Vector.nonneg_zero
  | true =>
    obtain ⟨obj, hobj, hdist, hne⟩ := intersect_hit_dist L.sqrt scene ray 0 hq
    have hmem : obj ∈ scene := List.mem_iff_getElem?.mpr ⟨_, hobj⟩
    obtain ⟨hrad, hem, hcol⟩ := hscene obj hmem
    have hflr : (0 : ℝ) ≤ (emissive : ℝ) := Int.cast_nonneg.mpr hfl
    rw [radianceBody_hit _ _ _ _ _ _ _ obj hq hobj] at h
    have hnorm : ((hitPoint ray (intersect L.sqrt scene ray 0).2.1 - obj.position).norm
        L.sqrt).dot
        ((hitPoint ray (intersect L.sqrt scene ray 0).2.1 - obj.position).norm L.sqrt) = 1 := by
      rw [← hdist, hL]
      rw [hL] at hne
      exact (hit_normal_unit obj ray hrad hd hne).2
    have key : ∀ (colour : Vector ℝ) (k1 : Nat), colour.nonneg → maxChannel obj.colour ≠ 0 →
        shade L scene self obj ray (hitPoint ray (intersect L.sqrt scene ray 0).2.1)
          ((hitPoint ray (intersect L.sqrt scene ray 0).2.1 - obj.position).norm L.sqrt)
          (orient ((hitPoint ray (intersect L.sqrt scene ray 0).2.1 - obj.position).norm L.sqrt)
            ray.direction) colour (depth + 1) k1 (intersect L.sqrt scene ray 0).2.2 emissive =
          some out → out.1.nonneg := by
      intro colour k1 hc hp hs
      refine shade_nonneg L hL scene self obj ray _ _ colour (depth + 1) k1 _ emissive hd hnorm
        hem hc hfl hself (fun hm k2 => ?_) out hs
      exact lightLoop_nonneg L hL scene _ _ colour hc (fun s hs2 => (hscene s hs2).2.1)
        (fun i sphere k2 id2 hi hl h1 h2 => hface obj hq hobj hm hp i sphere k2 id2 hi hl h1 h2)
        _ Vector.nonneg_zero
    unfold roulette at h
    by_cases hcond : depth + 1 > 5 ∨ maxChannel obj.colour = 0
    · rw [if_pos hcond] at h
      by_cases hu : erand48 L k < maxChannel obj.colour
      · rw [if_pos hu] at h
        have hp : 0 < maxChannel obj.colour := lt_of_le_of_lt (erand48_nonneg L k) hu
        exact key _ _ (Vector.nonneg_smul _ _ hcol (by positivity)) hp.ne.symm h
      · rw [if_neg hu] at h
        simp only [Sum.elim_inl, Option.some.injEq] at h
        rw [← h]
        exact Vector.nonneg_smul _ _ hem hflr
    · rw [if_neg hcond] at h
      exact key _ _ hcol (fun h0 => hcond (Or.inr h0)) h

end SignLemmas

/-- C20 (amended): for every scene of spheres with radius > 0 and emission and colour
channels >= 0, and every set `S` of unit-direction rays such that (i) on a ray of `S` the
body of `radiance` consults its recursive calls on rays of `S` only and (ii) at every
diffuse hit of non-zero roulette probability of a ray of `S`, every counted shadow
direction toward a light has `shadow . oriented >= 0`: for every ray of `S`, every depth,
every emissive flag >= 0 and every stream of draws, `radiance` returns (with enough
nesting budget) and each channel of its result is >= 0.  A direct-light contribution
`colour (*) emission * (shadow . oriented) * omega / pi` is >= 0 per channel when
`shadow . oriented >= 0`; the code adds it without testing that sign. -/
theorem radiance_nonneg_of_facing (L : Libc ℝ) (hL : L.sqrt = Real.sqrt)
    (scene : List (Sphere ℝ)) (S : Ray ℝ → Prop)
    (hscene : ∀ s ∈ scene, 0 < s.radius ∧ s.emission.nonneg ∧ s.colour.nonneg)
    (hunit : ∀ r : Ray ℝ, S r → r.direction.dot r.direction = 1)
    (hclosed : ∀ self1 self2 : Ray ℝ → Int → Nat → Int → Result ℝ,
      (∀ r : Ray ℝ, S r → ∀ (d : Int) (j : Nat) (e : Int), self1 r d j e = self2 r d j e) →
      ∀ r : Ray ℝ, S r → ∀ (d : Int) (k : Nat) (e : Int),
        radianceBody L scene self1 r d k e = radianceBody L scene self2 r d k e)
    (hfacing : ∀ ray : Ray ℝ, S ray → ∀ obj : Sphere ℝ,
      (intersect L.sqrt scene ray 0).1 = true →
      scene[(intersect L.sqrt scene ray 0).2.2]? = some obj →
      obj.material = Material.DIFFUSE → maxChannel obj.colour ≠ 0 →
      ∀ (i : Nat) (sphere : Sphere ℝ) (k2 id2 : Nat), scene[i]? = some sphere →
      ¬ (sphere.emission.x ≤ 0 ∧ sphere.emission.y ≤ 0 ∧ sphere.emission.z ≤ 0) →
      (intersect L.sqrt scene ⟨hitPoint ray (intersect L.sqrt scene ray 0).2.1,
        shadowDir L sphere (hitPoint ray (intersect L.sqrt scene ray 0).2.1) (erand48 L k2)
          (erand48 L (k2 + 1))⟩ id2).1 = true →
      (intersect L.sqrt scene ⟨hitPoint ray (intersect L.sqrt scene ray 0).2.1,
        shadowDir L sphere (hitPoint ray (intersect L.sqrt scene ray 0).2.1) (erand48 L k2)
          (erand48 L (k2 + 1))⟩ id2).2.2 = i →
      0 ≤ (shadowDir L sphere (hitPoint ray (intersect L.sqrt scene ray 0).2.1) (erand48 L k2)
          (erand48 L (k2 + 1))).dot
        (orient ((hitPoint ray (intersect L.sqrt scene ray 0).2.1 - obj.position).norm L.sqrt)
          ray.direction)) :
    (∀ ray : Ray ℝ, S ray → ∀ (depth : Int) (k : Nat) (emissive : Int) (n : Nat),
      0 ≤ emissive → (100 - depth).toNat + 1 ≤ n →
      ∃ out, radiance L scene n ray depth k emissive = some out ∧ out.1.nonneg) ∧
    (∀ (sphere : Sphere ℝ) (P oriented colour shadow : Vector ℝ), colour.nonneg →
      sphere.emission.nonneg → 0 ≤ shadow.dot oriented →
      (lightTerm L sphere P oriented colour shadow).nonneg) := by
  classical
  refine ⟨?_, fun sphere P oriented colour shadow hc he hcos =>
    lightTerm_nonneg L hL sphere P oriented colour shadow hc he hcos⟩
  have key : ∀ n : Nat, ∀ r : Ray ℝ, S r → ∀ (depth : Int) (k : Nat) (emissive : Int)
      (out : Vector ℝ × Nat), 0 ≤ emissive → radiance L scene n r depth k emissive = some out →
      out.1.nonneg := by
    intro n
    induction n with
    | zero =>
      intro r _ depth k emissive out _ h
      exact absurd h (by simp [radiance])
    | succ n ih =>
      intro r hr depth k emissive out hfl h
      have h2 : radianceBody L scene
          (fun r2 d j e => if S r2 then radiance L scene n r2 d j e else some (Vector.zero, j))
          r depth k emissive = some out := by
        rw [← h]
        exact hclosed _ _ (fun r2 hr2 d j e => by simp only [hr2, if_true]) r hr depth k emissive
      refine radianceBody_nonneg L hL scene hscene _ r depth k emissive (hunit r hr) hfl ?_
        (hfacing r hr) out h2
      intro r2 d j e o he ho
      by_cases hs : S r2
      · simp only [hs, if_true] at ho
        exact ih r2 hs d j e o he ho
      · simp only [hs, if_false, Option.some.injEq] at ho
        rw [← ho]
        exact Vector.nonneg_zero
  intro r hr depth k emissive n hfl hn
  obtain ⟨out, ho⟩ := radiance_isSome L scene n r depth k emissive hn
  exact ⟨out, ho, key n r hr depth k emissive out hfl ho⟩

/-! ### A run with a negative result -/

theorem zeroRand_erand48 (k : Nat) : erand48 (zeroRand Real.sqrt Real.cos Real.sin) k = 0 := by
  simp [erand48, zeroRand]

/-- The ray from (0,0,5) along (0,0,-1) on the sphere `selfLit`, with every draw 0: the
hit is (0,0,1) with oriented normal (0,0,1); the light loop samples `selfLit` itself with
shadow direction (0,0,-1), whose ray meets `selfLit` again at distance 2, so the term
`(1,1,1) (*) (1,1,1) * (-1) * 2 pi / pi = (-2,-2,-2)` is added; the bounce ray along
(0,0,1) leaves the scene.  The result is (1,1,1) + (-2,-2,-2) + 0. -/
theorem selfLit_run (n : Nat) :
    radiance (zeroRand Real.sqrt Real.cos Real.sin) [selfLit] (n + 2) axisRay 0 0 1 =
      some (⟨-1, -1, -1⟩, 4) := by
  have hq : intersect Real.sqrt ([selfLit] : List (Sphere ℝ)) axisRay 0 = (true, 4, 0) := by
    simp only [intersect, intersectLoop, List.length_cons, List.length_nil,
      List.getElem?_cons_zero, Sphere.intersect, selfLit, axisRay, Vector.dot,
      Vector.sub_x, Vector.sub_y, Vector.sub_z, eps, inf]
    norm_num
  have hP : hitPoint (axisRay : Ray ℝ) 4 = ⟨0, 0, 1⟩ := by
    simp only [hitPoint, axisRay, Vector.smul]
    rw [Vector.ext_iff3]
    norm_num
  have hn : ((⟨0, 0, 1⟩ : Vector ℝ) - (selfLit : Sphere ℝ).position).norm Real.sqrt =
      ⟨0, 0, 1⟩ := by
    simp only [selfLit, Vector.norm, Vector.smul, Vector.sub_x, Vector.sub_y, Vector.sub_z]
    rw [Vector.ext_iff3]
    norm_num
  have ho : orient (⟨0, 0, 1⟩ : Vector ℝ) (axisRay : Ray ℝ).direction = ⟨0, 0, 1⟩ := by
    simp only [orient, axisRay, Vector.dot]
    norm_num
  have hb : ∀ k : Nat,
      bounceDir (zeroRand Real.sqrt Real.cos Real.sin) ⟨0, 0, 1⟩ k = ⟨0, 0, 1⟩ := by
    intro k
    simp only [bounceDir, diffuseDir, perp, Vector.norm, Vector.cross, erand48, zeroRand, M_PI,
      Vector.smul, Vector.add_x, Vector.add_y, Vector.add_z]
    rw [Vector.ext_iff3]
    norm_num [abs_of_nonneg]
  have hsh : shadowDir (zeroRand Real.sqrt Real.cos Real.sin) (selfLit : Sphere ℝ) ⟨0, 0, 1⟩
      0 0 = ⟨0, 0, -1⟩ := by
    simp only [shadowDir, cosAMax, perp, selfLit, zeroRand, Vector.norm, Vector.cross,
      Vector.dot, M_PI, Vector.smul, Vector.add_x, Vector.add_y, Vector.add_z, Vector.sub_x,
      Vector.sub_y, Vector.sub_z]
    rw [Vector.ext_iff3]
    norm_num [abs_of_nonneg]
  have hq2 : intersect Real.sqrt ([selfLit] : List (Sphere ℝ)) ⟨⟨0, 0, 1⟩, ⟨0, 0, -1⟩⟩ 0 =
      (true, 2, 0) := by
    simp only [intersect, intersectLoop, List.length_cons, List.length_nil,
      List.getElem?_cons_zero, Sphere.intersect, selfLit, Vector.dot,
      Vector.sub_x, Vector.sub_y, Vector.sub_z, eps, inf]
    norm_num
  have hlt : lightTerm (zeroRand Real.sqrt Real.cos Real.sin) (selfLit : Sphere ℝ) ⟨0, 0, 1⟩
      ⟨0, 0, 1⟩ ⟨1, 1, 1⟩ ⟨0, 0, -1⟩ = ⟨-2, -2, -2⟩ := by
    simp only [lightTerm, cosAMax, selfLit, zeroRand, Vector.mult, Vector.smul, Vector.dot,
      Vector.sub_x, Vector.sub_y, Vector.sub_z, M_PI, M_1_PI]
    rw [Vector.ext_iff3]
    norm_num
  have hll : lightLoop (zeroRand Real.sqrt Real.cos Real.sin) [selfLit] ⟨0, 0, 1⟩ ⟨0, 0, 1⟩
      ⟨1, 1, 1⟩ (Vector.zero, 0 + 2, 0) = (⟨-2, -2, -2⟩, 4, 0) := by
    have he : ∀ k : Nat, erand48 (zeroRand Real.sqrt Real.cos Real.sin) k = 0 := by
      intro k
      simp [erand48, zeroRand]
    have hz : (zeroRand Real.sqrt Real.cos Real.sin : Libc ℝ).sqrt = Real.sqrt := rfl
    simp only [lightLoop, List.length_cons, List.length_nil, List.range_succ, List.range_zero,
      List.nil_append, List.foldl_cons, List.foldl_nil, List.getElem?_cons_zero, lightStep, he,
      hsh, hz, hq2, hlt]
    simp only [selfLit, Vector.zero]
    rw [if_neg (by norm_num), Prod.mk.injEq, Vector.ext_iff3]
    norm_num
  have hq3 : intersect Real.sqrt ([selfLit] : List (Sphere ℝ)) ⟨⟨0, 0, 1⟩, ⟨0, 0, 1⟩⟩ 0 =
      (false, inf, 0) := by
    simp only [intersect, intersectLoop, List.length_cons, List.length_nil,
      List.getElem?_cons_zero, Sphere.intersect, selfLit, Vector.dot,
      Vector.sub_x, Vector.sub_y, Vector.sub_z, eps, inf]
    norm_num
  have hrec : radiance (zeroRand Real.sqrt Real.cos Real.sin) [selfLit] (n + 1)
      ⟨⟨0, 0, 1⟩, ⟨0, 0, 1⟩⟩ (0 + 1) 4 0 = some (Vector.zero, 4) :=
    radianceBody_miss _ _ _ _ _ _ _ (by show (intersect Real.sqrt _ _ 0).1 = false; rw [hq3])
  have hp : maxChannel (selfLit : Sphere ℝ).colour = 1 := by
    simp [maxChannel, selfLit]
  have hr : roulette (zeroRand Real.sqrt Real.cos Real.sin) (0 + 1) 1
      (selfLit : Sphere ℝ).colour (selfLit : Sphere ℝ).emission 1 0 =
      (Sum.inr (selfLit : Sphere ℝ).colour, 0) := by
    unfold roulette
    rw [if_neg (by norm_num)]
  have hz : (zeroRand Real.sqrt Real.cos Real.sin : Libc ℝ).sqrt = Real.sqrt := rfl
  show radianceBody (zeroRand Real.sqrt Real.cos Real.sin) [selfLit]
    (radiance (zeroRand Real.sqrt Real.cos Real.sin) [selfLit] (n + 1)) axisRay 0 0 1 = _
  rw [radianceBody_hit _ _ _ _ _ _ _ selfLit
    (by show (intersect Real.sqrt _ _ 0).1 = true; rw [hq])
    (by show _[(intersect Real.sqrt _ _ 0).2.2]? = _; rw [hq]; rfl)]
  rw [hp, hr]
  simp only [Sum.elim_inr, shade]
  rw [if_neg (by norm_num)]
  show diffuse _ _ _ _ _ _ _ _ _ _ _ = _
  unfold diffuse
  simp only [hz, hq, hP, hn, ho, hb]
  have hcol : (selfLit : Sphere ℝ).colour = ⟨1, 1, 1⟩ := rfl
  rw [hcol, hll, hrec]
  simp only [Option.map_some', selfLit, Vector.mult, Vector.smul, Vector.zero]
  rw [Option.some.injEq, Prod.mk.injEq, Vector.ext_iff3]
  norm_num

/-- C20 (counterexample): the scene of the one sphere `selfLit` (radius 1, emission
(1,1,1), colour (1,1,1), diffuse) has radius > 0, emission >= 0 and colour channels in
[0,1]; the ray from (0,0,5) along (0,0,-1) has a unit direction; every draw is 0, in
[0,1); the flag is 1 and the depth 0.  For every nesting budget of at least two levels
`radiance` returns (-1,-1,-1): every channel is negative.  The direct-light contribution
added in the light loop is (-2,-2,-2). -/
theorem radiance_negative_selfLit :
    (∀ s ∈ ([selfLit] : List (Sphere ℝ)), 0 < s.radius ∧ s.emission.nonneg ∧ s.colour.nonneg ∧
        s.colour.x ≤ 1 ∧ s.colour.y ≤ 1 ∧ s.colour.z ≤ 1) ∧
      (axisRay : Ray ℝ).direction.dot (axisRay : Ray ℝ).direction = 1 ∧
      (∀ k : Nat, 0 ≤ erand48 (zeroRand Real.sqrt Real.cos Real.sin) k ∧
        erand48 (zeroRand Real.sqrt Real.cos Real.sin) k < 1) ∧
      (∀ n : Nat, radiance (zeroRand Real.sqrt Real.cos Real.sin) [selfLit] (n + 2) axisRay 0 0 1 =
        some (⟨-1, -1, -1⟩, 4)) ∧
      ¬ (⟨-1, -1, -1⟩ : Vector ℝ).nonneg ∧
      lightTerm (zeroRand Real.sqrt Real.cos Real.sin) (selfLit : Sphere ℝ) ⟨0, 0, 1⟩ ⟨0, 0, 1⟩
        ⟨1, 1, 1⟩ ⟨0, 0, -1⟩ = ⟨-2, -2, -2⟩ := by
  refine ⟨?_, ?_, ?_, selfLit_run, ?_, ?_⟩
  · intro s hs
    rw [List.mem_singleton] at hs
    subst hs
    simp only [selfLit, Vector.nonneg]
    norm_num
  · simp only [axisRay, Vector.dot]
    norm_num
  · intro k
    rw [zeroRand_erand48]
    norm_num
  · simp only [Vector.nonneg]
    norm_num
  · simp only [lightTerm, cosAMax, selfLit, zeroRand, Vector.mult, Vector.smul, Vector.dot,
      Vector.sub_x, Vector.sub_y, Vector.sub_z, M_PI, M_1_PI]
    rw [Vector.ext_iff3]
    norm_num

/-! ### The grey sphere under the light -/

/-- A call of `radiance` whose nearest hit is a sphere of colour (0,0,0) makes no
recursive call. -/
theorem radianceBody_zero_colour {α : Type} [LinearOrderedField α] (L : Libc α)
    (scene : List (Sphere α)) (self : Ray α → Int → Nat → Int → Result α) (ray : Ray α)
    (depth : Int) (k : Nat) (emissive : Int) (obj : Sphere α)
    (hq : (intersect L.sqrt scene ray 0).1 = true)
    (hobj : scene[(intersect L.sqrt scene ray 0).2.2]? = some obj)
    (hc : obj.colour = Vector.zero) :
    radianceBody L scene self ray depth k emissive =
      some (obj.emission.smul (emissive : α), k + 1) := by
  rw [radianceBody_hit L scene self ray depth k emissive obj hq hobj, hc, maxChannel_zero,
    roulette_zero]
  rfl

theorem greyScene_down :
    intersect Real.sqrt ([greySphere, lightSphere] : List (Sphere ℝ)) downRay 0 =
      (true, 2, 0) := by
  simp only [intersect, intersectLoop, List.length_cons, List.length_nil,
    List.getElem?_cons_zero, List.getElem?_cons_succ, Sphere.intersect, greySphere, lightSphere,
    downRay, Vector.dot, Vector.sub_x, Vector.sub_y, Vector.sub_z, eps, inf]
  norm_num

theorem greyScene_up :
    intersect Real.sqrt ([greySphere, lightSphere] : List (Sphere ℝ)) upRay 0 =
      (true, 4, 1) := by
  simp only [intersect, intersectLoop, List.length_cons, List.length_nil,
    List.getElem?_cons_zero, List.getElem?_cons_succ, Sphere.intersect, greySphere, lightSphere,
    upRay, Vector.dot, Vector.sub_x, Vector.sub_y, Vector.sub_z, eps, inf]
  norm_num

theorem greyScene_hitPoint : hitPoint (downRay : Ray ℝ) 2 = ⟨0, 0, 0⟩ := by
  simp only [hitPoint, downRay, Vector.smul]
  rw [Vector.ext_iff3]
  norm_num

theorem greyScene_normal :
    ((⟨0, 0, 0⟩ : Vector ℝ) - (greySphere : Sphere ℝ).position).norm Real.sqrt = ⟨0, 0, 1⟩ := by
  simp only [greySphere, Vector.norm, Vector.smul, Vector.sub_x, Vector.sub_y, Vector.sub_z]
  rw [Vector.ext_iff3]
  norm_num

theorem greyScene_orient :
    orient (⟨0, 0, 1⟩ : Vector ℝ) (downRay : Ray ℝ).direction = ⟨0, 0, 1⟩ := by
  simp only [orient, downRay, Vector.dot]
  norm_num

theorem zeroRand_bounceDir (k : Nat) :
    bounceDir (zeroRand Real.sqrt Real.cos Real.sin) ⟨0, 0, 1⟩ k = ⟨0, 0, 1⟩ := by
  simp only [bounceDir, diffuseDir, perp, Vector.norm, Vector.cross, erand48, zeroRand, M_PI,
    Vector.smul, Vector.add_x, Vector.add_y, Vector.add_z]
  rw [Vector.ext_iff3]
  norm_num [abs_of_nonneg]

/-- With both draws 0 the shadow direction from the origin toward the light at (0,0,5) is
(0,0,1), the direction of its centre. -/
theorem greyScene_shadowDir :
    shadowDir (zeroRand Real.sqrt Real.cos Real.sin) (lightSphere : Sphere ℝ) ⟨0, 0, 0⟩ 0 0 =
      ⟨0, 0, 1⟩ := by
  have h25 : Real.sqrt 25 = 5 := sqrt_of_sq 5 25 (by norm_num) (by norm_num)
  simp only [shadowDir, cosAMax, perp, lightSphere, zeroRand, Vector.norm, Vector.cross,
    Vector.dot, M_PI, Vector.smul, Vector.add_x, Vector.add_y, Vector.add_z, Vector.sub_x,
    Vector.sub_y, Vector.sub_z]
  rw [Vector.ext_iff3]
  norm_num [abs_of_nonneg, h25]

theorem greyScene_valid :
    ∀ s ∈ ([greySphere, lightSphere] : List (Sphere ℝ)),
      0 < s.radius ∧ s.emission.nonneg ∧ s.colour.nonneg := by
  intro s hs
  rw [List.mem_cons, List.mem_singleton] at hs
  rcases hs with rfl | rfl
  · simp only [greySphere, Vector.nonneg]
    norm_num
  · simp only [lightSphere, Vector.nonneg]
    norm_num

theorem greyScene_unit :
    ∀ r : Ray ℝ, r = downRay ∨ r = upRay → r.direction.dot r.direction = 1 := by
  intro r hr
  rcases hr with rfl | rfl
  · simp only [downRay, Vector.dot]
    norm_num
  · simp only [upRay, Vector.dot]
    norm_num

/-- On the rays `downRay` and `upRay` the body of `radiance` consults its recursive call
on `upRay` only: `downRay` meets the grey sphere at the origin and bounces along (0,0,1),
and `upRay` ends on the light, whose colour is (0,0,0). -/
theorem greyScene_closed :
    ∀ self1 self2 : Ray ℝ → Int → Nat → Int → Result ℝ,
      (∀ r : Ray ℝ, r = downRay ∨ r = upRay →
        ∀ (d : Int) (j : Nat) (e : Int), self1 r d j e = self2 r d j e) →
      ∀ r : Ray ℝ, r = downRay ∨ r = upRay → ∀ (d : Int) (k : Nat) (e : Int),
        radianceBody (zeroRand Real.sqrt Real.cos Real.sin) [greySphere, lightSphere] self1 r d k
            e =
          radianceBody (zeroRand Real.sqrt Real.cos Real.sin) [greySphere, lightSphere] self2 r d
            k e := by
  intro self1 self2 hagree r hr d k e
  have hz : (zeroRand Real.sqrt Real.cos Real.sin : Libc ℝ).sqrt = Real.sqrt := rfl
  rcases hr with rfl | rfl
  · have hq : (intersect (zeroRand Real.sqrt Real.cos Real.sin).sqrt
        ([greySphere, lightSphere] : List (Sphere ℝ)) downRay 0).1 = true := by
      rw [hz, greyScene_down]
    have hobj : ([greySphere, lightSphere] : List (Sphere ℝ))[(intersect
        (zeroRand Real.sqrt Real.cos Real.sin).sqrt
        ([greySphere, lightSphere] : List (Sphere ℝ)) downRay 0).2.2]? = some greySphere := by
      rw [hz, greyScene_down]
      rfl
    rw [radianceBody_hit _ _ _ _ _ _ _ greySphere hq hobj,
      radianceBody_hit _ _ _ _ _ _ _ greySphere hq hobj]
    rcases roulette (zeroRand Real.sqrt Real.cos Real.sin) (d + 1)
      (maxChannel (greySphere : Sphere ℝ).colour) (greySphere : Sphere ℝ).colour
      (greySphere : Sphere ℝ).emission e k with ⟨v | c, k1⟩
    · rfl
    · simp only [Sum.elim_inr, shade]
      by_cases hcap : d + 1 > 100
      · rw [if_pos hcap, if_pos hcap]
      · rw [if_neg hcap, if_neg hcap]
        show diffuse _ _ _ _ _ _ _ _ _ _ _ = diffuse _ _ _ _ _ _ _ _ _ _ _
        unfold diffuse
        simp only [hz, greyScene_down, greyScene_hitPoint, greyScene_normal, greyScene_orient,
          zeroRand_bounceDir]
        rw [hagree ⟨⟨0, 0, 0⟩, ⟨0, 0, 1⟩⟩ (Or.inr rfl)]
  · have hq : (intersect (zeroRand Real.sqrt Real.cos Real.sin).sqrt
        ([greySphere, lightSphere] : List (Sphere ℝ)) upRay 0).1 = true := by
      rw [hz, greyScene_up]
    have hobj : ([greySphere, lightSphere] : List (Sphere ℝ))[(intersect
        (zeroRand Real.sqrt Real.cos Real.sin).sqrt
        ([greySphere, lightSphere] : List (Sphere ℝ)) upRay 0).2.2]? = some lightSphere := by
      rw [hz, greyScene_up]
      rfl
    rw [radianceBody_zero_colour _ _ self1 _ _ _ _ lightSphere hq hobj rfl,
      radianceBody_zero_colour _ _ self2 _ _ _ _ lightSphere hq hobj rfl]

/-- On `downRay` the one counted shadow direction is (0,0,1), along the oriented normal
(0,0,1); on `upRay` the hit is the light, of roulette probability 0. -/
theorem greyScene_facing :
    ∀ ray : Ray ℝ, ray = downRay ∨ ray = upRay → ∀ obj : Sphere ℝ,
      (intersect (zeroRand Real.sqrt Real.cos Real.sin).sqrt
        ([greySphere, lightSphere] : List (Sphere ℝ)) ray 0).1 = true →
      ([greySphere, lightSphere] : List (Sphere ℝ))[(intersect
        (zeroRand Real.sqrt Real.cos Real.sin).sqrt
        ([greySphere, lightSphere] : List (Sphere ℝ)) ray 0).2.2]? = some obj →
      obj.material = Material.DIFFUSE → maxChannel obj.colour ≠ 0 →
      ∀ (i : Nat) (sphere : Sphere ℝ) (k2 id2 : Nat),
      ([greySphere, lightSphere] : List (Sphere ℝ))[i]? = some sphere →
      ¬ (sphere.emission.x ≤ 0 ∧ sphere.emission.y ≤ 0 ∧ sphere.emission.z ≤ 0) →
      (intersect (zeroRand Real.sqrt Real.cos Real.sin).sqrt [greySphere, lightSphere]
        ⟨hitPoint ray (intersect (zeroRand Real.sqrt Real.cos Real.sin).sqrt
          ([greySphere, lightSphere] : List (Sphere ℝ)) ray 0).2.1,
        shadowDir (zeroRand Real.sqrt Real.cos Real.sin) sphere
          (hitPoint ray (intersect (zeroRand Real.sqrt Real.cos Real.sin).sqrt
            ([greySphere, lightSphere] : List (Sphere ℝ)) ray 0).2.1)
          (erand48 (zeroRand Real.sqrt Real.cos Real.sin) k2)
          (erand48 (zeroRand Real.sqrt Real.cos Real.sin) (k2 + 1))⟩ id2).1 = true →
      (intersect (zeroRand Real.sqrt Real.cos Real.sin).sqrt [greySphere, lightSphere]
        ⟨hitPoint ray (intersect (zeroRand Real.sqrt Real.cos Real.sin).sqrt
          ([greySphere, lightSphere] : List (Sphere ℝ)) ray 0).2.1,
        shadowDir (zeroRand Real.sqrt Real.cos Real.sin) sphere
          (hitPoint ray (intersect (zeroRand Real.sqrt Real.cos Real.sin).sqrt
            ([greySphere, lightSphere] : List (Sphere ℝ)) ray 0).2.1)
          (erand48 (zeroRand Real.sqrt Real.cos Real.sin) k2)
          (erand48 (zeroRand Real.sqrt Real.cos Real.sin) (k2 + 1))⟩ id2).2.2 = i →
      0 ≤ (shadowDir (zeroRand Real.sqrt Real.cos Real.sin) sphere
          (hitPoint ray (intersect (zeroRand Real.sqrt Real.cos Real.sin).sqrt
            ([greySphere, lightSphere] : List (Sphere ℝ)) ray 0).2.1)
          (erand48 (zeroRand Real.sqrt Real.cos Real.sin) k2)
          (erand48 (zeroRand Real.sqrt Real.cos Real.sin) (k2 + 1))).dot
        (orient ((hitPoint ray (intersect (zeroRand Real.sqrt Real.cos Real.sin).sqrt
          ([greySphere, lightSphere] : List (Sphere ℝ)) ray 0).2.1 - obj.position).norm
            (zeroRand Real.sqrt Real.cos Real.sin).sqrt)
          ray.direction) := by
  intro ray hr obj _ hobj _ hp i sphere k2 id2 hi hnl _ _
  have hz : (zeroRand Real.sqrt Real.cos Real.sin : Libc ℝ).sqrt = Real.sqrt := rfl
  rcases hr with rfl | rfl
  · simp only [hz, greyScene_down, List.getElem?_cons_zero, Option.some.injEq] at hobj
    subst hobj
    have hmem : sphere ∈ ([greySphere, lightSphere] : List (Sphere ℝ)) :=
      List.mem_iff_getElem?.mpr ⟨i, hi⟩
    rw [List.mem_cons, List.mem_singleton] at hmem
    rcases hmem with rfl | rfl
    · exact absurd ⟨le_refl _, le_refl _, le_refl _⟩ hnl
    · simp only [hz, greyScene_down, greyScene_hitPoint, greyScene_normal, greyScene_orient,
        zeroRand_erand48, greyScene_shadowDir, Vector.dot]
      norm_num
  · simp only [hz, greyScene_up, List.getElem?_cons_succ, List.getElem?_cons_zero,
      Option.some.injEq] at hobj
    subst hobj
    exact absurd maxChannel_zero hp

/-- Witness of C20 (amended) over the reals: the grey sphere at (0,0,-1) under the light at
(0,0,5), every draw 0, and the rays `downRay` and `upRay`.  The one counted shadow
direction has `shadow . oriented = 1`, and the result on `downRay` at depth 0 with flag 1
has no negative channel. -/
theorem radiance_nonneg_of_facing_witness :
    (shadowDir (zeroRand Real.sqrt Real.cos Real.sin) (lightSphere : Sphere ℝ) ⟨0, 0, 0⟩ 0
        0).dot ⟨0, 0, 1⟩ = 1 ∧
      ∃ out, radiance (zeroRand Real.sqrt Real.cos Real.sin) [greySphere, lightSphere] 101
        downRay 0 0 1 = some out ∧ out.1.nonneg := by
  refine ⟨?_, (radiance_nonneg_of_facing (zeroRand Real.sqrt Real.cos Real.sin) rfl
    [greySphere, lightSphere] (fun r => r = downRay ∨ r = upRay) greyScene_valid greyScene_unit
    greyScene_closed greyScene_facing).1 downRay (Or.inl rfl) 0 0 1 101 (by decide)
    (by decide)⟩
  rw [greyScene_shadowDir]
  simp only [Vector.dot]
  norm_num

/-! ### The depth counter at `INT_MAX` -/

end Tracer
